import Mathlib

/-!
Verification of the RACE adapter C sources (race-adapter/src/main/c) against its
natural-language specification.  The development shallowly embeds:

* `databuf.c` — the big-endian byte-buffer codec (bytes are `Nat`s `< 256`,
  machine integers are `Int`s encoded through their two's-complement bit
  patterns, doubles are represented by their IEEE-754 bit patterns, which is
  faithful because the C code only ever bit-casts doubles to 64-bit integers);
* `messages.c` — the system message layer on top of the codec;
* `race.c` (`receive_message`) — the datagram dispatch of the receiver;
* `hmap.c` — the open-addressing/delayed-delete string hash map.
-/

namespace RaceC

/-! ## databuf.c — the byte buffer -/

/-- Model of `databuf_t`: the backing byte array (entries are `< 256` in every
reachable state), the cursor `pos`, and the capacity.  In the C struct the
buffer is a separately allocated array of `capacity` bytes; here we keep the
list and the capacity separately and relate them by hypotheses where needed. -/
structure databuf_t where
  buf : List Nat
  pos : Nat
  capacity : Nat
deriving DecidableEq

/-- Reading one byte of the backing array (C `db->buf[i]`). -/
def getByte (buf : List Nat) (i : Nat) : Nat := buf.getD i 0

/-- Writing consecutive bytes `bs` starting at `pos` (the C idiom
`buf[pos++] = b0; buf[pos++] = b1; ...`). -/
def writeBytesAt (buf : List Nat) (pos : Nat) : List Nat → List Nat
  | [] => buf
  | b :: bs => writeBytesAt (buf.set pos b) (pos + 1) bs

/-- Reading `n` consecutive bytes starting at `pos`. -/
def readBytesAt (buf : List Nat) (pos n : Nat) : List Nat :=
  (List.range n).map (fun i => getByte buf (pos + i))

/-- Big-endian byte decomposition of the low `k` bytes of `n`
(the network byte order produced by `htons`/`htonl`/`_htonll`). -/
def beBytes : Nat → Nat → List Nat
  | 0, _ => []
  | k + 1, n => (n / 256 ^ k % 256) :: beBytes k n

/-- Big-endian recomposition (the value read by `ntohs`/`ntohl`/`_ntohll`). -/
def beVal (bs : List Nat) : Nat := bs.foldl (fun a b => a * 256 + b) 0

/-- Two's-complement 16-bit pattern of a C `short` value. -/
def toPat16 (v : Int) : Nat := (v % 65536).toNat

/-- Two's-complement 32-bit pattern of a C `int` value. -/
def toPat32 (v : Int) : Nat := (v % 4294967296).toNat

/-- Two's-complement 64-bit pattern of a C `long` value. -/
def toPat64 (v : Int) : Nat := (v % 18446744073709551616).toNat

/-- Signed value of a 16-bit pattern. -/
def fromPat16 (n : Nat) : Int := if n < 32768 then (n : Int) else (n : Int) - 65536

/-- Signed value of a 32-bit pattern. -/
def fromPat32 (n : Nat) : Int :=
  if n < 2147483648 then (n : Int) else (n : Int) - 4294967296

/-- Signed value of a 64-bit pattern. -/
def fromPat64 (n : Nat) : Int :=
  if n < 9223372036854775808 then (n : Int) else (n : Int) - 18446744073709551616

/-- C `race_check_pos` (race.h): `pos >= 0 && pos < db->capacity`; with `Nat`
positions the first conjunct is automatic. -/
def race_check_pos (db : databuf_t) (pos : Nat) : Bool := pos < db.capacity

/-- C `race_init_databuf`: installs a caller-provided buffer and resets the
cursor (returns the cursor, which is 0). -/
def race_init_databuf (buf : List Nat) (capacity : Nat) : databuf_t :=
  { buf := buf, pos := 0, capacity := capacity }

/-- C `race_reset_databuf`. -/
def race_reset_databuf (db : databuf_t) : databuf_t := { db with pos := 0 }

/-- C `race_set_short`: stores a 16-bit big-endian value without touching the
cursor and without a bounds check. -/
def race_set_short (db : databuf_t) (pos : Nat) (v : Int) : databuf_t :=
  { db with buf := writeBytesAt db.buf pos (beBytes 2 (toPat16 v)) }

/-- C `race_write_short`: returns the pair (returned position, new buffer
state); the sentinel position 0 signals failure and leaves the state alone. -/
def race_write_short (db : databuf_t) (pos : Nat) (v : Int) : Nat × databuf_t :=
  if race_check_pos db (pos + 2) then
    (pos + 2,
      { db with buf := writeBytesAt db.buf pos (beBytes 2 (toPat16 v)), pos := pos + 2 })
  else (0, db)

/-- C `race_write_int`. -/
def race_write_int (db : databuf_t) (pos : Nat) (v : Int) : Nat × databuf_t :=
  if race_check_pos db (pos + 4) then
    (pos + 4,
      { db with buf := writeBytesAt db.buf pos (beBytes 4 (toPat32 v)), pos := pos + 4 })
  else (0, db)

/-- C `race_write_long`. -/
def race_write_long (db : databuf_t) (pos : Nat) (v : Int) : Nat × databuf_t :=
  if race_check_pos db (pos + 8) then
    (pos + 8,
      { db with buf := writeBytesAt db.buf pos (beBytes 8 (toPat64 v)), pos := pos + 8 })
  else (0, db)

/-- C `IS_D64` (`sizeof(double) == 8`), true on every platform the adapter
supports. -/
def IS_D64 : Bool := true

/-- C `race_write_double`.  A double is represented by its IEEE-754 bit
pattern `v < 2^64`; the C code bit-casts the double to a 64-bit integer and
stores its big-endian bytes, which is exactly this. -/
def race_write_double (db : databuf_t) (pos : Nat) (v : Nat) : Nat × databuf_t :=
  if IS_D64 && race_check_pos db (pos + 8) then
    (pos + 8,
      { db with buf := writeBytesAt db.buf pos (beBytes 8 (v % 18446744073709551616)),
                pos := pos + 8 })
  else (0, db)

/-- C `race_write_string`: a 16-bit length prefix (the `int` length argument is
converted to `short`, i.e. taken mod 2^16 on the wire) followed by `len` raw
bytes of `s`.  The inner `race_write_short` cannot fail when the outer bounds
check has passed. -/
def race_write_string (db : databuf_t) (pos : Nat) (s : List Nat) (len : Nat) :
    Nat × databuf_t :=
  if race_check_pos db (pos + len + 2) then
    let r := race_write_short db pos (len : Int)
    let db2 := r.2
    (r.1 + len,
      { db2 with buf := writeBytesAt db2.buf r.1 (s.take len), pos := r.1 + len })
  else (0, db)

/-- C `race_peek_short`: returns (returned position, decoded value) and does
not advance the cursor; on a failed bounds check the C leaves the output
variable untouched (the only caller `is_msg` uses buffers of capacity
`MAX_MSG_LEN`, for which the check always passes). -/
def race_peek_short (db : databuf_t) (pos : Nat) : Nat × Int :=
  if race_check_pos db (pos + 1) then
    (pos + 2, fromPat16 (getByte db.buf pos * 256 + getByte db.buf (pos + 1)))
  else (0, 0)

/-- C `race_read_short`: returns (returned position, new state, decoded
value). -/
def race_read_short (db : databuf_t) (pos : Nat) : Nat × databuf_t × Int :=
  if race_check_pos db (pos + 1) then
    (pos + 2, { db with pos := pos + 2 },
      fromPat16 (getByte db.buf pos * 256 + getByte db.buf (pos + 1)))
  else (0, db, 0)

/-- C `race_read_int`. -/
def race_read_int (db : databuf_t) (pos : Nat) : Nat × databuf_t × Int :=
  if race_check_pos db (pos + 3) then
    (pos + 4, { db with pos := pos + 4 }, fromPat32 (beVal (readBytesAt db.buf pos 4)))
  else (0, db, 0)

/-- C `race_read_long`. -/
def race_read_long (db : databuf_t) (pos : Nat) : Nat × databuf_t × Int :=
  if race_check_pos db (pos + 7) then
    (pos + 8, { db with pos := pos + 8 }, fromPat64 (beVal (readBytesAt db.buf pos 8)))
  else (0, db, 0)

/-- C `race_read_double` (result is the IEEE-754 bit pattern, see
`race_write_double`). -/
def race_read_double (db : databuf_t) (pos : Nat) : Nat × databuf_t × Nat :=
  if race_check_pos db (pos + 7) then
    (pos + 8, { db with pos := pos + 8 }, beVal (readBytesAt db.buf pos 8))
  else (0, db, 0)

/-- C `race_read_strncpy`: result is (returned position, new state, the bytes
copied into `dest`, `none` when nothing was written).  The C `memcpy`s
`n = len > max_len-1 ? max_len-1 : len` bytes and NUL-terminates; on the
truncated-string failure the cursor (already advanced by the inner
`race_read_short`) is rolled back by 2, on the negative-length failure it is
not.  (When `max_len = 0` the C computes `n = -1` and the `memcpy` is
undefined behaviour; the model copies nothing there.) -/
def race_read_strncpy (db : databuf_t) (pos max_len : Nat) :
    Nat × databuf_t × Option (List Nat) :=
  if race_check_pos db (pos + 2) then
    let r := race_read_short db pos
    let pos1 := r.1
    let db1 := r.2.1
    let len := r.2.2
    if 0 < len then
      if race_check_pos db1 (pos1 + len.toNat) then
        let n := if (len : Int) > (max_len : Int) - 1 then max_len - 1 else len.toNat
        (pos1 + len.toNat, { db1 with pos := pos1 + len.toNat },
          some (readBytesAt db1.buf pos1 n))
      else (0, { db1 with pos := db1.pos - 2 }, none)
    else if len = 0 then
      (pos1, { db1 with pos := pos1 }, some [])
    else (0, db1, none)
  else (0, db, none)

/-- C `race_read_strdup`: like `race_read_strncpy` but the copy is made with
`strndup`, which stops at an interior NUL byte. -/
def race_read_strdup (db : databuf_t) (pos : Nat) :
    Nat × databuf_t × Option (List Nat) :=
  if race_check_pos db (pos + 2) then
    let r := race_read_short db pos
    let pos1 := r.1
    let db1 := r.2.1
    let len := r.2.2
    if 0 < len then
      if race_check_pos db1 (pos1 + len.toNat) then
        (pos1 + len.toNat, { db1 with pos := pos1 + len.toNat },
          some ((readBytesAt db1.buf pos1 len.toNat).takeWhile (fun b => b ≠ 0)))
      else (0, { db1 with pos := db1.pos - 2 }, none)
    else if len = 0 then
      (pos1, { db1 with pos := pos1 }, some [])
    else (0, db1, none)
  else (0, db, none)

/-! ## messages.c — the system message layer

Message type ids: REQUEST 1, ACCEPT 2, REJECT 3, DATA 4, STOP 5, PAUSE 6,
RESUME 7.  `HEADER_LEN = 16`, `NO_FIXED_MSG_LEN = 0`, `SERVER_ID = 0`,
`NO_ID = -1`, `MAX_MSG_LEN = 2048`.  `race_epoch_millis()` is passed in as the
explicit `now` argument. -/

def MAX_MSG_LEN : Nat := 2048

/-- C `is_msg` (messages.c): checks `db->pos` (the number of received bytes)
against the expected fixed length and peeks the 16-bit type id at offset 0.
The peeked value is used even when `race_peek_short` fails its bounds check
(the C then compares an uninitialized local); this never happens because the
receive buffers have capacity `MAX_MSG_LEN`. -/
def is_msg (db : databuf_t) (expect_id : Int) (expect_len : Nat) : Bool :=
  let read_len := db.pos
  if 0 < read_len ∧ (expect_len = 0 ∨ read_len = expect_len) then
    (race_peek_short db 0).2 = expect_id
  else false

/-- C `write_header`: resets the buffer and writes the 16-byte header
(16-bit type id, 16-bit message length, 32-bit sender id, 64-bit epoch
milliseconds).  A failed write returns position 0, which the C threads into
the following write; this is modelled faithfully. -/
def write_header (db : databuf_t) (msg_id msg_len sender now : Int) : Nat × databuf_t :=
  let db0 := race_reset_databuf db
  let r1 := race_write_short db0 0 msg_id
  let r2 := race_write_short r1.2 r1.1 msg_len
  let r3 := race_write_int r2.2 r2.1 sender
  race_write_long r3.2 r3.1 now

/-- C `set_msg_len`: patches the 16-bit length field at offset 2. -/
def set_msg_len (db : databuf_t) (msg_len : Int) : databuf_t :=
  race_set_short db 2 msg_len

/-- C `read_header`: result is (returned position, new state, sender id,
epoch milliseconds).  Checks the received length against `check_len` (when
nonzero), the type id, and that the stored 16-bit length equals the number of
received bytes `db.pos`. -/
def read_header (db : databuf_t) (id : Int) (check_len : Nat) :
    Nat × databuf_t × Int × Int :=
  let read_len := db.pos
  if check_len = 0 ∨ read_len = check_len then
    let r1 := race_read_short db 0
    if r1.2.2 = id then
      let r2 := race_read_short r1.2.1 r1.1
      if r2.2.2 = (read_len : Int) then
        let r3 := race_read_int r2.2.1 r2.1
        let r4 := race_read_long r3.2.1 r3.1
        (r4.1, r4.2.1, r3.2.2, r4.2.2)
      else (0, r2.2.1, 0, 0)
    else (0, r1.2.1, 0, 0)
  else (0, db, 0, 0)

/-- C `race_write_request`: header (type 1, provisional length 0, sender
`NO_ID = -1`), then 32-bit flags, the schema string, 64-bit `sim_millis`,
32-bit `interval_millis`; finally the real length is patched in. -/
def race_write_request (db : databuf_t) (flags : Int) (schema : List Nat)
    (sim_millis interval_millis now : Int) : Nat × databuf_t :=
  let r0 := write_header db 1 0 (-1) now
  let r1 := race_write_int r0.2 r0.1 flags
  let r2 := race_write_string r1.2 r1.1 schema schema.length
  let r3 := race_write_long r2.2 r2.1 sim_millis
  let r4 := race_write_int r3.2 r3.1 interval_millis
  (r4.1, set_msg_len r4.2 (r4.1 : Int))

def race_is_request (db : databuf_t) : Bool := is_msg db 1 0

/-- Result record of `race_read_request`. -/
structure ReqRead where
  ret : Nat
  db : databuf_t
  time_millis : Int
  flags : Int
  schema : List Nat
  sim_millis : Int
  interval_millis : Int
deriving DecidableEq

/-- C `race_read_request`. -/
def race_read_request (db : databuf_t) (max_schema_len : Nat) : ReqRead :=
  let h := read_header db 1 0
  if 0 < h.1 then
    let r1 := race_read_int h.2.1 h.1
    let r2 := race_read_strncpy r1.2.1 r1.1 max_schema_len
    let r3 := race_read_long r2.2.1 r2.1
    let r4 := race_read_int r3.2.1 r3.1
    ⟨r4.1, r4.2.1, h.2.2.2, r1.2.2, (r2.2.2).getD [], r3.2.2, r4.2.2⟩
  else ⟨0, h.2.1, h.2.2.2, 0, [], 0, 0⟩

/-- C `race_write_accept` (`ACCEPT_LEN = 36`, sender `SERVER_ID = 0`). -/
def race_write_accept (db : databuf_t) (flags sim_millis interval_millis client_id now : Int) :
    Nat × databuf_t :=
  let r0 := write_header db 2 36 0 now
  let r1 := race_write_int r0.2 r0.1 flags
  let r2 := race_write_long r1.2 r1.1 sim_millis
  let r3 := race_write_int r2.2 r2.1 interval_millis
  race_write_int r3.2 r3.1 client_id

def race_is_accept (db : databuf_t) : Bool := is_msg db 2 36

/-- Result record of `race_read_accept`. -/
structure AcceptRead where
  ret : Nat
  db : databuf_t
  flags : Int
  sim_millis : Int
  interval_millis : Int
  client_id : Int
deriving DecidableEq

/-- C `race_read_accept`. -/
def race_read_accept (db : databuf_t) : AcceptRead :=
  let h := read_header db 2 36
  if 0 < h.1 then
    let r1 := race_read_int h.2.1 h.1
    let r2 := race_read_long r1.2.1 r1.1
    let r3 := race_read_int r2.2.1 r2.1
    let r4 := race_read_int r3.2.1 r3.1
    ⟨r4.1, r4.2.1, r1.2.2, r2.2.2, r3.2.2, r4.2.2⟩
  else ⟨0, h.2.1, 0, 0, 0, 0⟩

/-- C `race_write_reject` (`REJECT_LEN = 20`). -/
def race_write_reject (db : databuf_t) (reason now : Int) : Nat × databuf_t :=
  let r0 := write_header db 3 20 0 now
  race_write_int r0.2 r0.1 reason

def race_is_reject (db : databuf_t) : Bool := is_msg db 3 20

/-- C `race_read_reject`: result is (returned position, new state, reason). -/
def race_read_reject (db : databuf_t) : Nat × databuf_t × Int :=
  let h := read_header db 3 20
  if 0 < h.1 then
    let r1 := race_read_int h.2.1 h.1
    (r1.1, r1.2.1, r1.2.2)
  else (0, h.2.1, 0)

/-- C `race_write_stop` (header-only message, `STOP_MSG_LEN = 16`). -/
def race_write_stop (db : databuf_t) (sender_id now : Int) : Nat × databuf_t :=
  write_header db 5 16 sender_id now

def race_is_stop (db : databuf_t) : Bool := is_msg db 5 16

/-- C `race_read_stop`: result is (returned position, new state, sender id,
epoch milliseconds). -/
def race_read_stop (db : databuf_t) : Nat × databuf_t × Int × Int :=
  read_header db 5 16

/-- C `race_write_pause`. -/
def race_write_pause (db : databuf_t) (sender_id now : Int) : Nat × databuf_t :=
  write_header db 6 16 sender_id now

def race_is_pause (db : databuf_t) : Bool := is_msg db 6 16

def race_read_pause (db : databuf_t) : Nat × databuf_t × Int × Int :=
  read_header db 6 16

/-- C `race_write_resume`. -/
def race_write_resume (db : databuf_t) (sender_id now : Int) : Nat × databuf_t :=
  write_header db 7 16 sender_id now

def race_is_resume (db : databuf_t) : Bool := is_msg db 7 16

def race_read_resume (db : databuf_t) : Nat × databuf_t × Int × Int :=
  read_header db 7 16

def race_is_data (db : databuf_t) : Bool := is_msg db 4 0

/-- C `race_begin_write_data`. -/
def race_begin_write_data (db : databuf_t) (sender_id now : Int) : Nat × databuf_t :=
  write_header db 4 0 sender_id now

/-- C `race_end_write_data`. -/
def race_end_write_data (db : databuf_t) (pos : Nat) : Nat × databuf_t :=
  (pos, if 0 < pos then set_msg_len db (pos : Int) else db)

/-- C `race_read_data_header`. -/
def race_read_data_header (db : databuf_t) : Nat × databuf_t × Int × Int :=
  read_header db 4 0

/-! ## race.c — the receiver dispatch -/

/-- The fields of C `remote_endpoint_t` that `receive_message` touches. -/
structure remote_endpoint_t where
  id : Int
  time_request : Int
  time_last : Int
  is_stopped : Bool
deriving DecidableEq

/-- C `DATA_RECEIVER` flag (0x2). -/
def DATA_RECEIVER : Nat := 2

/-- Observable effect of one `receive_message` call: the updated remote state
and which context callbacks were invoked (`read_data_pos` is the payload
position handed to `context->read_data`). -/
structure RecvEffect where
  remote : remote_endpoint_t
  read_data_invoked : Bool
  read_data_pos : Nat
  paused_invoked : Bool
  resumed_invoked : Bool
deriving DecidableEq

/-- C `receive_message` (race.c lines 293-341) on one received datagram `db`
(with `db.pos` = number of received bytes): dispatches on the message type;
a Data message is handed to `context->read_data` only when the local endpoint
is a `DATA_RECEIVER`, the header parses, the sender id matches the negotiated
remote id, and `send_time` is not older than `remote.time_last`, which is
updated first. -/
def receive_message (flags : Nat) (remote : remote_endpoint_t) (db : databuf_t) :
    RecvEffect :=
  if race_is_stop db then
    let h := race_read_stop db
    if h.1 ≠ 0 ∧ h.2.2.1 = remote.id then
      ⟨{ remote with is_stopped := true }, false, 0, false, false⟩
    else ⟨remote, false, 0, false, false⟩
  else if race_is_data db then
    if flags.land DATA_RECEIVER ≠ 0 then
      let h := race_read_data_header db
      if h.1 = 0 then ⟨remote, false, 0, false, false⟩
      else if h.2.2.1 ≠ remote.id then ⟨remote, false, 0, false, false⟩
      else if h.2.2.2 < remote.time_last then ⟨remote, false, 0, false, false⟩
      else ⟨{ remote with time_last := h.2.2.2 }, true, h.1, false, false⟩
    else ⟨remote, false, 0, false, false⟩
  else if race_is_pause db then
    let h := race_read_pause db
    if h.1 ≠ 0 ∧ h.2.2.1 = remote.id then ⟨remote, false, 0, true, false⟩
    else ⟨remote, false, 0, false, false⟩
  else if race_is_resume db then
    let h := race_read_resume db
    if h.1 ≠ 0 ∧ h.2.2.1 = remote.id then ⟨remote, false, 0, false, true⟩
    else ⟨remote, false, 0, false, false⟩
  else ⟨remote, false, 0, false, false⟩

/-! ## hmap.c — the open-addressing/delayed-delete hash map

Keys are C strings, modelled as their byte contents: lists of `Nat`s (NUL-free
and `< 256` for genuine C strings).  `void*` data pointers are modelled by
`Option α` (`none` is `NULL`).  `uint32_t` arithmetic is `Nat` arithmetic
mod 2^32; `DELETED_HASH` (`(uint32_t)-1`) is 4294967295.  The unbounded C
probe loops are modelled with explicit fuel (`none` = the C loop would not
have terminated within the fuel); under the reachable-state invariant every
probe terminates within `size` steps, which is the fuel used. -/

abbrev Key := List Nat

def DELETED_HASH : Nat := 4294967295

/-- C `hmap_hash` (hmap.h): 32-bit FNV-1a over the bytes of the key. -/
def hmap_hash (key : Key) : Nat :=
  key.foldl (fun h c => ((h ^^^ c) * 16777619) % 4294967296) 2166136261

/-- C `hmap_entry_t`. -/
structure hmap_entry_t (α : Type) where
  key : Option Key
  hash : Nat
  data : Option α
deriving DecidableEq

/-- A never-written (calloc'ed) slot. -/
def empty_hmap_entry {α : Type} : hmap_entry_t α := ⟨none, 0, none⟩

/-- C `hmap_const_t`. -/
structure hmap_const_t where
  max_entries : Nat
  max_removed : Nat
  size : Nat
  rehash : Nat
deriving DecidableEq

/-- The static tier table `map_consts` of hmap.c. -/
def map_consts : List hmap_const_t :=
  [⟨8, 2, 13, 11⟩,
   ⟨16, 3, 19, 17⟩,
   ⟨32, 6, 43, 41⟩,
   ⟨64, 8, 73, 71⟩,
   ⟨128, 10, 151, 149⟩,
   ⟨256, 20, 283, 281⟩,
   ⟨512, 40, 571, 569⟩,
   ⟨1024, 80, 1153, 1151⟩,
   ⟨2048, 150, 2269, 2267⟩,
   ⟨4096, 300, 4519, 4517⟩,
   ⟨8192, 600, 9013, 9011⟩,
   ⟨16384, 1000, 18043, 18041⟩,
   ⟨32768, 2000, 36109, 36107⟩,
   ⟨65536, 3000, 72091, 72089⟩,
   ⟨131072, 5000, 144409, 144407⟩,
   ⟨262144, 8000, 288361, 288359⟩,
   ⟨524288, 10000, 576883, 576881⟩,
   ⟨1048576, 10000, 1153459, 1153457⟩,
   ⟨2097152, 10000, 2307163, 2307161⟩,
   ⟨4194304, 10000, 4613893, 4613891⟩,
   ⟨8388608, 10000, 9227641, 9227639⟩,
   ⟨16777216, 10000, 18455029, 18455027⟩]

/-- The scan inside C `get_const_idx`: first index whose `size` field is at
least the requested size. -/
def find_const_idx (size : Nat) : List hmap_const_t → Option Nat
  | [] => none
  | c :: rest =>
    if size ≤ c.size then some 0 else (find_const_idx size rest).map (· + 1)

/-- C `get_const_idx`: index of the first tier whose allocated size is at
least `size` (`none` models the C return value -1). -/
def get_const_idx (size : Nat) : Option Nat :=
  find_const_idx size map_consts

/-- C `hmap_t`. -/
structure hmap_t (α : Type) where
  consts : hmap_const_t
  const_idx : Nat
  n_entries : Nat
  n_removed : Nat
  entries : List (hmap_entry_t α)
deriving DecidableEq

/-- C `is_free_entry`: `key == NULL && hash == 0`. -/
def is_free_entry {α : Type} (e : hmap_entry_t α) : Bool :=
  e.key.isNone && e.hash == 0

/-- C `is_deleted_entry`: `hash == DELETED_HASH` (note: the key is not
examined). -/
def is_deleted_entry {α : Type} (e : hmap_entry_t α) : Bool :=
  e.hash == DELETED_HASH

/-- C `is_matching_entry`: `hash` equal, key pointer non-NULL and `strcmp`
equal. -/
def is_matching_entry {α : Type} (e : hmap_entry_t α) (h : Nat) (key : Key) : Bool :=
  e.hash == h && decide (e.key = some key)

/-- Slot access `&map->entries[idx]`. -/
def getEntry {α : Type} (m : hmap_t α) (idx : Nat) : hmap_entry_t α :=
  m.entries.getD idx empty_hmap_entry

/-- C `next_index`: double-hash step `(idx + 1 + h % rehash) % size`. -/
def next_index {α : Type} (m : hmap_t α) (idx h : Nat) : Nat :=
  (idx + (1 + h % m.consts.rehash)) % m.consts.size

/-- The probe sequence in closed form: index visited at step `t` when probing
for hash `h`. -/
def probeIdx {α : Type} (m : hmap_t α) (h t : Nat) : Nat :=
  (h % m.consts.size + t * (1 + h % m.consts.rehash)) % m.consts.size

/-- The inner placement loop of C `rehash`: probe the fresh array for a free
slot and copy the entry there.  Fuel-bounded (the C loop is unbounded). -/
def reinsert_loop {α : Type} (news : List (hmap_entry_t α)) (e : hmap_entry_t α)
    (new_size new_rehash : Nat) : Nat → Nat → Option (List (hmap_entry_t α))
  | _, 0 => none
  | idx, fuel + 1 =>
    if is_free_entry (news.getD idx empty_hmap_entry) then some (news.set idx e)
    else reinsert_loop news e new_size new_rehash
      ((idx + (1 + e.hash % new_rehash)) % new_size) fuel

/-- The outer walk of C `rehash`: scan the old array, copying live entries
into the fresh one until `n_entries` of them have been moved.  The C walks
off the end of the array if fewer live slots exist than `n_entries` claims
(impossible in reachable states); that case is modelled as `none`. -/
def rehash_walk {α : Type} (new_size new_rehash : Nat) :
    List (hmap_entry_t α) → Nat → List (hmap_entry_t α) → Option (List (hmap_entry_t α))
  | _, 0, news => some news
  | [], _ + 1, _ => none
  | e :: rest, n + 1, news =>
    if e.key.isSome then
      match reinsert_loop news e new_size new_rehash (e.hash % new_size) new_size with
      | none => none
      | some news' => rehash_walk new_size new_rehash rest n news'
    else rehash_walk new_size new_rehash rest (n + 1) news

/-- C `rehash`: `some (false, m)` models the C returning false (growth past
the last tier, no mutation); `some (true, m')` is a completed rehash;
`none` is fuel exhaustion in the placement loop (unreachable under the
invariant). -/
def rehash {α : Type} (m : hmap_t α) (grow : Bool) : Option (Bool × hmap_t α) :=
  let const_idx := if grow then m.const_idx + 1 else m.const_idx
  if const_idx < map_consts.length then
    let nc := map_consts.getD const_idx ⟨0, 0, 0, 0⟩
    match rehash_walk nc.size nc.rehash m.entries m.n_entries
        (List.replicate nc.size empty_hmap_entry) with
    | none => none
    | some new_entries =>
      some (true,
        { consts := if grow then nc else m.consts,
          const_idx := const_idx,
          n_entries := m.n_entries,
          n_removed := 0,
          entries := new_entries })
  else some (false, m)

/-- C `check_rehash`. -/
def check_rehash {α : Type} (m : hmap_t α) : Option (Bool × hmap_t α) :=
  if m.consts.max_entries ≤ m.n_entries + m.n_removed then
    rehash m (decide (m.n_removed ≤ m.consts.max_removed))
  else some (true, m)

/-- The probe loop of C `hmap_add_entry`. -/
def add_loop {α : Type} (m : hmap_t α) (key : Key) (data : Option α) (h : Nat) :
    Nat → Nat → Option (hmap_t α)
  | _, 0 => none
  | idx, fuel + 1 =>
    let e := getEntry m idx
    if is_free_entry e then
      some { m with entries := m.entries.set idx ⟨some key, h, data⟩,
                    n_entries := m.n_entries + 1 }
    else if is_matching_entry e h key then
      some { m with entries := m.entries.set idx ⟨some key, e.hash, data⟩ }
    else add_loop m key data h (next_index m idx h) fuel

/-- C `hmap_add_entry`: `some (false, m)` is the C returning false after a
failed growth; `some (true, m')` a successful insert or replace. -/
def hmap_add_entry {α : Type} (m : hmap_t α) (key : Key) (data : Option α) :
    Option (Bool × hmap_t α) :=
  match check_rehash m with
  | none => none
  | some (false, m') => some (false, m')
  | some (true, m') =>
    let h := hmap_hash key
    match add_loop m' key data h (h % m'.consts.size) m'.consts.size with
    | none => none
    | some m'' => some (true, m'')

/-- C `reloc_entry`: copy the entry at `idx_from` over the slot `idx_to` and
tombstone `idx_from`. -/
def reloc_entry {α : Type} (m : hmap_t α) (idx_from idx_to : Nat) : hmap_t α :=
  let e := getEntry m idx_from
  { m with entries := (m.entries.set idx_to e).set idx_from ⟨none, DELETED_HASH, none⟩ }

/-- The probe loop of C `hmap_get_entry`.  `e_reloc` remembers the index of
the first slot that looked deleted; `steps` counts the slots visited.  The
result is (the returned entry or `none` for the C NULL, the possibly
relocated map, slots visited). -/
def get_loop {α : Type} (m : hmap_t α) (key : Key) (h : Nat) :
    Option Nat → Nat → Nat → Nat → Option (Option (hmap_entry_t α) × hmap_t α × Nat)
  | _, _, _, 0 => none
  | e_reloc, idx, steps, fuel + 1 =>
    let e := getEntry m idx
    if is_free_entry e then some (none, m, steps + 1)
    else if is_matching_entry e h key then
      match e_reloc with
      | some j =>
        let m' := reloc_entry m idx j
        some (some (getEntry m' j), m', steps + 1)
      | none => some (some e, m, steps + 1)
    else if e_reloc.isNone && is_deleted_entry e then
      get_loop m key h (some idx) (next_index m idx h) (steps + 1) fuel
    else get_loop m key h e_reloc (next_index m idx h) (steps + 1) fuel

/-- C `hmap_get_entry`. -/
def hmap_get_entry {α : Type} (m : hmap_t α) (key : Key) :
    Option (Option (hmap_entry_t α) × hmap_t α × Nat) :=
  let h := hmap_hash key
  get_loop m key h none (h % m.consts.size) 0 m.consts.size

/-- The probe loop of C `hmap_remove_entry`. -/
def remove_loop {α : Type} (m : hmap_t α) (key : Key) (h : Nat) :
    Nat → Nat → Option (Bool × hmap_t α)
  | _, 0 => none
  | idx, fuel + 1 =>
    let e := getEntry m idx
    if is_free_entry e then some (false, m)
    else if is_matching_entry e h key then
      some (true,
        { m with entries := m.entries.set idx ⟨none, DELETED_HASH, none⟩,
                 n_entries := m.n_entries - 1,
                 n_removed := m.n_removed + 1 })
    else remove_loop m key h (next_index m idx h) fuel

/-- C `hmap_remove_entry`. -/
def hmap_remove_entry {α : Type} (m : hmap_t α) (key : Key) : Option (Bool × hmap_t α) :=
  let h := hmap_hash key
  remove_loop m key h (h % m.consts.size) m.consts.size

/-- C `hmap_create`. -/
def hmap_create (α : Type) (init_size : Nat) : Option (hmap_t α) :=
  match get_const_idx init_size with
  | some i =>
    let c := map_consts.getD i ⟨0, 0, 0, 0⟩
    some { consts := c, const_idx := i, n_entries := 0, n_removed := 0,
           entries := List.replicate c.size empty_hmap_entry }
  | none => none

/-! ## Operation sequences on the map, and the reference point semantics -/

/-- One client-visible mutating map operation. -/
inductive HmapOp (α : Type) where
  | add (key : Key) (data : Option α)
  | remove (key : Key)

/-- Run one operation.  A failed add (growth past the top tier) or a
fuel-exhausted probe yields `none`; a remove that returns false is a normal
outcome. -/
def runOp {α : Type} (m : hmap_t α) : HmapOp α → Option (hmap_t α)
  | .add k d =>
    match hmap_add_entry m k d with
    | some (true, m') => some m'
    | _ => none
  | .remove k =>
    match hmap_remove_entry m k with
    | some r => some r.2
    | none => none

/-- Run a sequence of operations. -/
def runOps {α : Type} (m : hmap_t α) : List (HmapOp α) → Option (hmap_t α)
  | [] => some m
  | op :: ops =>
    match runOp m op with
    | some m' => runOps m' ops
    | none => none

/-- Reference point semantics, following the spec wording: after the
sequence, `k` is bound to the value of the last `add` for `k` provided no
`remove` of `k` came later (`some d` = bound to `d`, `none` = absent). -/
def specLastAdded {α : Type} (ops : List (HmapOp α)) (k : Key) : Option (Option α) :=
  ops.foldl
    (fun acc op =>
      match op with
      | .add k' d => if k' = k then some d else acc
      | .remove k' => if k' = k then none else acc)
    none

/-- The value currently stored for key `k` (the data of the unique live slot
whose key is `k`). -/
def contentOf {α : Type} (m : hmap_t α) (k : Key) : Option (Option α) :=
  (m.entries.find? (fun e => decide (e.key = some k))).map (fun e => e.data)

/-! ## The reachable-state invariant of the map -/

/-- Every slot is free, a tombstone, or live with the FNV-1a hash of its
key. -/
def slotShapeOK {α : Type} (e : hmap_entry_t α) : Bool :=
  is_free_entry e ||
  (e.key.isNone && e.hash == DELETED_HASH && e.data.isNone) ||
  (match e.key with
   | some k => e.hash == hmap_hash k
   | none => false)

/-- Slot `j` is on the probe chain of hash `h` before any free slot. -/
def reachOK {α : Type} (m : hmap_t α) (h j : Nat) : Bool :=
  (List.range m.consts.size).any (fun t =>
    probeIdx m h t == j &&
    (List.range t).all (fun u => !is_free_entry (getEntry m (probeIdx m h u))))

/-- No two distinct slots hold the same key. -/
def uniqKeysOK {α : Type} (m : hmap_t α) : Bool :=
  (List.range m.entries.length).all (fun i =>
    (List.range i).all (fun j =>
      !((getEntry m i).key.isSome && decide ((getEntry m i).key = (getEntry m j).key))))

/-- Every live slot is reachable along its key's probe chain before any free
slot. -/
def reachAllOK {α : Type} (m : hmap_t α) : Bool :=
  (List.range m.consts.size).all (fun j =>
    match (getEntry m j).key with
    | some k => reachOK m (hmap_hash k) j
    | none => true)

/-- The invariant of every map reachable by `hmap_create` and a sequence of
successful operations: the tier data is a row of the static table, the entry
array has exactly that tier's size, the counters count the live and
tombstoned slots, the load never exceeds `max_entries`, all slots are
well-shaped, keys are unique, and live entries are reachable. -/
def hmapInv {α : Type} (m : hmap_t α) : Prop :=
  m.const_idx < map_consts.length ∧
  m.consts = map_consts.getD m.const_idx ⟨0, 0, 0, 0⟩ ∧
  m.entries.length = m.consts.size ∧
  m.entries.countP (fun e => e.key.isSome) = m.n_entries ∧
  m.entries.countP (fun e => e.key.isNone && e.hash == DELETED_HASH) = m.n_removed ∧
  m.n_entries + m.n_removed ≤ m.consts.max_entries ∧
  m.entries.all slotShapeOK = true ∧
  uniqKeysOK m = true ∧
  reachAllOK m = true

instance hmapInvDecidable {α : Type} [DecidableEq α] (m : hmap_t α) :
    Decidable (hmapInv m) := by
  unfold hmapInv; infer_instance

/-! ## Supporting data for the concrete counterexamples -/

/-- A five-byte printable C string (`"U[-_4"`) whose FNV-1a hash is
0xFFFFFFFF, i.e. exactly `DELETED_HASH`: a live entry holding it is
indistinguishable from a tombstone for `is_deleted_entry`. -/
def kSentinel : Key := [85, 91, 45, 95, 52]

/-- The one-byte key `"n"`, whose hash lands on the same primary slot
(mod 13) as `kSentinel`. -/
def kColl : Key := [110]

/-! ## Message values for the round-trip claim -/

/-- A system message together with its payload (the six header-level message
types that have writer/reader pairs in messages.c). -/
inductive RaceMsg where
  | request (flags : Int) (schema : List Nat) (sim_millis interval_millis : Int)
  | accept (flags sim_millis interval_millis client_id : Int)
  | reject (reason : Int)
  | stop (sender_id : Int)
  | pause (sender_id : Int)
  | resume (sender_id : Int)

/-- The wire type id of a message. -/
def msgTypeOf : RaceMsg → Nat
  | .request _ _ _ _ => 1
  | .accept _ _ _ _ => 2
  | .reject _ => 3
  | .stop _ => 5
  | .pause _ => 6
  | .resume _ => 7

/-- Dispatch to the writer of the message's type. -/
def encodeMsg (db : databuf_t) (now : Int) : RaceMsg → Nat × databuf_t
  | .request f s sm iv => race_write_request db f s sm iv now
  | .accept f sm iv cid => race_write_accept db f sm iv cid now
  | .reject r => race_write_reject db r now
  | .stop sid => race_write_stop db sid now
  | .pause sid => race_write_pause db sid now
  | .resume sid => race_write_resume db sid now

/-- Dispatch to the `race_is_*` predicate for wire type id `t`
(1 request, 2 accept, 3 reject, 4 data, 5 stop, 6 pause, 7 resume). -/
def isMsgType (db : databuf_t) : Nat → Bool
  | 1 => race_is_request db
  | 2 => race_is_accept db
  | 3 => race_is_reject db
  | 4 => race_is_data db
  | 5 => race_is_stop db
  | 6 => race_is_pause db
  | 7 => race_is_resume db
  | _ => false

def Int32Ok (v : Int) : Prop := -2147483648 ≤ v ∧ v < 2147483648

def Int64Ok (v : Int) : Prop :=
  -9223372036854775808 ≤ v ∧ v < 9223372036854775808

/-- Payload validity: all integral fields fit the C parameter types they are
passed as, and a schema is a NUL-free byte string short enough for the
`MAX_MSG_LEN` buffer. -/
def ValidPayload : RaceMsg → Prop
  | .request f s sm iv =>
    Int32Ok f ∧ Int64Ok sm ∧ Int32Ok iv ∧ s.length < 2014 ∧ ∀ b ∈ s, 0 < b ∧ b < 256
  | .accept f sm iv cid => Int32Ok f ∧ Int64Ok sm ∧ Int32Ok iv ∧ Int32Ok cid
  | .reject r => Int32Ok r
  | .stop sid => Int32Ok sid
  | .pause sid => Int32Ok sid
  | .resume sid => Int32Ok sid

/-- Length of the schema payload (0 for non-request messages). -/
def schemaLenOf : RaceMsg → Nat
  | .request _ s _ _ => s.length
  | _ => 0

/-- The bytes a message encodes to (header, then the type's payload
fields). -/
def msgBytes (now : Int) : RaceMsg → List Nat
  | .request f s sm iv =>
    beBytes 2 (toPat16 1) ++ beBytes 2 (toPat16 (34 + s.length)) ++
    beBytes 4 (toPat32 (-1)) ++ beBytes 8 (toPat64 now) ++
    beBytes 4 (toPat32 f) ++ beBytes 2 (toPat16 s.length) ++ s ++
    beBytes 8 (toPat64 sm) ++ beBytes 4 (toPat32 iv)
  | .accept f sm iv cid =>
    beBytes 2 (toPat16 2) ++ beBytes 2 (toPat16 36) ++
    beBytes 4 (toPat32 0) ++ beBytes 8 (toPat64 now) ++
    beBytes 4 (toPat32 f) ++ beBytes 8 (toPat64 sm) ++
    beBytes 4 (toPat32 iv) ++ beBytes 4 (toPat32 cid)
  | .reject r =>
    beBytes 2 (toPat16 3) ++ beBytes 2 (toPat16 20) ++
    beBytes 4 (toPat32 0) ++ beBytes 8 (toPat64 now) ++ beBytes 4 (toPat32 r)
  | .stop sid =>
    beBytes 2 (toPat16 5) ++ beBytes 2 (toPat16 16) ++
    beBytes 4 (toPat32 sid) ++ beBytes 8 (toPat64 now)
  | .pause sid =>
    beBytes 2 (toPat16 6) ++ beBytes 2 (toPat16 16) ++
    beBytes 4 (toPat32 sid) ++ beBytes 8 (toPat64 now)
  | .resume sid =>
    beBytes 2 (toPat16 7) ++ beBytes 2 (toPat16 16) ++
    beBytes 4 (toPat32 sid) ++ beBytes 8 (toPat64 now)

/-! # Theorems

First the byte-level toolkit for the buffer codec. -/

/-- A concrete size-13 map with one live entry (key `[20]`, primary slot 11)
sitting at probe position 1 (slot 3) behind a tombstone at its primary slot. -/
def relocW_m : hmap_t Nat :=
  ⟨⟨8, 2, 13, 11⟩, 0, 1, 1,
   [⟨none, 0, none⟩, ⟨none, 0, none⟩, ⟨none, 0, none⟩,
    ⟨some [20], 286027779, some 7⟩, ⟨none, 0, none⟩, ⟨none, 0, none⟩,
    ⟨none, 0, none⟩, ⟨none, 0, none⟩, ⟨none, 0, none⟩, ⟨none, 0, none⟩,
    ⟨none, 0, none⟩, ⟨none, 4294967295, none⟩, ⟨none, 0, none⟩]⟩

/-- `relocW_m` after the relocation performed by `hmap_get_entry _ [20]`:
the entry moved into the tombstone at slot 11, slot 3 tombstoned. -/
def relocW_m2 : hmap_t Nat :=
  ⟨⟨8, 2, 13, 11⟩, 0, 1, 1,
   [⟨none, 0, none⟩, ⟨none, 0, none⟩, ⟨none, 0, none⟩,
    ⟨none, 4294967295, none⟩, ⟨none, 0, none⟩, ⟨none, 0, none⟩,
    ⟨none, 0, none⟩, ⟨none, 0, none⟩, ⟨none, 0, none⟩, ⟨none, 0, none⟩,
    ⟨none, 0, none⟩, ⟨some [20], 286027779, some 7⟩, ⟨none, 0, none⟩]⟩

/-- The entry returned by `hmap_get_entry relocW_m [20]`. -/
def relocW_e : hmap_entry_t Nat := ⟨some [20], 286027779, some 7⟩

/-- The value of the C local `e_reloc` after the probe has advanced from
step `t` by `T` further steps (all of them on non-free, non-matching
slots). -/
def relocFrom {α : Type} (m : hmap_t α) (h : Nat) : Option Nat → Nat → Nat → Option Nat
  | er, _, 0 => er
  | er, t, T + 1 =>
    relocFrom m h
      (if er.isNone && is_deleted_entry (getEntry m (probeIdx m h t)) then
        some (probeIdx m h t)
       else er) (t + 1) T

/-- A live binding (key, data) present in a raw entry array. -/
def liveAtL {α : Type} (l : List (hmap_entry_t α)) (k : Key) (d : Option α) : Prop :=
  ∃ j < l.length, (l.getD j empty_hmap_entry).key = some k ∧
    (l.getD j empty_hmap_entry).data = d

/-- Invariant of the fresh array being filled during C `rehash`: correct
length, every slot free or live with its key hash, unique keys, and every
live slot reachable on its probe chain before any free slot. -/
def newsOK {α : Type} (M : hmap_t α) (news : List (hmap_entry_t α)) : Prop :=
  news.length = M.consts.size ∧
  (∀ e ∈ news, is_free_entry e = true ∨
    ∃ k : Key, e.key = some k ∧ e.hash = hmap_hash k) ∧
  (∀ i < news.length, ∀ j < news.length, ∀ k : Key,
    (news.getD i empty_hmap_entry).key = some k →
    (news.getD j empty_hmap_entry).key = some k → i = j) ∧
  (∀ j < M.consts.size, ∀ k : Key, (news.getD j empty_hmap_entry).key = some k →
    ∃ t < M.consts.size, probeIdx M (hmap_hash k) t = j ∧
      ∀ u < t,
        is_free_entry (news.getD (probeIdx M (hmap_hash k) u) empty_hmap_entry) = false)

lemma length_writeBytesAt (bs : List Nat) :
    ∀ (buf : List Nat) (pos : Nat), (writeBytesAt buf pos bs).length = buf.length := by
  induction bs with
  | nil => intro buf pos; rfl
  | cons b bs ih =>
    intro buf pos
    simp only [writeBytesAt, ih, List.length_set]

lemma getByte_writeBytesAt_lt (bs : List Nat) :
    ∀ (buf : List Nat) (pos i : Nat), i < pos →
      getByte (writeBytesAt buf pos bs) i = getByte buf i := by
  induction bs with
  | nil => intro buf pos i _; rfl
  | cons b bs ih =>
    intro buf pos i hi
    rw [writeBytesAt, ih _ _ _ (Nat.lt_succ_of_lt hi)]
    unfold getByte
    simp only [List.getD_eq_getElem?_getD, List.getElem?_set_ne (Nat.ne_of_gt hi)]

lemma getByte_writeBytesAt_ge (bs : List Nat) :
    ∀ (buf : List Nat) (pos i : Nat), pos + bs.length ≤ i →
      getByte (writeBytesAt buf pos bs) i = getByte buf i := by
  induction bs with
  | nil => intro buf pos i _; rfl
  | cons b bs ih =>
    intro buf pos i hi
    simp only [List.length_cons] at hi
    rw [writeBytesAt, ih _ _ _ (by omega)]
    unfold getByte
    have : pos ≠ i := by omega
    simp only [List.getD_eq_getElem?_getD, List.getElem?_set_ne this]

lemma getByte_writeBytesAt_at (bs : List Nat) :
    ∀ (buf : List Nat) (pos : Nat), pos + bs.length ≤ buf.length →
      ∀ j, j < bs.length → getByte (writeBytesAt buf pos bs) (pos + j) = bs.getD j 0 := by
  induction bs with
  | nil => intro buf pos _ j hj; exact absurd hj (by simp)
  | cons b bs ih =>
    intro buf pos hlen j hj
    match j with
    | 0 =>
      show getByte (writeBytesAt (buf.set pos b) (pos + 1) bs) (pos + 0) = b
      rw [getByte_writeBytesAt_lt bs _ _ _ (by omega : pos + 0 < pos + 1)]
      have hp : pos < buf.length := by simp only [List.length_cons] at hlen; omega
      simp [getByte, List.getD_eq_getElem?_getD, List.getElem?_set_eq hp]
    | j + 1 =>
      show getByte (writeBytesAt (buf.set pos b) (pos + 1) bs) (pos + (j + 1)) = bs.getD j 0
      have h1 : pos + (j + 1) = (pos + 1) + j := by omega
      rw [h1, ih _ _ (by simp only [List.length_set]; simp only [List.length_cons] at hlen; omega)
        j (by simp only [List.length_cons] at hj; omega)]

lemma writeBytesAt_append (bs1 bs2 : List Nat) :
    ∀ (buf : List Nat) (pos : Nat),
      writeBytesAt buf pos (bs1 ++ bs2) =
        writeBytesAt (writeBytesAt buf pos bs1) (pos + bs1.length) bs2 := by
  induction bs1 with
  | nil => intro buf pos; simp [writeBytesAt]
  | cons b bs ih =>
    intro buf pos
    show writeBytesAt (buf.set pos b) (pos + 1) (bs ++ bs2) =
      writeBytesAt (writeBytesAt (buf.set pos b) (pos + 1) bs) (pos + (b :: bs).length) bs2
    rw [ih]
    have : pos + (b :: bs).length = pos + 1 + bs.length := by simp; omega
    rw [this]

lemma set_writeBytesAt_comm (bs : List Nat) :
    ∀ (buf : List Nat) (pos i v : Nat), i < pos →
      (writeBytesAt buf pos bs).set i v = writeBytesAt (buf.set i v) pos bs := by
  induction bs with
  | nil => intro buf pos i v _; rfl
  | cons b bs ih =>
    intro buf pos i v hi
    simp only [writeBytesAt]
    rw [ih _ _ _ _ (Nat.lt_succ_of_lt hi), List.set_comm _ _ _ (Nat.ne_of_lt hi)]

lemma writeBytesAt_override (zs : List Nat) :
    ∀ (y1 y2 buf : List Nat) (pos : Nat), y1.length = zs.length →
      writeBytesAt (writeBytesAt buf pos (y1 ++ y2)) pos zs =
        writeBytesAt buf pos (zs ++ y2) := by
  induction zs with
  | nil =>
    intro y1 y2 buf pos hlen
    rw [List.length_eq_zero.mp hlen]
    rfl
  | cons z zs ih =>
    intro y1 y2 buf pos hlen
    match y1 with
    | [] => simp at hlen
    | a :: y1 =>
      simp only [List.length_cons] at hlen
      show writeBytesAt
          ((writeBytesAt (buf.set pos a) (pos + 1) (y1 ++ y2)).set pos z) (pos + 1) zs =
        writeBytesAt (buf.set pos z) (pos + 1) (zs ++ y2)
      rw [set_writeBytesAt_comm _ _ _ _ _ (by omega), List.set_set]
      exact ih y1 y2 (buf.set pos z) (pos + 1) (by omega)

lemma length_beBytes (k : Nat) : ∀ n, (beBytes k n).length = k := by
  induction k with
  | zero => intro n; rfl
  | succ k ih => intro n; simp only [beBytes, List.length_cons, ih]

lemma beBytes_lt (k : Nat) : ∀ n, ∀ b ∈ beBytes k n, b < 256 := by
  induction k with
  | zero => intro n b hb; simp [beBytes] at hb
  | succ k ih =>
    intro n b hb
    simp only [beBytes, List.mem_cons] at hb
    rcases hb with h | h
    · subst h; exact Nat.mod_lt _ (by norm_num)
    · exact ih n b h

lemma beVal_aux (k : Nat) :
    ∀ (n a : Nat), (beBytes k n).foldl (fun x b => x * 256 + b) a = a * 256 ^ k + n % 256 ^ k := by
  induction k with
  | zero => intro n a; simp [beBytes, beVal, Nat.mod_one]
  | succ k ih =>
    intro n a
    simp only [beBytes, List.foldl_cons, ih]
    have h256 : (256 : Nat) ^ (k + 1) = 256 ^ k * 256 := by ring
    have hmod : n % 256 ^ (k + 1) = n % 256 ^ k + 256 ^ k * (n / 256 ^ k % 256) := by
      rw [h256, Nat.mod_mul]
    rw [hmod]
    ring

lemma beVal_beBytes (k n : Nat) (h : n < 256 ^ k) : beVal (beBytes k n) = n := by
  unfold beVal
  rw [beVal_aux]
  simp [Nat.mod_eq_of_lt h]

lemma readBytesAt_writeBytesAt (buf : List Nat) (pos : Nat) (bs : List Nat)
    (h : pos + bs.length ≤ buf.length) :
    readBytesAt (writeBytesAt buf pos bs) pos bs.length = bs := by
  apply List.ext_getElem
  · simp [readBytesAt]
  · intro i h1 h2
    simp only [readBytesAt, List.getElem_map, List.getElem_range]
    have hi : i < bs.length := h2
    rw [getByte_writeBytesAt_at bs buf pos h i hi]
    exact List.getD_eq_getElem bs 0 hi

lemma toPat16_lt (v : Int) : toPat16 v < 65536 := by
  unfold toPat16; omega

lemma toPat32_lt (v : Int) : toPat32 v < 4294967296 := by
  unfold toPat32; omega

lemma toPat64_lt (v : Int) : toPat64 v < 18446744073709551616 := by
  unfold toPat64; omega

lemma fromPat16_toPat16 (v : Int) (h1 : -32768 ≤ v) (h2 : v < 32768) :
    fromPat16 (toPat16 v) = v := by
  unfold fromPat16 toPat16
  split <;> omega

lemma fromPat32_toPat32 (v : Int) (h1 : -2147483648 ≤ v) (h2 : v < 2147483648) :
    fromPat32 (toPat32 v) = v := by
  unfold fromPat32 toPat32
  split <;> omega

lemma fromPat64_toPat64 (v : Int) (h1 : -9223372036854775808 ≤ v)
    (h2 : v < 9223372036854775808) : fromPat64 (toPat64 v) = v := by
  unfold fromPat64 toPat64
  split <;> omega

/-! ## Claim C3 — write bounds contract

The claim says a scalar write succeeds exactly when `pos + needed ≤ capacity`.
The code's `race_check_pos` is strict (`pos < capacity` for the position one
past the last written byte), so a write filling the buffer exactly is
rejected: the true boundary is `pos + needed < capacity`.  The failure
behaviour (sentinel 0, no mutation) is as claimed. -/

/-- C3 counterexample: writing a short at position 0 into a buffer of
capacity 2 satisfies the claim's success condition `pos + needed ≤ capacity`,
yet the code returns the failure sentinel 0. -/
theorem C3_counterexample :
    (race_write_short (race_init_databuf (List.replicate 2 0) 2) 0 7).1 = 0 ∧
    (0 : Nat) + 2 ≤ 2 := by decide

/-- C3 (amended): every scalar encoder (i16, i32, i64, f64, string) at
position `pos` succeeds exactly when `pos + needed < capacity` (strictly);
on failure it returns the sentinel 0 with the buffer bytes and the cursor
untouched, and on success it returns `pos + needed`. -/
theorem C3_write_bounds (db : databuf_t) (pos : Nat) (v16 v32 v64 : Int) (vd : Nat)
    (s : List Nat) (len : Nat) :
    (((race_write_short db pos v16).1 ≠ 0 ↔ pos + 2 < db.capacity) ∧
      (¬ pos + 2 < db.capacity → race_write_short db pos v16 = (0, db)) ∧
      (pos + 2 < db.capacity → (race_write_short db pos v16).1 = pos + 2)) ∧
    (((race_write_int db pos v32).1 ≠ 0 ↔ pos + 4 < db.capacity) ∧
      (¬ pos + 4 < db.capacity → race_write_int db pos v32 = (0, db)) ∧
      (pos + 4 < db.capacity → (race_write_int db pos v32).1 = pos + 4)) ∧
    (((race_write_long db pos v64).1 ≠ 0 ↔ pos + 8 < db.capacity) ∧
      (¬ pos + 8 < db.capacity → race_write_long db pos v64 = (0, db)) ∧
      (pos + 8 < db.capacity → (race_write_long db pos v64).1 = pos + 8)) ∧
    (((race_write_double db pos vd).1 ≠ 0 ↔ pos + 8 < db.capacity) ∧
      (¬ pos + 8 < db.capacity → race_write_double db pos vd = (0, db)) ∧
      (pos + 8 < db.capacity → (race_write_double db pos vd).1 = pos + 8)) ∧
    (((race_write_string db pos s len).1 ≠ 0 ↔ pos + len + 2 < db.capacity) ∧
      (¬ pos + len + 2 < db.capacity → race_write_string db pos s len = (0, db)) ∧
      (pos + len + 2 < db.capacity → (race_write_string db pos s len).1 = pos + 2 + len)) := by
  refine ⟨⟨?_, ?_, ?_⟩, ⟨?_, ?_, ?_⟩, ⟨?_, ?_, ?_⟩, ⟨?_, ?_, ?_⟩, ⟨?_, ?_, ?_⟩⟩ <;>
    · simp only [race_write_short, race_write_int, race_write_long, race_write_double,
        race_write_string, race_check_pos, IS_D64, Bool.true_and, decide_eq_true_eq]
      split_ifs <;> first | rfl | omega | (simp_all <;> omega)

/-- C3 witness: a concrete failing write returning the sentinel with the
state untouched. -/
theorem C3_witness :
    race_write_short (race_init_databuf (List.replicate 2 0) 2) 0 7 =
      (0, race_init_databuf (List.replicate 2 0) 2) :=
  (C3_write_bounds (race_init_databuf (List.replicate 2 0) 2) 0 7 0 0 0 [] 0).1.2.1
    (by decide)

/-! ## Claim C4 — string read failure behaviour

The truncated-string failure does roll the cursor back (`db->pos -= 2`), but
the negative-length-prefix failure returns 0 *after* the inner
`race_read_short` has advanced the cursor by 2: the prefix is consumed there,
contradicting the claim. -/

/-- C4 counterexample: reading a string whose 16-bit prefix is 0xFFFF (-1)
from cursor position 0 fails with sentinel 0, but the cursor is left at 2,
not at its pre-call position. -/
theorem C4_counterexample :
    (race_read_strncpy ⟨[255, 255, 0, 0], 0, 4⟩ 0 10).1 = 0 ∧
    (race_read_strncpy ⟨[255, 255, 0, 0], 0, 4⟩ 0 10).2.1.pos ≠ 0 := by decide

/-- C4 (amended): with the cursor at `pos`, a failing `race_read_strncpy` or
`race_read_strdup` returns 0 and writes nothing into the destination; the
cursor is unchanged when the length prefix itself does not fit, rolled back
to `pos` when the prefixed length runs past the buffer end, but left at
`pos + 2` (the prefix is consumed) when the prefix is negative. -/
theorem C4_string_read_failure (db : databuf_t) (pos maxLen : Nat) (hp : db.pos = pos) :
    (¬ pos + 2 < db.capacity →
      race_read_strncpy db pos maxLen = (0, db, none) ∧
      race_read_strdup db pos = (0, db, none)) ∧
    (pos + 2 < db.capacity →
      (fromPat16 (getByte db.buf pos * 256 + getByte db.buf (pos + 1)) < 0 →
        race_read_strncpy db pos maxLen = (0, { db with pos := pos + 2 }, none) ∧
        race_read_strdup db pos = (0, { db with pos := pos + 2 }, none)) ∧
      (0 < fromPat16 (getByte db.buf pos * 256 + getByte db.buf (pos + 1)) →
        ¬ pos + 2 +
            (fromPat16 (getByte db.buf pos * 256 + getByte db.buf (pos + 1))).toNat <
          db.capacity →
        race_read_strncpy db pos maxLen = (0, db, none) ∧
        race_read_strdup db pos = (0, db, none))) := by
  subst hp
  refine ⟨fun hout => ?_, fun hout => ⟨fun hneg => ?_, fun hposl hover => ?_⟩⟩ <;>
    · unfold race_read_strncpy race_read_strdup race_read_short race_check_pos
      simp only [decide_eq_true_eq]
      split_ifs <;> first | rfl | omega | (simp_all <;> omega)

/-- C4 witness: the negative-prefix failure at a concrete buffer, with the
cursor ending at 2. -/
theorem C4_witness :
    race_read_strncpy ⟨[255, 255, 0, 0], 0, 4⟩ 0 10 = (0, ⟨[255, 255, 0, 0], 2, 4⟩, none) := by
  have h := (C4_string_read_failure ⟨[255, 255, 0, 0], 0, 4⟩ 0 10 rfl).2 (by decide)
  exact (h.1 (by decide)).1

/-! ## Claim C2 — scalar codec round trips

Evaluation lemmas for the success paths of the writers and readers, then the
round-trip theorem.  The claim universally quantifies over string values; a
string of length 32768 is writable into a large buffer but its 16-bit length
prefix wraps to -32768 on the wire, so the read fails: the round trip only
holds for strings shorter than 32768 bytes. -/

lemma race_write_short_eval (db : databuf_t) (pos : Nat) (v : Int)
    (h : pos + 2 < db.capacity) :
    race_write_short db pos v =
      (pos + 2,
        { db with buf := writeBytesAt db.buf pos (beBytes 2 (toPat16 v)), pos := pos + 2 }) := by
  unfold race_write_short race_check_pos
  simp [h]

lemma race_write_int_eval (db : databuf_t) (pos : Nat) (v : Int)
    (h : pos + 4 < db.capacity) :
    race_write_int db pos v =
      (pos + 4,
        { db with buf := writeBytesAt db.buf pos (beBytes 4 (toPat32 v)), pos := pos + 4 }) := by
  unfold race_write_int race_check_pos
  simp [h]

lemma race_write_long_eval (db : databuf_t) (pos : Nat) (v : Int)
    (h : pos + 8 < db.capacity) :
    race_write_long db pos v =
      (pos + 8,
        { db with buf := writeBytesAt db.buf pos (beBytes 8 (toPat64 v)), pos := pos + 8 }) := by
  unfold race_write_long race_check_pos
  simp [h]

lemma race_write_double_eval (db : databuf_t) (pos : Nat) (v : Nat)
    (h : pos + 8 < db.capacity) :
    race_write_double db pos v =
      (pos + 8,
        { db with buf := writeBytesAt db.buf pos (beBytes 8 (v % 18446744073709551616)),
                  pos := pos + 8 }) := by
  unfold race_write_double race_check_pos IS_D64
  simp [h]

lemma race_write_string_eval (db : databuf_t) (pos : Nat) (s : List Nat) (len : Nat)
    (h : pos + len + 2 < db.capacity) :
    race_write_string db pos s len =
      (pos + 2 + len,
        { db with buf := writeBytesAt db.buf pos (beBytes 2 (toPat16 (len : Int)) ++ s.take len),
                  pos := pos + 2 + len }) := by
  unfold race_write_string
  rw [race_write_short_eval db pos (len : Int) (by omega)]
  have hc : race_check_pos db (pos + len + 2) = true := by
    simp [race_check_pos]; omega
  rw [hc]
  simp only [if_true]
  rw [writeBytesAt_append]
  simp [length_beBytes]

lemma race_read_short_eval (db : databuf_t) (pos : Nat) (h : pos + 1 < db.capacity) :
    race_read_short db pos =
      (pos + 2, { db with pos := pos + 2 },
        fromPat16 (getByte db.buf pos * 256 + getByte db.buf (pos + 1))) := by
  unfold race_read_short race_check_pos
  simp [h]

lemma race_read_int_eval (db : databuf_t) (pos : Nat) (h : pos + 3 < db.capacity) :
    race_read_int db pos =
      (pos + 4, { db with pos := pos + 4 }, fromPat32 (beVal (readBytesAt db.buf pos 4))) := by
  unfold race_read_int race_check_pos
  simp [h]

lemma race_read_long_eval (db : databuf_t) (pos : Nat) (h : pos + 7 < db.capacity) :
    race_read_long db pos =
      (pos + 8, { db with pos := pos + 8 }, fromPat64 (beVal (readBytesAt db.buf pos 8))) := by
  unfold race_read_long race_check_pos
  simp [h]

lemma race_read_double_eval (db : databuf_t) (pos : Nat) (h : pos + 7 < db.capacity) :
    race_read_double db pos =
      (pos + 8, { db with pos := pos + 8 }, beVal (readBytesAt db.buf pos 8)) := by
  unfold race_read_double race_check_pos
  simp [h]

/-- Reading `k` bytes back from a just-written `k`-byte big-endian pattern
recovers the pattern. -/
lemma beVal_read_write (buf : List Nat) (pos k n : Nat) (hn : n < 256 ^ k)
    (hlen : pos + k ≤ buf.length) :
    beVal (readBytesAt (writeBytesAt buf pos (beBytes k n)) pos k) = n := by
  have h2 := readBytesAt_writeBytesAt buf pos (beBytes k n) (by rw [length_beBytes]; omega)
  rw [length_beBytes] at h2
  rw [h2, beVal_beBytes k n hn]

/-- The two bytes of a 16-bit pattern, recombined. -/
lemma short_bytes_val (buf : List Nat) (pos n : Nat) (hn : n < 65536)
    (hlen : pos + 2 ≤ buf.length) :
    getByte (writeBytesAt buf pos (beBytes 2 n)) pos * 256 +
      getByte (writeBytesAt buf pos (beBytes 2 n)) (pos + 1) = n := by
  have h0 := getByte_writeBytesAt_at (beBytes 2 n) buf pos
    (by rw [length_beBytes]; omega) 0 (by rw [length_beBytes]; omega)
  have h1 := getByte_writeBytesAt_at (beBytes 2 n) buf pos
    (by rw [length_beBytes]; omega) 1 (by rw [length_beBytes]; omega)
  rw [Nat.add_zero] at h0
  rw [h0, h1]
  have hb : beBytes 2 n = [n / 256 % 256, n / 1 % 256] := rfl
  rw [hb]
  simp only [List.getD_cons_zero, List.getD_cons_succ]
  simp only [Nat.div_one]
  omega

lemma wshort_roundtrip (db : databuf_t) (pos : Nat) (v16 : Int)
    (hbuf : db.buf.length = db.capacity) (h16a : -32768 ≤ v16) (h16b : v16 < 32768)
    (h : (race_write_short db pos v16).1 ≠ 0) :
    race_read_short (race_write_short db pos v16).2 pos =
      ((race_write_short db pos v16).1, (race_write_short db pos v16).2, v16) := by
  have hcap : pos + 2 < db.capacity :=
    ((C3_write_bounds db pos v16 0 0 0 [] 0).1.1).mp h
  rw [race_write_short_eval db pos v16 hcap]
  rw [race_read_short_eval _ pos (by show pos + 1 < db.capacity; omega)]
  rw [short_bytes_val db.buf pos (toPat16 v16) (toPat16_lt v16) (by omega)]
  rw [fromPat16_toPat16 v16 h16a h16b]

lemma wint_roundtrip (db : databuf_t) (pos : Nat) (v32 : Int)
    (hbuf : db.buf.length = db.capacity) (h32 : Int32Ok v32)
    (h : (race_write_int db pos v32).1 ≠ 0) :
    race_read_int (race_write_int db pos v32).2 pos =
      ((race_write_int db pos v32).1, (race_write_int db pos v32).2, v32) := by
  have hcap : pos + 4 < db.capacity :=
    ((C3_write_bounds db pos 0 v32 0 0 [] 0).2.1.1).mp h
  rw [race_write_int_eval db pos v32 hcap]
  rw [race_read_int_eval _ pos (by show pos + 3 < db.capacity; omega)]
  rw [beVal_read_write db.buf pos 4 (toPat32 v32)
    (by have := toPat32_lt v32; norm_num at this ⊢; omega) (by omega)]
  rw [fromPat32_toPat32 v32 h32.1 h32.2]

lemma wlong_roundtrip (db : databuf_t) (pos : Nat) (v64 : Int)
    (hbuf : db.buf.length = db.capacity) (h64 : Int64Ok v64)
    (h : (race_write_long db pos v64).1 ≠ 0) :
    race_read_long (race_write_long db pos v64).2 pos =
      ((race_write_long db pos v64).1, (race_write_long db pos v64).2, v64) := by
  have hcap : pos + 8 < db.capacity :=
    ((C3_write_bounds db pos 0 0 v64 0 [] 0).2.2.1.1).mp h
  rw [race_write_long_eval db pos v64 hcap]
  rw [race_read_long_eval _ pos (by show pos + 7 < db.capacity; omega)]
  rw [beVal_read_write db.buf pos 8 (toPat64 v64)
    (by have := toPat64_lt v64; norm_num at this ⊢; omega) (by omega)]
  rw [fromPat64_toPat64 v64 h64.1 h64.2]

lemma wdouble_roundtrip (db : databuf_t) (pos : Nat) (vd : Nat)
    (hbuf : db.buf.length = db.capacity) (hd : vd < 18446744073709551616)
    (h : (race_write_double db pos vd).1 ≠ 0) :
    race_read_double (race_write_double db pos vd).2 pos =
      ((race_write_double db pos vd).1, (race_write_double db pos vd).2, vd) := by
  have hcap : pos + 8 < db.capacity :=
    ((C3_write_bounds db pos 0 0 0 vd [] 0).2.2.2.1.1).mp h
  rw [race_write_double_eval db pos vd hcap]
  rw [race_read_double_eval _ pos (by show pos + 7 < db.capacity; omega)]
  rw [beVal_read_write db.buf pos 8 (vd % 18446744073709551616)
    (by norm_num; omega) (by omega)]
  rw [Nat.mod_eq_of_lt hd]

lemma wstring_roundtrip (db : databuf_t) (pos : Nat) (s : List Nat) (maxLen : Nat)
    (hbuf : db.buf.length = db.capacity) (hs : s.length < 32768) (hml : s.length < maxLen)
    (h : (race_write_string db pos s s.length).1 ≠ 0) :
    race_read_strncpy (race_write_string db pos s s.length).2 pos maxLen =
      ((race_write_string db pos s s.length).1, (race_write_string db pos s s.length).2,
        some s) := by
  have hcap : pos + s.length + 2 < db.capacity :=
    ((C3_write_bounds db pos 0 0 0 0 s s.length).2.2.2.2.1).mp h
  rw [race_write_string_eval db pos s s.length hcap]
  simp only [List.take_length]
  have hlenbuf : (writeBytesAt db.buf pos (beBytes 2 (toPat16 (s.length : Int)) ++ s)).length =
      db.capacity := by rw [length_writeBytesAt]; exact hbuf
  have hsplit : writeBytesAt db.buf pos (beBytes 2 (toPat16 (s.length : Int)) ++ s) =
      writeBytesAt (writeBytesAt db.buf pos (beBytes 2 (toPat16 (s.length : Int))))
        (pos + 2) s := by
    rw [writeBytesAt_append, length_beBytes]
  have hval2 : getByte (writeBytesAt db.buf pos
        (beBytes 2 (toPat16 (s.length : Int)) ++ s)) pos * 256 +
      getByte (writeBytesAt db.buf pos (beBytes 2 (toPat16 (s.length : Int)) ++ s)) (pos + 1) =
      toPat16 (s.length : Int) := by
    rw [hsplit, getByte_writeBytesAt_lt s _ _ _ (by omega),
      getByte_writeBytesAt_lt s _ _ _ (by omega)]
    exact short_bytes_val db.buf pos _ (toPat16_lt _) (by omega)
  have hfp : fromPat16 (toPat16 (s.length : Int)) = (s.length : Int) :=
    fromPat16_toPat16 _ (by omega) (by omega)
  have hread : readBytesAt (writeBytesAt db.buf pos
      (beBytes 2 (toPat16 (s.length : Int)) ++ s)) (pos + 2) s.length = s := by
    rw [hsplit]
    exact readBytesAt_writeBytesAt _ (pos + 2) s (by rw [length_writeBytesAt, hbuf]; omega)
  unfold race_read_strncpy
  rw [race_read_short_eval _ pos (by show pos + 1 < db.capacity; omega)]
  simp only [hval2, hfp, Int.toNat_natCast]
  cases s with
  | nil =>
    rw [if_pos (by simp only [race_check_pos, decide_eq_true_eq]; omega),
      if_neg (by norm_num), if_pos (by norm_num)]
    simp
  | cons b0 srest =>
    rw [if_pos (by simp only [race_check_pos, decide_eq_true_eq]; omega),
      if_pos (by simp),
      if_pos (by simp only [race_check_pos, decide_eq_true_eq]
                 simp only [List.length_cons] at hcap ⊢
                 omega),
      if_neg (by push_cast
                 simp only [List.length_cons] at hml ⊢
                 omega)]
    rw [hread]

/-- C2 (amended): round trip for every scalar codec, with strings restricted
to lengths below 32768 (the 16-bit length prefix bound); plus the concrete
byte layout and read-back of the documented long/double/string example. -/
theorem C2_codec_roundtrip (db : databuf_t) (pos : Nat) (v16 v32 v64 : Int) (vd : Nat)
    (s : List Nat) (maxLen : Nat) (hbuf : db.buf.length = db.capacity)
    (h16a : -32768 ≤ v16) (h16b : v16 < 32768) (h32 : Int32Ok v32) (h64 : Int64Ok v64)
    (hd : vd < 18446744073709551616) (hs : s.length < 32768) (hml : s.length < maxLen) :
    ((race_write_short db pos v16).1 ≠ 0 →
      race_read_short (race_write_short db pos v16).2 pos =
        ((race_write_short db pos v16).1, (race_write_short db pos v16).2, v16)) ∧
    ((race_write_int db pos v32).1 ≠ 0 →
      race_read_int (race_write_int db pos v32).2 pos =
        ((race_write_int db pos v32).1, (race_write_int db pos v32).2, v32)) ∧
    ((race_write_long db pos v64).1 ≠ 0 →
      race_read_long (race_write_long db pos v64).2 pos =
        ((race_write_long db pos v64).1, (race_write_long db pos v64).2, v64)) ∧
    ((race_write_double db pos vd).1 ≠ 0 →
      race_read_double (race_write_double db pos vd).2 pos =
        ((race_write_double db pos vd).1, (race_write_double db pos vd).2, vd)) ∧
    ((race_write_string db pos s s.length).1 ≠ 0 →
      race_read_strncpy (race_write_string db pos s s.length).2 pos maxLen =
        ((race_write_string db pos s s.length).1, (race_write_string db pos s s.length).2,
          some s)) ∧
    ((race_write_string
        (race_write_double
          (race_write_long (race_init_databuf (List.replicate 100 0) 100) 0
            1229801703532086340).2 8 4608238512912635789).2 16
        [98, 108, 97, 104, 104] 5).1 = 23 ∧
      (race_write_string
        (race_write_double
          (race_write_long (race_init_databuf (List.replicate 100 0) 100) 0
            1229801703532086340).2 8 4608238512912635789).2 16
        [98, 108, 97, 104, 104] 5).2.buf.take 23 =
        [17, 17, 34, 34, 51, 51, 68, 68,
         63, 243, 192, 131, 18, 110, 151, 141,
         0, 5, 98, 108, 97, 104, 104] ∧
      (race_read_long (race_write_string
        (race_write_double
          (race_write_long (race_init_databuf (List.replicate 100 0) 100) 0
            1229801703532086340).2 8 4608238512912635789).2 16
        [98, 108, 97, 104, 104] 5).2 0).2.2 = 1229801703532086340 ∧
      (race_read_double (race_write_string
        (race_write_double
          (race_write_long (race_init_databuf (List.replicate 100 0) 100) 0
            1229801703532086340).2 8 4608238512912635789).2 16
        [98, 108, 97, 104, 104] 5).2 8).2.2 = 4608238512912635789 ∧
      (race_read_strncpy (race_write_string
        (race_write_double
          (race_write_long (race_init_databuf (List.replicate 100 0) 100) 0
            1229801703532086340).2 8 4608238512912635789).2 16
        [98, 108, 97, 104, 104] 5).2 16 128).2.2 = some [98, 108, 97, 104, 104]) :=
  ⟨wshort_roundtrip db pos v16 hbuf h16a h16b,
   wint_roundtrip db pos v32 hbuf h32,
   wlong_roundtrip db pos v64 hbuf h64,
   wdouble_roundtrip db pos vd hbuf hd,
   wstring_roundtrip db pos s maxLen hbuf hs hml,
   by decide⟩

/-- C2 witness: the concrete triple round trip via the theorem. -/
theorem C2_witness :
    race_read_long
        (race_write_long (race_init_databuf (List.replicate 100 0) 100) 0
          1229801703532086340).2 0 =
      ((race_write_long (race_init_databuf (List.replicate 100 0) 100) 0
          1229801703532086340).1,
        (race_write_long (race_init_databuf (List.replicate 100 0) 100) 0
          1229801703532086340).2, 1229801703532086340) :=
  (C2_codec_roundtrip (race_init_databuf (List.replicate 100 0) 100) 0 0 0
      1229801703532086340 0 [] 1 (by decide) (by decide) (by decide)
      (by constructor <;> decide) (by constructor <;> decide) (by decide) (by decide)
      (by decide)).2.2.1 (by decide)

/-- The negative-length-prefix failure path of `race_read_strncpy`, for an
arbitrary cursor. -/
lemma race_read_strncpy_negative (db : databuf_t) (pos maxLen : Nat)
    (h2 : pos + 2 < db.capacity)
    (hneg : fromPat16 (getByte db.buf pos * 256 + getByte db.buf (pos + 1)) < 0) :
    race_read_strncpy db pos maxLen = (0, { db with pos := pos + 2 }, none) := by
  unfold race_read_strncpy
  rw [race_read_short_eval db pos (by omega)]
  dsimp only
  rw [if_pos (by simp only [race_check_pos, decide_eq_true_eq]; omega),
    if_neg (by omega), if_neg (by omega)]

/-- C2 counterexample: a 32768-byte string is written successfully into a
32771-byte buffer (returned position 32770 > 0), but its stored length
prefix is the 16-bit pattern of -32768, so reading it back fails with the
sentinel 0 instead of recovering the string: the round trip fails even
though the write succeeded and the destination capacity (40000) exceeds the
stored length. -/
theorem C2_counterexample :
    (race_write_string (race_init_databuf (List.replicate 32771 0) 32771) 0
      (List.replicate 32768 97) 32768).1 = 32770 ∧
    (race_read_strncpy
      (race_write_string (race_init_databuf (List.replicate 32771 0) 32771) 0
        (List.replicate 32768 97) 32768).2 0 40000).1 = 0 := by
  have main : ∀ s : List Nat, s.length = 32768 →
      (race_write_string (race_init_databuf (List.replicate 32771 0) 32771) 0 s 32768).1 =
        32770 ∧
      (race_read_strncpy
        (race_write_string (race_init_databuf (List.replicate 32771 0) 32771) 0
          s 32768).2 0 40000).1 = 0 := by
    intro s hs
    have hw := race_write_string_eval (race_init_databuf (List.replicate 32771 0) 32771) 0
      s 32768 (by show 0 + 32768 + 2 < 32771; norm_num)
    rw [hw]
    dsimp only
    have htake : s.take 32768 = s := by
      rw [← hs, List.take_length]
    have hb2 : beBytes 2 (toPat16 ((32768 : Nat) : Int)) = [128, 0] := by decide
    have hlen : (race_init_databuf (List.replicate 32771 0) 32771).buf.length = 32771 := by
      show (List.replicate 32771 (0 : Nat)).length = 32771
      rw [List.length_replicate]
    have hsplit : writeBytesAt (race_init_databuf (List.replicate 32771 0) 32771).buf 0
        ([128, 0] ++ s) =
        writeBytesAt (writeBytesAt (race_init_databuf (List.replicate 32771 0) 32771).buf 0
          [128, 0]) (0 + 2) s := by
      rw [writeBytesAt_append]
      norm_num
    have h0 := getByte_writeBytesAt_at [128, 0]
      (race_init_databuf (List.replicate 32771 0) 32771).buf 0 (by rw [hlen]; norm_num)
      0 (by norm_num)
    have h1 := getByte_writeBytesAt_at [128, 0]
      (race_init_databuf (List.replicate 32771 0) 32771).buf 0 (by rw [hlen]; norm_num)
      1 (by norm_num)
    norm_num at h0 h1
    have hv : fromPat16 (getByte (writeBytesAt
          (writeBytesAt (race_init_databuf (List.replicate 32771 0) 32771).buf 0 [128, 0])
          (0 + 2) s) 0 * 256 +
        getByte (writeBytesAt
          (writeBytesAt (race_init_databuf (List.replicate 32771 0) 32771).buf 0 [128, 0])
          (0 + 2) s) (0 + 1)) < 0 := by
      rw [getByte_writeBytesAt_lt s _ (0 + 2) 0 (by norm_num),
        getByte_writeBytesAt_lt s _ (0 + 2) (0 + 1) (by norm_num), h0]
      have h1x : getByte (writeBytesAt
          (race_init_databuf (List.replicate 32771 0) 32771).buf 0 [128, 0]) (0 + 1) = 0 := h1
      rw [h1x]
      decide
    constructor
    · norm_num
    · rw [htake, hb2, hsplit]
      have hcap3 : 0 + 2 <
          (⟨writeBytesAt
            (writeBytesAt (race_init_databuf (List.replicate 32771 0) 32771).buf 0 [128, 0])
            (0 + 2) s, 0 + 2 + 32768,
            (race_init_databuf (List.replicate 32771 0) 32771).capacity⟩ : databuf_t).capacity := by
        show 0 + 2 < 32771
        norm_num
      have hstep := race_read_strncpy_negative
        ⟨writeBytesAt
          (writeBytesAt (race_init_databuf (List.replicate 32771 0) 32771).buf 0 [128, 0])
          (0 + 2) s, 0 + 2 + 32768,
          (race_init_databuf (List.replicate 32771 0) 32771).capacity⟩
        0 40000 hcap3 hv
      rw [hstep]
  exact main (List.replicate 32768 97) (List.length_replicate 32768 97)

/-! ## Claim C9 — tier selection in hmap_create -/

lemma find_const_idx_none (sz : Nat) (l : List hmap_const_t) :
    find_const_idx sz l = none ↔ ∀ c ∈ l, c.size < sz := by
  induction l with
  | nil => simp [find_const_idx]
  | cons c rest ih =>
    by_cases hc : sz ≤ c.size
    · simp only [find_const_idx, if_pos hc]
      constructor
      · intro h; exact absurd h (by simp)
      · intro h; exact absurd (h c (by simp)) (by omega)
    · simp only [find_const_idx, if_neg hc, List.mem_cons]
      constructor
      · intro h e he
        rcases he with he | he
        · subst he; omega
        · exact ih.mp (by cases hfi : find_const_idx sz rest <;> simp [hfi] at h ⊢) e he
      · intro h
        rw [(ih.mpr (fun e he => h e (Or.inr he)) : find_const_idx sz rest = none)]
        rfl

lemma find_const_idx_some (sz : Nat) :
    ∀ (l : List hmap_const_t) (i : Nat), find_const_idx sz l = some i →
      i < l.length ∧ sz ≤ (l.getD i ⟨0, 0, 0, 0⟩).size ∧
      ∀ j < i, (l.getD j ⟨0, 0, 0, 0⟩).size < sz := by
  intro l
  induction l with
  | nil => intro i h; simp [find_const_idx] at h
  | cons c rest ih =>
    intro i h
    by_cases hc : sz ≤ c.size
    · simp only [find_const_idx, if_pos hc, Option.some.injEq] at h
      subst h
      exact ⟨by simp, by simpa using hc, by omega⟩
    · simp only [find_const_idx, if_neg hc] at h
      cases hfi : find_const_idx sz rest with
      | none => rw [hfi] at h; simp at h
      | some i0 =>
        rw [hfi] at h
        simp only [Option.map_some', Option.some.injEq] at h
        subst h
        obtain ⟨h1, h2, h3⟩ := ih i0 hfi
        refine ⟨by simp; omega, by simpa using h2, ?_⟩
        intro j hj
        match j with
        | 0 => simpa using (by omega : c.size < sz)
        | j + 1 => simpa using h3 j (by omega)

/-- C9: `hmap_create` returns NULL exactly above the largest tier size
18455029; below it, it picks the first tier whose allocated size covers the
request, with zero counters and an all-free slot array. -/
theorem C9_create_tiers (α : Type) (init_size : Nat) :
    (18455029 < init_size → hmap_create α init_size = none) ∧
    (init_size ≤ 18455029 →
      ∃ m, hmap_create α init_size = some m ∧ m.n_entries = 0 ∧ m.n_removed = 0 ∧
        m.const_idx < map_consts.length ∧
        m.consts = map_consts.getD m.const_idx ⟨0, 0, 0, 0⟩ ∧
        init_size ≤ m.consts.size ∧
        (∀ j < m.const_idx, (map_consts.getD j ⟨0, 0, 0, 0⟩).size < init_size) ∧
        ∀ e ∈ m.entries, is_free_entry e = true) := by
  constructor
  · intro hbig
    have hall : ∀ c ∈ map_consts, c.size ≤ 18455029 := by decide
    have hnone : find_const_idx init_size map_consts = none :=
      (find_const_idx_none init_size map_consts).mpr
        (fun c hc => by have := hall c hc; omega)
    unfold hmap_create get_const_idx
    rw [hnone]
  · intro hsmall
    have hmem : (⟨16777216, 10000, 18455029, 18455027⟩ : hmap_const_t) ∈ map_consts := by
      decide
    have hex : ¬ find_const_idx init_size map_consts = none := by
      rw [find_const_idx_none]
      intro hall
      have h5 := hall _ hmem
      simp at h5
      omega
    cases hfi : find_const_idx init_size map_consts with
    | none => exact absurd hfi hex
    | some i =>
      obtain ⟨h1, h2, h3⟩ := find_const_idx_some init_size map_consts i hfi
      refine ⟨⟨map_consts.getD i ⟨0, 0, 0, 0⟩, i, 0, 0,
        List.replicate (map_consts.getD i ⟨0, 0, 0, 0⟩).size empty_hmap_entry⟩,
        ?_, rfl, rfl, h1, rfl, h2, h3, ?_⟩
      · unfold hmap_create get_const_idx
        rw [hfi]
      · intro e he
        rw [List.eq_of_mem_replicate he]
        rfl

/-- C9 witness: creating with requested sizes 100 (tier 5, size 151) and
20000000 (past the top tier). -/
theorem C9_witness :
    hmap_create Nat 20000000 = none ∧
    ∃ m, hmap_create Nat 100 = some m ∧ m.n_entries = 0 ∧ m.n_removed = 0 ∧
      m.const_idx < map_consts.length ∧
      m.consts = map_consts.getD m.const_idx ⟨0, 0, 0, 0⟩ ∧
      100 ≤ m.consts.size ∧
      (∀ j < m.const_idx, (map_consts.getD j ⟨0, 0, 0, 0⟩).size < 100) ∧
      ∀ e ∈ m.entries, is_free_entry e = true :=
  ⟨(C9_create_tiers Nat 20000000).1 (by norm_num),
   (C9_create_tiers Nat 100).2 (by norm_num)⟩

/-! ## The probe sequence -/

lemma probeIdx_zero {α : Type} (m : hmap_t α) (h : Nat) :
    probeIdx m h 0 = h % m.consts.size := by
  unfold probeIdx
  rw [Nat.zero_mul, Nat.add_zero, Nat.mod_mod_of_dvd _ dvd_rfl]

lemma probeIdx_succ {α : Type} (m : hmap_t α) (h t : Nat) :
    probeIdx m h (t + 1) = next_index m (probeIdx m h t) h := by
  unfold probeIdx next_index
  rw [Nat.mod_add_mod (h % m.consts.size + t * (1 + h % m.consts.rehash)) m.consts.size
    (1 + h % m.consts.rehash)]
  congr 1
  ring

lemma probeIdx_lt {α : Type} (m : hmap_t α) (h t : Nat) (hs : 0 < m.consts.size) :
    probeIdx m h t < m.consts.size :=
  Nat.mod_lt _ hs

/-! ## Claim C10 — removing an absent key is a no-op -/

lemma remove_loop_step {α : Type} (m : hmap_t α) (key : Key) (h idx fuel : Nat)
    (hnf : is_free_entry (getEntry m idx) = false)
    (hnm : is_matching_entry (getEntry m idx) h key = false) :
    remove_loop m key h idx (fuel + 1) = remove_loop m key h (next_index m idx h) fuel := by
  conv_lhs => rw [remove_loop]
  rw [if_neg (by rw [hnf]; simp), if_neg (by rw [hnm]; simp)]

lemma remove_loop_skip {α : Type} (m : hmap_t α) (key : Key) (h : Nat) :
    ∀ (T t fuel : Nat),
      (∀ u < T, is_free_entry (getEntry m (probeIdx m h (t + u))) = false ∧
        is_matching_entry (getEntry m (probeIdx m h (t + u))) h key = false) →
      remove_loop m key h (probeIdx m h t) (fuel + T) =
        remove_loop m key h (probeIdx m h (t + T)) fuel := by
  intro T
  induction T with
  | zero => intro t fuel _; rfl
  | succ T ih =>
    intro t fuel hbef
    have h0 := hbef 0 (by omega)
    rw [Nat.add_zero] at h0
    calc remove_loop m key h (probeIdx m h t) (fuel + (T + 1))
        = remove_loop m key h (next_index m (probeIdx m h t) h) (fuel + T) :=
          remove_loop_step m key h _ (fuel + T) h0.1 h0.2
      _ = remove_loop m key h (probeIdx m h (t + 1)) (fuel + T) := by rw [← probeIdx_succ]
      _ = remove_loop m key h (probeIdx m h (t + 1 + T)) fuel :=
          ih (t + 1) fuel (fun u hu => by
            have := hbef (u + 1) (by omega)
            rwa [show t + (u + 1) = t + 1 + u by omega] at this)
      _ = remove_loop m key h (probeIdx m h (t + (T + 1))) fuel := by
          rw [show t + 1 + T = t + (T + 1) by omega]

lemma remove_loop_free {α : Type} (m : hmap_t α) (key : Key) (h idx fuel : Nat)
    (hf : is_free_entry (getEntry m idx) = true) :
    remove_loop m key h idx (fuel + 1) = some (false, m) := by
  unfold remove_loop
  rw [if_pos hf]

/-- C10: if the probe chain for `key` reaches a free slot without passing a
matching entry, `hmap_remove_entry` returns false and the map is completely
unchanged. -/
theorem C10_remove_absent {α : Type} (m : hmap_t α) (k : Key) (T : Nat)
    (hT : T < m.consts.size)
    (hfree : is_free_entry (getEntry m (probeIdx m (hmap_hash k) T)) = true)
    (hbefore : ∀ u < T,
      is_free_entry (getEntry m (probeIdx m (hmap_hash k) u)) = false ∧
      is_matching_entry (getEntry m (probeIdx m (hmap_hash k) u)) (hmap_hash k) k = false) :
    hmap_remove_entry m k = some (false, m) := by
  show remove_loop m k (hmap_hash k) (hmap_hash k % m.consts.size) m.consts.size =
    some (false, m)
  rw [show hmap_hash k % m.consts.size = probeIdx m (hmap_hash k) 0 from
    (probeIdx_zero m (hmap_hash k)).symm]
  rw [show m.consts.size = (m.consts.size - T) + T by omega]
  rw [remove_loop_skip m k (hmap_hash k) T 0 (m.consts.size - T)
    (fun u hu => by simpa using hbefore u hu)]
  rw [show (0 : Nat) + T = T by omega]
  rw [show m.consts.size - T = (m.consts.size - T - 1) + 1 by omega]
  exact remove_loop_free m k (hmap_hash k) _ _ hfree

/-- C10 witness: removing the absent key with byte 122 from a concrete
one-entry map (key byte 97 added to a fresh tier-0 map) leaves it
untouched. -/
theorem C10_witness :
    hmap_remove_entry
      ((hmap_add_entry ((hmap_create Nat 8).getD ⟨⟨0, 0, 0, 0⟩, 0, 0, 0, []⟩)
        [97] (some 1)).getD
          (false, (hmap_create Nat 8).getD ⟨⟨0, 0, 0, 0⟩, 0, 0, 0, []⟩)).2 [122] =
    some (false,
      ((hmap_add_entry ((hmap_create Nat 8).getD ⟨⟨0, 0, 0, 0⟩, 0, 0, 0, []⟩)
        [97] (some 1)).getD
          (false, (hmap_create Nat 8).getD ⟨⟨0, 0, 0, 0⟩, 0, 0, 0, []⟩)).2) :=
  C10_remove_absent _ [122] 0 (by decide) (by decide) (by decide)

/-! ## Claim C6 — out-of-order Data rejection and monotone time_last -/

lemma is_msg_iff (db : databuf_t) (expect_id : Int) (expect_len : Nat) :
    is_msg db expect_id expect_len = true ↔
      0 < db.pos ∧ (expect_len = 0 ∨ db.pos = expect_len) ∧
        (race_peek_short db 0).2 = expect_id := by
  show (if 0 < db.pos ∧ (expect_len = 0 ∨ db.pos = expect_len) then
      decide ((race_peek_short db 0).2 = expect_id) else false) = true ↔
    0 < db.pos ∧ (expect_len = 0 ∨ db.pos = expect_len) ∧ (race_peek_short db 0).2 = expect_id
  split_ifs with hc <;> simp_all

lemma is_data_not_stop (db : databuf_t) (hd : race_is_data db = true) :
    race_is_stop db = false := by
  rw [race_is_data, is_msg_iff] at hd
  rw [race_is_stop]
  by_contra hs
  rw [Bool.not_eq_false, is_msg_iff] at hs
  have := hd.2.2
  have := hs.2.2
  omega

/-- C6: a Data datagram from the negotiated remote with a parseable header is
dropped without invoking `read_data` and without touching `time_last` when
its send time is older than `remote.time_last`; otherwise `time_last` is set
to the send time and `read_data` is invoked.  Moreover, no `receive_message`
call ever decreases `time_last`. -/
theorem C6_data_receive (flags : Nat) (remote : remote_endpoint_t) (db : databuf_t)
    (hrecv : flags.land DATA_RECEIVER ≠ 0)
    (hdata : race_is_data db = true)
    (hok : (race_read_data_header db).1 ≠ 0)
    (hsender : (race_read_data_header db).2.2.1 = remote.id) :
    ((race_read_data_header db).2.2.2 < remote.time_last →
      receive_message flags remote db = ⟨remote, false, 0, false, false⟩) ∧
    (¬ (race_read_data_header db).2.2.2 < remote.time_last →
      receive_message flags remote db =
        ⟨{ remote with time_last := (race_read_data_header db).2.2.2 }, true,
          (race_read_data_header db).1, false, false⟩) ∧
    (∀ (flags2 : Nat) (remote2 : remote_endpoint_t) (db2 : databuf_t),
      remote2.time_last ≤ ((receive_message flags2 remote2 db2).remote).time_last) := by
  refine ⟨?_, ?_, ?_⟩
  · intro hold
    unfold receive_message
    rw [is_data_not_stop db hdata]
    simp only [Bool.false_eq_true, if_false, hdata, if_true]
    rw [if_pos hrecv, if_neg hok, if_neg (by rw [hsender]; simp), if_pos hold]
  · intro hnew
    unfold receive_message
    rw [is_data_not_stop db hdata]
    simp only [Bool.false_eq_true, if_false, hdata, if_true]
    rw [if_pos hrecv, if_neg hok, if_neg (by rw [hsender]; simp), if_neg hnew]
  · intro flags2 remote2 db2
    unfold receive_message
    dsimp only
    split_ifs <;> simp <;> omega

/-- C6 witness: a concrete 16-byte Data header datagram (type 4, length 16,
sender 9, send time 1000) against a remote with id 9 and time_last 500:
accepted, `time_last` updated, `read_data` invoked. -/
theorem C6_witness :
    receive_message 3 ⟨9, 0, 500, false⟩
      ⟨[0, 4, 0, 16, 0, 0, 0, 9, 0, 0, 0, 0, 0, 0, 3, 232], 16, 16⟩ =
      ⟨⟨9, 0, 1000, false⟩, true, 16, false, false⟩ := by
  have h := (C6_data_receive 3 ⟨9, 0, 500, false⟩
    ⟨[0, 4, 0, 16, 0, 0, 0, 9, 0, 0, 0, 0, 0, 0, 3, 232], 16, 16⟩
    (by decide) (by decide) (by decide) (by decide)).2.1 (by decide)
  exact h

lemma getByte_segment (buf pre seg post : List Nat) (j : Nat) (hj : j < seg.length)
    (hlen : pre.length + seg.length + post.length ≤ buf.length) :
    getByte (writeBytesAt buf 0 (pre ++ (seg ++ post))) (pre.length + j) = seg.getD j 0 := by
  rw [writeBytesAt_append, Nat.zero_add, writeBytesAt_append]
  rw [getByte_writeBytesAt_lt post _ _ _ (by omega)]
  rw [getByte_writeBytesAt_at seg _ pre.length (by rw [length_writeBytesAt]; omega) j hj]

lemma readBytes_segment (buf pre seg post : List Nat)
    (hlen : pre.length + seg.length + post.length ≤ buf.length) :
    readBytesAt (writeBytesAt buf 0 (pre ++ (seg ++ post))) pre.length seg.length = seg := by
  apply List.ext_getElem
  · simp [readBytesAt]
  · intro i h1 h2
    simp only [readBytesAt, List.getElem_map, List.getElem_range]
    rw [getByte_segment buf pre seg post i h2 hlen]
    exact List.getD_eq_getElem seg 0 h2

lemma short_field (buf pre post : List Nat) (n : Nat) (hn : n < 65536)
    (hlen : pre.length + 2 + post.length ≤ buf.length) :
    getByte (writeBytesAt buf 0 (pre ++ (beBytes 2 n ++ post))) pre.length * 256 +
      getByte (writeBytesAt buf 0 (pre ++ (beBytes 2 n ++ post))) (pre.length + 1) = n := by
  have h0 := getByte_segment buf pre (beBytes 2 n) post 0
    (by rw [length_beBytes]; omega) (by rw [length_beBytes]; omega)
  have h1 := getByte_segment buf pre (beBytes 2 n) post 1
    (by rw [length_beBytes]; omega) (by rw [length_beBytes]; omega)
  rw [Nat.add_zero] at h0
  rw [h0, h1]
  have hb : beBytes 2 n = [n / 256 % 256, n / 1 % 256] := rfl
  rw [hb]
  simp only [List.getD_cons_zero, List.getD_cons_succ, Nat.div_one]
  omega

lemma beVal_field (buf pre post : List Nat) (k n : Nat) (hn : n < 256 ^ k)
    (hlen : pre.length + k + post.length ≤ buf.length) :
    beVal (readBytesAt (writeBytesAt buf 0 (pre ++ (beBytes k n ++ post)))
      pre.length k) = n := by
  have := readBytes_segment buf pre (beBytes k n) post (by rw [length_beBytes]; omega)
  rw [length_beBytes] at this
  rw [this, beVal_beBytes k n hn]

lemma write_header_eval (db : databuf_t) (msg_id msg_len sender now : Int)
    (hcap : 16 < db.capacity) :
    write_header db msg_id msg_len sender now =
      (16, { db with
               buf := writeBytesAt db.buf 0
                 (beBytes 2 (toPat16 msg_id) ++ beBytes 2 (toPat16 msg_len) ++
                   beBytes 4 (toPat32 sender) ++ beBytes 8 (toPat64 now)),
               pos := 16 }) := by
  unfold write_header race_reset_databuf
  dsimp only
  rw [race_write_short_eval _ 0 msg_id (by show 0 + 2 < db.capacity; omega)]
  dsimp only
  rw [race_write_short_eval _ (0 + 2) msg_len (by show 0 + 2 + 2 < db.capacity; omega)]
  dsimp only
  rw [race_write_int_eval _ (0 + 2 + 2) sender (by show 0 + 2 + 2 + 4 < db.capacity; omega)]
  dsimp only
  rw [race_write_long_eval _ (0 + 2 + 2 + 4) now
    (by show 0 + 2 + 2 + 4 + 8 < db.capacity; omega)]
  dsimp only
  rw [(show (0 : Nat) + 2 = 0 + (beBytes 2 (toPat16 msg_id)).length by rw [length_beBytes]),
    ← writeBytesAt_append]
  rw [(show (0 : Nat) + (beBytes 2 (toPat16 msg_id)).length + 2 =
    0 + (beBytes 2 (toPat16 msg_id) ++ beBytes 2 (toPat16 msg_len)).length by
      simp [length_beBytes]), ← writeBytesAt_append]
  rw [(show (0 : Nat) + (beBytes 2 (toPat16 msg_id) ++ beBytes 2 (toPat16 msg_len)).length + 4 =
    0 + (beBytes 2 (toPat16 msg_id) ++ beBytes 2 (toPat16 msg_len) ++
      beBytes 4 (toPat32 sender)).length by simp [length_beBytes]), ← writeBytesAt_append]
  simp [length_beBytes]

lemma writeBytesAt_chain (buf : List Nat) (bs1 bs2 : List Nat) (p : Nat) (hp : p = bs1.length) :
    writeBytesAt (writeBytesAt buf 0 bs1) p bs2 = writeBytesAt buf 0 (bs1 ++ bs2) := by
  subst hp
  rw [writeBytesAt_append, Nat.zero_add]

lemma race_write_accept_eval (db : databuf_t) (f sm iv cid now : Int)
    (hcap : 36 < db.capacity) :
    race_write_accept db f sm iv cid now =
      (36, { db with
               buf := writeBytesAt db.buf 0 (msgBytes now (RaceMsg.accept f sm iv cid)),
               pos := 36 }) := by
  unfold race_write_accept
  dsimp only
  rw [write_header_eval db 2 36 0 now (by omega)]
  dsimp only
  rw [race_write_int_eval _ 16 f (by show 16 + 4 < db.capacity; omega)]
  dsimp only
  rw [writeBytesAt_chain _ _ _ 16 (by simp [length_beBytes])]
  rw [race_write_long_eval _ (16 + 4) sm (by show 16 + 4 + 8 < db.capacity; omega)]
  dsimp only
  rw [writeBytesAt_chain _ _ _ (16 + 4) (by simp [length_beBytes])]
  rw [race_write_int_eval _ (16 + 4 + 8) iv (by show 16 + 4 + 8 + 4 < db.capacity; omega)]
  dsimp only
  rw [writeBytesAt_chain _ _ _ (16 + 4 + 8) (by simp [length_beBytes])]
  rw [race_write_int_eval _ (16 + 4 + 8 + 4) cid
    (by show 16 + 4 + 8 + 4 + 4 < db.capacity; omega)]
  dsimp only
  rw [writeBytesAt_chain _ _ _ (16 + 4 + 8 + 4) (by simp [length_beBytes])]
  simp [msgBytes, List.append_assoc]

lemma race_peek_short_eval (db : databuf_t) (pos : Nat) (h : pos + 1 < db.capacity) :
    race_peek_short db pos =
      (pos + 2, fromPat16 (getByte db.buf pos * 256 + getByte db.buf (pos + 1))) := by
  unfold race_peek_short race_check_pos
  simp [h]

lemma header_id_val (buf0 rest : List Nat) (id msg_len sender now : Int)
    (hidr : 0 ≤ id ∧ id < 32768)
    (hlen : 16 + rest.length ≤ buf0.length) :
    fromPat16 (getByte (writeBytesAt buf0 0
        (beBytes 2 (toPat16 id) ++ (beBytes 2 (toPat16 msg_len) ++
          (beBytes 4 (toPat32 sender) ++ (beBytes 8 (toPat64 now) ++ rest))))) 0 * 256 +
      getByte (writeBytesAt buf0 0
        (beBytes 2 (toPat16 id) ++ (beBytes 2 (toPat16 msg_len) ++
          (beBytes 4 (toPat32 sender) ++ (beBytes 8 (toPat64 now) ++ rest))))) (0 + 1)) =
      id := by
  have h := short_field buf0 [] (beBytes 2 (toPat16 msg_len) ++
    (beBytes 4 (toPat32 sender) ++ (beBytes 8 (toPat64 now) ++ rest))) (toPat16 id)
    (toPat16_lt id) (by simp [length_beBytes, List.length_append] at hlen ⊢; omega)
  simp only [List.nil_append, List.length_nil] at h
  rw [show (0 : Nat) + 1 = 1 by rfl, h, fromPat16_toPat16 id (by omega) (by omega)]

lemma header_len_val (buf0 rest : List Nat) (id msg_len sender now : Int)
    (hmlr : 0 ≤ msg_len ∧ msg_len < 32768)
    (hlen : 16 + rest.length ≤ buf0.length) :
    fromPat16 (getByte (writeBytesAt buf0 0
        (beBytes 2 (toPat16 id) ++ (beBytes 2 (toPat16 msg_len) ++
          (beBytes 4 (toPat32 sender) ++ (beBytes 8 (toPat64 now) ++ rest))))) 2 * 256 +
      getByte (writeBytesAt buf0 0
        (beBytes 2 (toPat16 id) ++ (beBytes 2 (toPat16 msg_len) ++
          (beBytes 4 (toPat32 sender) ++ (beBytes 8 (toPat64 now) ++ rest))))) (2 + 1)) =
      msg_len := by
  have h := short_field buf0 (beBytes 2 (toPat16 id)) (beBytes 4 (toPat32 sender) ++
    (beBytes 8 (toPat64 now) ++ rest)) (toPat16 msg_len)
    (toPat16_lt msg_len) (by simp [length_beBytes, List.length_append] at hlen ⊢; omega)
  rw [length_beBytes] at h
  rw [h, fromPat16_toPat16 msg_len (by omega) (by omega)]

lemma header_sender_val (buf0 rest : List Nat) (id msg_len sender now : Int)
    (hsr : -2147483648 ≤ sender ∧ sender < 2147483648)
    (hlen : 16 + rest.length ≤ buf0.length) :
    fromPat32 (beVal (readBytesAt (writeBytesAt buf0 0
        (beBytes 2 (toPat16 id) ++ (beBytes 2 (toPat16 msg_len) ++
          (beBytes 4 (toPat32 sender) ++ (beBytes 8 (toPat64 now) ++ rest))))) 4 4)) =
      sender := by
  have h := beVal_field buf0 (beBytes 2 (toPat16 id) ++ beBytes 2 (toPat16 msg_len))
    (beBytes 8 (toPat64 now) ++ rest) 4 (toPat32 sender)
    (by have := toPat32_lt sender; norm_num at this ⊢; omega)
    (by simp [length_beBytes, List.length_append] at hlen ⊢; omega)
  simp only [List.append_assoc, List.length_append, length_beBytes] at h
  norm_num at h
  rw [h, fromPat32_toPat32 sender hsr.1 hsr.2]

lemma header_time_val (buf0 rest : List Nat) (id msg_len sender now : Int)
    (htr : -9223372036854775808 ≤ now ∧ now < 9223372036854775808)
    (hlen : 16 + rest.length ≤ buf0.length) :
    fromPat64 (beVal (readBytesAt (writeBytesAt buf0 0
        (beBytes 2 (toPat16 id) ++ (beBytes 2 (toPat16 msg_len) ++
          (beBytes 4 (toPat32 sender) ++ (beBytes 8 (toPat64 now) ++ rest))))) 8 8)) =
      now := by
  have h := beVal_field buf0 ((beBytes 2 (toPat16 id) ++ beBytes 2 (toPat16 msg_len)) ++
    beBytes 4 (toPat32 sender)) rest 8 (toPat64 now)
    (by have := toPat64_lt now; norm_num at this ⊢; omega)
    (by simp [length_beBytes, List.length_append] at hlen ⊢; omega)
  simp only [List.append_assoc, List.length_append, length_beBytes] at h
  norm_num at h
  rw [h, fromPat64_toPat64 now htr.1 htr.2]

lemma read_header_eval (buf0 rest : List Nat) (cap : Nat) (id msg_len sender now : Int)
    (check_len P : Nat)
    (hidr : 0 ≤ id ∧ id < 32768)
    (hP : P = 16 + rest.length)
    (hml : msg_len = (P : Int)) (hmlr : msg_len < 32768)
    (hsr : -2147483648 ≤ sender ∧ sender < 2147483648)
    (htr : -9223372036854775808 ≤ now ∧ now < 9223372036854775808)
    (hck : check_len = 0 ∨ P = check_len)
    (hcap : 16 ≤ cap)
    (hlen : 16 + rest.length ≤ buf0.length) :
    read_header
      ⟨writeBytesAt buf0 0
        (beBytes 2 (toPat16 id) ++ (beBytes 2 (toPat16 msg_len) ++
          (beBytes 4 (toPat32 sender) ++ (beBytes 8 (toPat64 now) ++ rest)))),
        P, cap⟩ id check_len =
      (16,
        ⟨writeBytesAt buf0 0
          (beBytes 2 (toPat16 id) ++ (beBytes 2 (toPat16 msg_len) ++
            (beBytes 4 (toPat32 sender) ++ (beBytes 8 (toPat64 now) ++ rest)))),
          16, cap⟩, sender, now) := by
  subst hP
  unfold read_header
  dsimp only
  rw [if_pos hck]
  rw [race_read_short_eval _ 0 (by show 0 + 1 < cap; omega)]
  dsimp only
  rw [header_id_val buf0 rest id msg_len sender now hidr hlen]
  rw [if_pos rfl]
  rw [race_read_short_eval _ (0 + 2) (by show 0 + 2 + 1 < cap; omega)]
  dsimp only
  rw [show (0 : Nat) + 2 = 2 by rfl]
  rw [header_len_val buf0 rest id msg_len sender now ⟨by omega, hmlr⟩ hlen]
  rw [if_pos (by rw [hml])]
  rw [race_read_int_eval _ (2 + 2) (by show 2 + 2 + 3 < cap; omega)]
  dsimp only
  rw [show (2 : Nat) + 2 = 4 by rfl]
  rw [header_sender_val buf0 rest id msg_len sender now hsr hlen]
  rw [race_read_long_eval _ (4 + 4) (by show 4 + 4 + 7 < cap; omega)]
  dsimp only
  rw [show (4 : Nat) + 4 = 8 by rfl]
  rw [header_time_val buf0 rest id msg_len sender now htr hlen]

lemma is_msg_eval (db : databuf_t) (expect_id : Int) (expect_len : Nat) (v : Int) (P : Nat)
    (hpeek : (race_peek_short db 0).2 = v) (hpos : db.pos = P) :
    is_msg db expect_id expect_len =
      (decide (0 < P) && (decide (expect_len = 0) || decide (P = expect_len)) &&
        decide (v = expect_id)) := by
  unfold is_msg
  rw [hpeek, hpos]
  dsimp only
  split_ifs with hc
  · rcases hc with ⟨h1, h2⟩
    have e1 : decide (0 < P) = true := decide_eq_true h1
    have e2 : (decide (expect_len = 0) || decide (P = expect_len)) = true := by
      rcases h2 with h2 | h2
      · simp [h2]
      · simp [h2]
    rw [e1, e2]
    simp
  · push_neg at hc
    by_cases h1 : 0 < P
    · have h2 := hc h1
      simp [h1]
      intro he
      exact fun hpe => absurd he (by omega)
    · simp [h1]

lemma int_field_val (buf0 pre post : List Nat) (v : Int) (hv : Int32Ok v) (P : Nat)
    (hP : P = pre.length) (hlen : pre.length + 4 + post.length ≤ buf0.length) :
    fromPat32 (beVal (readBytesAt
      (writeBytesAt buf0 0 (pre ++ (beBytes 4 (toPat32 v) ++ post))) P 4)) = v := by
  subst hP
  have h := beVal_field buf0 pre post 4 (toPat32 v)
    (by have := toPat32_lt v; norm_num at this ⊢; omega) hlen
  rw [h, fromPat32_toPat32 v hv.1 hv.2]

lemma long_field_val (buf0 pre post : List Nat) (v : Int) (hv : Int64Ok v) (P : Nat)
    (hP : P = pre.length) (hlen : pre.length + 8 + post.length ≤ buf0.length) :
    fromPat64 (beVal (readBytesAt
      (writeBytesAt buf0 0 (pre ++ (beBytes 8 (toPat64 v) ++ post))) P 8)) = v := by
  subst hP
  have h := beVal_field buf0 pre post 8 (toPat64 v)
    (by have := toPat64_lt v; norm_num at this ⊢; omega) hlen
  rw [h, fromPat64_toPat64 v hv.1 hv.2]

set_option maxHeartbeats 2000000 in
theorem accept_case (buf0 : List Nat) (f sm iv cid now : Int)
    (hf : Int32Ok f) (hsm : Int64Ok sm) (hiv : Int32Ok iv) (hcid : Int32Ok cid)
    (hnow : Int64Ok now)
    (hbuf : buf0.length = 2048) :
    (∀ t : Nat, 1 ≤ t → t ≤ 7 →
      isMsgType (race_write_accept ⟨buf0, 0, 2048⟩ f sm iv cid now).2 t =
        decide (t = 2)) ∧
    (race_read_accept (race_write_accept ⟨buf0, 0, 2048⟩ f sm iv cid now).2).ret ≠ 0 ∧
    (race_read_accept (race_write_accept ⟨buf0, 0, 2048⟩ f sm iv cid now).2).flags = f ∧
    (race_read_accept (race_write_accept ⟨buf0, 0, 2048⟩ f sm iv cid now).2).sim_millis = sm ∧
    (race_read_accept (race_write_accept ⟨buf0, 0, 2048⟩ f sm iv cid now).2).interval_millis = iv ∧
    (race_read_accept (race_write_accept ⟨buf0, 0, 2048⟩ f sm iv cid now).2).client_id = cid := by
  rw [race_write_accept_eval _ f sm iv cid now (by norm_num)]
  dsimp only
  simp only [msgBytes, List.append_assoc]
  have hrest : (beBytes 4 (toPat32 f) ++ (beBytes 8 (toPat64 sm) ++
      (beBytes 4 (toPat32 iv) ++ beBytes 4 (toPat32 cid)))).length = 20 := by
    simp [length_beBytes]
  have hpk := race_peek_short_eval
    ⟨writeBytesAt buf0 0
      (beBytes 2 (toPat16 2) ++ (beBytes 2 (toPat16 36) ++ (beBytes 4 (toPat32 0) ++
        (beBytes 8 (toPat64 now) ++ (beBytes 4 (toPat32 f) ++ (beBytes 8 (toPat64 sm) ++
          (beBytes 4 (toPat32 iv) ++ beBytes 4 (toPat32 cid)))))))), 36, 2048⟩ 0
    (by show 0 + 1 < 2048; norm_num)
  have hid := header_id_val buf0 (beBytes 4 (toPat32 f) ++ (beBytes 8 (toPat64 sm) ++
      (beBytes 4 (toPat32 iv) ++ beBytes 4 (toPat32 cid)))) 2 36 0 now
    (by norm_num) (by rw [hrest, hbuf]; norm_num)
  have hpk2 : (race_peek_short ⟨writeBytesAt buf0 0
      (beBytes 2 (toPat16 2) ++ (beBytes 2 (toPat16 36) ++ (beBytes 4 (toPat32 0) ++
        (beBytes 8 (toPat64 now) ++ (beBytes 4 (toPat32 f) ++ (beBytes 8 (toPat64 sm) ++
          (beBytes 4 (toPat32 iv) ++ beBytes 4 (toPat32 cid)))))))), 36, 2048⟩ 0).2 =
      (2 : Int) := by
    conv_lhs => rw [hpk]
    dsimp only
    exact hid
  have hhd := read_header_eval buf0 (beBytes 4 (toPat32 f) ++ (beBytes 8 (toPat64 sm) ++
      (beBytes 4 (toPat32 iv) ++ beBytes 4 (toPat32 cid)))) 2048 2 36 0 now 36 36
    (by norm_num) (by rw [hrest]) (by norm_num) (by norm_num) (by norm_num)
    ⟨hnow.1, hnow.2⟩ (by norm_num) (by norm_num) (by rw [hrest, hbuf]; norm_num)
  refine ⟨?_, ?_⟩
  · intro t h1 h7
    have e : ∀ (eid : Int) (elen : Nat), is_msg ⟨writeBytesAt buf0 0
        (beBytes 2 (toPat16 2) ++ (beBytes 2 (toPat16 36) ++ (beBytes 4 (toPat32 0) ++
          (beBytes 8 (toPat64 now) ++ (beBytes 4 (toPat32 f) ++ (beBytes 8 (toPat64 sm) ++
            (beBytes 4 (toPat32 iv) ++ beBytes 4 (toPat32 cid)))))))), 36, 2048⟩ eid elen =
        (decide (0 < 36) && (decide (elen = 0) || decide (36 = elen)) &&
          decide ((2 : Int) = eid)) := fun eid elen =>
      is_msg_eval _ eid elen 2 36 hpk2 rfl
    interval_cases t <;>
      simp only [isMsgType, race_is_request, race_is_accept, race_is_reject, race_is_data,
        race_is_stop, race_is_pause, race_is_resume, e] <;> decide
  · unfold race_read_accept
    rw [hhd]
    dsimp only
    rw [if_pos (by norm_num)]
    rw [race_read_int_eval _ 16 (by show 16 + 3 < 2048; norm_num)]
    dsimp only
    have hxf := int_field_val buf0
      (beBytes 2 (toPat16 2) ++ (beBytes 2 (toPat16 36) ++ (beBytes 4 (toPat32 0) ++
        beBytes 8 (toPat64 now))))
      (beBytes 8 (toPat64 sm) ++ (beBytes 4 (toPat32 iv) ++ beBytes 4 (toPat32 cid)))
      f hf 16 (by simp [length_beBytes]) (by simp [length_beBytes, hbuf])
    simp only [List.append_assoc] at hxf
    rw [hxf]
    rw [race_read_long_eval _ (16 + 4) (by show 16 + 4 + 7 < 2048; norm_num)]
    dsimp only
    rw [show (16 : Nat) + 4 = 20 by rfl]
    have hxsm := long_field_val buf0
      (beBytes 2 (toPat16 2) ++ (beBytes 2 (toPat16 36) ++ (beBytes 4 (toPat32 0) ++
        (beBytes 8 (toPat64 now) ++ beBytes 4 (toPat32 f)))))
      (beBytes 4 (toPat32 iv) ++ beBytes 4 (toPat32 cid))
      sm hsm 20 (by simp [length_beBytes]) (by simp [length_beBytes, hbuf])
    simp only [List.append_assoc] at hxsm
    rw [hxsm]
    rw [race_read_int_eval _ (20 + 8) (by show 20 + 8 + 3 < 2048; norm_num)]
    dsimp only
    rw [show (20 : Nat) + 8 = 28 by rfl]
    have hxiv := int_field_val buf0
      (beBytes 2 (toPat16 2) ++ (beBytes 2 (toPat16 36) ++ (beBytes 4 (toPat32 0) ++
        (beBytes 8 (toPat64 now) ++ (beBytes 4 (toPat32 f) ++ beBytes 8 (toPat64 sm))))))
      (beBytes 4 (toPat32 cid))
      iv hiv 28 (by simp [length_beBytes]) (by simp [length_beBytes, hbuf])
    simp only [List.append_assoc] at hxiv
    rw [hxiv]
    rw [race_read_int_eval _ (28 + 4) (by show 28 + 4 + 3 < 2048; norm_num)]
    dsimp only
    rw [show (28 : Nat) + 4 = 32 by rfl]
    have hxcid := int_field_val buf0
      (beBytes 2 (toPat16 2) ++ (beBytes 2 (toPat16 36) ++ (beBytes 4 (toPat32 0) ++
        (beBytes 8 (toPat64 now) ++ (beBytes 4 (toPat32 f) ++ (beBytes 8 (toPat64 sm) ++
          beBytes 4 (toPat32 iv)))))))
      ([] : List Nat)
      cid hcid 32 (by simp [length_beBytes]) (by simp [length_beBytes, hbuf])
    simp only [List.append_assoc, List.append_nil] at hxcid
    rw [hxcid]
    simp

lemma race_write_reject_eval (db : databuf_t) (r now : Int)
    (hcap : 20 < db.capacity) :
    race_write_reject db r now =
      (20, { db with
               buf := writeBytesAt db.buf 0 (msgBytes now (RaceMsg.reject r)),
               pos := 20 }) := by
  unfold race_write_reject
  dsimp only
  rw [write_header_eval db 3 20 0 now (by omega)]
  dsimp only
  rw [race_write_int_eval _ 16 r (by show 16 + 4 < db.capacity; omega)]
  dsimp only
  rw [writeBytesAt_chain _ _ _ 16 (by simp [length_beBytes])]
  simp [msgBytes, List.append_assoc]

lemma race_write_stop_eval (db : databuf_t) (sid now : Int)
    (hcap : 16 < db.capacity) :
    race_write_stop db sid now =
      (16, { db with
               buf := writeBytesAt db.buf 0 (msgBytes now (RaceMsg.stop sid)),
               pos := 16 }) := by
  unfold race_write_stop
  rw [write_header_eval db 5 16 sid now hcap]
  simp [msgBytes, List.append_assoc]

lemma race_write_pause_eval (db : databuf_t) (sid now : Int)
    (hcap : 16 < db.capacity) :
    race_write_pause db sid now =
      (16, { db with
               buf := writeBytesAt db.buf 0 (msgBytes now (RaceMsg.pause sid)),
               pos := 16 }) := by
  unfold race_write_pause
  rw [write_header_eval db 6 16 sid now hcap]
  simp [msgBytes, List.append_assoc]

lemma race_write_resume_eval (db : databuf_t) (sid now : Int)
    (hcap : 16 < db.capacity) :
    race_write_resume db sid now =
      (16, { db with
               buf := writeBytesAt db.buf 0 (msgBytes now (RaceMsg.resume sid)),
               pos := 16 }) := by
  unfold race_write_resume
  rw [write_header_eval db 7 16 sid now hcap]
  simp [msgBytes, List.append_assoc]

set_option maxHeartbeats 1000000 in
theorem reject_case (buf0 : List Nat) (r now : Int)
    (hr : Int32Ok r) (hnow : Int64Ok now)
    (hbuf : buf0.length = 2048) :
    (∀ t : Nat, 1 ≤ t → t ≤ 7 →
      isMsgType (race_write_reject ⟨buf0, 0, 2048⟩ r now).2 t = decide (t = 3)) ∧
    (race_read_reject (race_write_reject ⟨buf0, 0, 2048⟩ r now).2).1 ≠ 0 ∧
    (race_read_reject (race_write_reject ⟨buf0, 0, 2048⟩ r now).2).2.2 = r := by
  rw [race_write_reject_eval _ r now (by norm_num)]
  dsimp only
  simp only [msgBytes, List.append_assoc]
  have hrest : (beBytes 4 (toPat32 r)).length = 4 := by simp [length_beBytes]
  have hpk := race_peek_short_eval
    ⟨writeBytesAt buf0 0
      (beBytes 2 (toPat16 3) ++ (beBytes 2 (toPat16 20) ++ (beBytes 4 (toPat32 0) ++
        (beBytes 8 (toPat64 now) ++ beBytes 4 (toPat32 r))))), 20, 2048⟩ 0
    (by show 0 + 1 < 2048; norm_num)
  have hid := header_id_val buf0 (beBytes 4 (toPat32 r)) 3 20 0 now
    (by norm_num) (by rw [hrest, hbuf]; norm_num)
  have hpk2 : (race_peek_short ⟨writeBytesAt buf0 0
      (beBytes 2 (toPat16 3) ++ (beBytes 2 (toPat16 20) ++ (beBytes 4 (toPat32 0) ++
        (beBytes 8 (toPat64 now) ++ beBytes 4 (toPat32 r))))), 20, 2048⟩ 0).2 =
      (3 : Int) := by
    conv_lhs => rw [hpk]
    dsimp only
    exact hid
  have hhd := read_header_eval buf0 (beBytes 4 (toPat32 r)) 2048 3 20 0 now 20 20
    (by norm_num) (by rw [hrest]) (by norm_num) (by norm_num) (by norm_num)
    ⟨hnow.1, hnow.2⟩ (by norm_num) (by norm_num) (by rw [hrest, hbuf]; norm_num)
  refine ⟨?_, ?_⟩
  · intro t h1 h7
    have e : ∀ (eid : Int) (elen : Nat), is_msg ⟨writeBytesAt buf0 0
        (beBytes 2 (toPat16 3) ++ (beBytes 2 (toPat16 20) ++ (beBytes 4 (toPat32 0) ++
          (beBytes 8 (toPat64 now) ++ beBytes 4 (toPat32 r))))), 20, 2048⟩ eid elen =
        (decide (0 < 20) && (decide (elen = 0) || decide (20 = elen)) &&
          decide ((3 : Int) = eid)) := fun eid elen =>
      is_msg_eval _ eid elen 3 20 hpk2 rfl
    interval_cases t <;>
      simp only [isMsgType, race_is_request, race_is_accept, race_is_reject, race_is_data,
        race_is_stop, race_is_pause, race_is_resume, e] <;> decide
  · unfold race_read_reject
    rw [hhd]
    dsimp only
    rw [if_pos (by norm_num)]
    rw [race_read_int_eval _ 16 (by show 16 + 3 < 2048; norm_num)]
    dsimp only
    have hxr := int_field_val buf0
      (beBytes 2 (toPat16 3) ++ (beBytes 2 (toPat16 20) ++ (beBytes 4 (toPat32 0) ++
        beBytes 8 (toPat64 now))))
      ([] : List Nat)
      r hr 16 (by simp [length_beBytes]) (by simp [length_beBytes, hbuf])
    simp only [List.append_assoc, List.append_nil] at hxr
    rw [hxr]
    simp


set_option maxHeartbeats 1000000 in
theorem stop_case (buf0 : List Nat) (sid now : Int)
    (hsid : Int32Ok sid) (hnow : Int64Ok now)
    (hbuf : buf0.length = 2048) :
    (∀ t : Nat, 1 ≤ t → t ≤ 7 →
      isMsgType (race_write_stop ⟨buf0, 0, 2048⟩ sid now).2 t = decide (t = 5)) ∧
    (race_read_stop (race_write_stop ⟨buf0, 0, 2048⟩ sid now).2).1 ≠ 0 ∧
    (race_read_stop (race_write_stop ⟨buf0, 0, 2048⟩ sid now).2).2.2.1 = sid ∧
    (race_read_stop (race_write_stop ⟨buf0, 0, 2048⟩ sid now).2).2.2.2 = now := by
  rw [race_write_stop_eval _ sid now (by norm_num)]
  dsimp only
  simp only [msgBytes, List.append_assoc]
  have hpk := race_peek_short_eval
    ⟨writeBytesAt buf0 0
      (beBytes 2 (toPat16 5) ++ (beBytes 2 (toPat16 16) ++ (beBytes 4 (toPat32 sid) ++
        beBytes 8 (toPat64 now)))), 16, 2048⟩ 0
    (by show 0 + 1 < 2048; norm_num)
  have hid := header_id_val buf0 ([] : List Nat) 5 16 sid now
    (by norm_num) (by simp [hbuf])
  simp only [List.append_nil] at hid
  have hpk2 : (race_peek_short ⟨writeBytesAt buf0 0
      (beBytes 2 (toPat16 5) ++ (beBytes 2 (toPat16 16) ++ (beBytes 4 (toPat32 sid) ++
        beBytes 8 (toPat64 now)))), 16, 2048⟩ 0).2 =
      (5 : Int) := by
    conv_lhs => rw [hpk]
    dsimp only
    exact hid
  have hhd := read_header_eval buf0 ([] : List Nat) 2048 5 16 sid now 16 16
    (by norm_num) (by norm_num) (by norm_num) (by norm_num) hsid
    ⟨hnow.1, hnow.2⟩ (by norm_num) (by norm_num) (by simp [hbuf])
  simp only [List.append_nil] at hhd
  refine ⟨?_, ?_⟩
  · intro t h1 h7
    have e : ∀ (eid : Int) (elen : Nat), is_msg ⟨writeBytesAt buf0 0
        (beBytes 2 (toPat16 5) ++ (beBytes 2 (toPat16 16) ++ (beBytes 4 (toPat32 sid) ++
          beBytes 8 (toPat64 now)))), 16, 2048⟩ eid elen =
        (decide (0 < 16) && (decide (elen = 0) || decide (16 = elen)) &&
          decide ((5 : Int) = eid)) := fun eid elen =>
      is_msg_eval _ eid elen 5 16 hpk2 rfl
    interval_cases t <;>
      simp only [isMsgType, race_is_request, race_is_accept, race_is_reject, race_is_data,
        race_is_stop, race_is_pause, race_is_resume, e] <;> decide
  · unfold race_read_stop
    rw [hhd]
    exact ⟨by norm_num, rfl, rfl⟩


set_option maxHeartbeats 1000000 in
theorem pause_case (buf0 : List Nat) (sid now : Int)
    (hsid : Int32Ok sid) (hnow : Int64Ok now)
    (hbuf : buf0.length = 2048) :
    (∀ t : Nat, 1 ≤ t → t ≤ 7 →
      isMsgType (race_write_pause ⟨buf0, 0, 2048⟩ sid now).2 t = decide (t = 6)) ∧
    (race_read_pause (race_write_pause ⟨buf0, 0, 2048⟩ sid now).2).1 ≠ 0 ∧
    (race_read_pause (race_write_pause ⟨buf0, 0, 2048⟩ sid now).2).2.2.1 = sid ∧
    (race_read_pause (race_write_pause ⟨buf0, 0, 2048⟩ sid now).2).2.2.2 = now := by
  rw [race_write_pause_eval _ sid now (by norm_num)]
  dsimp only
  simp only [msgBytes, List.append_assoc]
  have hpk := race_peek_short_eval
    ⟨writeBytesAt buf0 0
      (beBytes 2 (toPat16 6) ++ (beBytes 2 (toPat16 16) ++ (beBytes 4 (toPat32 sid) ++
        beBytes 8 (toPat64 now)))), 16, 2048⟩ 0
    (by show 0 + 1 < 2048; norm_num)
  have hid := header_id_val buf0 ([] : List Nat) 6 16 sid now
    (by norm_num) (by simp [hbuf])
  simp only [List.append_nil] at hid
  have hpk2 : (race_peek_short ⟨writeBytesAt buf0 0
      (beBytes 2 (toPat16 6) ++ (beBytes 2 (toPat16 16) ++ (beBytes 4 (toPat32 sid) ++
        beBytes 8 (toPat64 now)))), 16, 2048⟩ 0).2 =
      (6 : Int) := by
    conv_lhs => rw [hpk]
    dsimp only
    exact hid
  have hhd := read_header_eval buf0 ([] : List Nat) 2048 6 16 sid now 16 16
    (by norm_num) (by norm_num) (by norm_num) (by norm_num) hsid
    ⟨hnow.1, hnow.2⟩ (by norm_num) (by norm_num) (by simp [hbuf])
  simp only [List.append_nil] at hhd
  refine ⟨?_, ?_⟩
  · intro t h1 h7
    have e : ∀ (eid : Int) (elen : Nat), is_msg ⟨writeBytesAt buf0 0
        (beBytes 2 (toPat16 6) ++ (beBytes 2 (toPat16 16) ++ (beBytes 4 (toPat32 sid) ++
          beBytes 8 (toPat64 now)))), 16, 2048⟩ eid elen =
        (decide (0 < 16) && (decide (elen = 0) || decide (16 = elen)) &&
          decide ((6 : Int) = eid)) := fun eid elen =>
      is_msg_eval _ eid elen 6 16 hpk2 rfl
    interval_cases t <;>
      simp only [isMsgType, race_is_request, race_is_accept, race_is_reject, race_is_data,
        race_is_stop, race_is_pause, race_is_resume, e] <;> decide
  · unfold race_read_pause
    rw [hhd]
    exact ⟨by norm_num, rfl, rfl⟩


set_option maxHeartbeats 1000000 in
theorem resume_case (buf0 : List Nat) (sid now : Int)
    (hsid : Int32Ok sid) (hnow : Int64Ok now)
    (hbuf : buf0.length = 2048) :
    (∀ t : Nat, 1 ≤ t → t ≤ 7 →
      isMsgType (race_write_resume ⟨buf0, 0, 2048⟩ sid now).2 t = decide (t = 7)) ∧
    (race_read_resume (race_write_resume ⟨buf0, 0, 2048⟩ sid now).2).1 ≠ 0 ∧
    (race_read_resume (race_write_resume ⟨buf0, 0, 2048⟩ sid now).2).2.2.1 = sid ∧
    (race_read_resume (race_write_resume ⟨buf0, 0, 2048⟩ sid now).2).2.2.2 = now := by
  rw [race_write_resume_eval _ sid now (by norm_num)]
  dsimp only
  simp only [msgBytes, List.append_assoc]
  have hpk := race_peek_short_eval
    ⟨writeBytesAt buf0 0
      (beBytes 2 (toPat16 7) ++ (beBytes 2 (toPat16 16) ++ (beBytes 4 (toPat32 sid) ++
        beBytes 8 (toPat64 now)))), 16, 2048⟩ 0
    (by show 0 + 1 < 2048; norm_num)
  have hid := header_id_val buf0 ([] : List Nat) 7 16 sid now
    (by norm_num) (by simp [hbuf])
  simp only [List.append_nil] at hid
  have hpk2 : (race_peek_short ⟨writeBytesAt buf0 0
      (beBytes 2 (toPat16 7) ++ (beBytes 2 (toPat16 16) ++ (beBytes 4 (toPat32 sid) ++
        beBytes 8 (toPat64 now)))), 16, 2048⟩ 0).2 =
      (7 : Int) := by
    conv_lhs => rw [hpk]
    dsimp only
    exact hid
  have hhd := read_header_eval buf0 ([] : List Nat) 2048 7 16 sid now 16 16
    (by norm_num) (by norm_num) (by norm_num) (by norm_num) hsid
    ⟨hnow.1, hnow.2⟩ (by norm_num) (by norm_num) (by simp [hbuf])
  simp only [List.append_nil] at hhd
  refine ⟨?_, ?_⟩
  · intro t h1 h7
    have e : ∀ (eid : Int) (elen : Nat), is_msg ⟨writeBytesAt buf0 0
        (beBytes 2 (toPat16 7) ++ (beBytes 2 (toPat16 16) ++ (beBytes 4 (toPat32 sid) ++
          beBytes 8 (toPat64 now)))), 16, 2048⟩ eid elen =
        (decide (0 < 16) && (decide (elen = 0) || decide (16 = elen)) &&
          decide ((7 : Int) = eid)) := fun eid elen =>
      is_msg_eval _ eid elen 7 16 hpk2 rfl
    interval_cases t <;>
      simp only [isMsgType, race_is_request, race_is_accept, race_is_reject, race_is_data,
        race_is_stop, race_is_pause, race_is_resume, e] <;> decide
  · unfold race_read_resume
    rw [hhd]
    exact ⟨by norm_num, rfl, rfl⟩

lemma override_at_2 (buf : List Nat) (A Y1 Y2 zs : List Nat)
    (hA : A.length = 2) (hY : Y1.length = 2) (hz : zs.length = 2) :
    writeBytesAt (writeBytesAt buf 0 (A ++ (Y1 ++ Y2))) 2 zs =
      writeBytesAt buf 0 (A ++ (zs ++ Y2)) := by
  have e1 : writeBytesAt buf 0 (A ++ (Y1 ++ Y2)) =
      writeBytesAt (writeBytesAt buf 0 A) 2 (Y1 ++ Y2) := by
    rw [writeBytesAt_append, Nat.zero_add, hA]
  have e2 : writeBytesAt buf 0 (A ++ (zs ++ Y2)) =
      writeBytesAt (writeBytesAt buf 0 A) 2 (zs ++ Y2) := by
    rw [writeBytesAt_append, Nat.zero_add, hA]
  rw [e1, e2, writeBytesAt_override zs Y1 Y2 _ 2 (by omega)]

lemma race_write_request_eval (db : databuf_t) (f : Int) (s : List Nat) (sm iv now : Int)
    (hcap : db.capacity = 2048) (hs : s.length < 2014) :
    race_write_request db f s sm iv now =
      (34 + s.length,
        { db with
            buf := writeBytesAt db.buf 0 (msgBytes now (RaceMsg.request f s sm iv)),
            pos := 34 + s.length }) := by
  unfold race_write_request
  dsimp only
  rw [write_header_eval db 1 0 (-1) now (by omega)]
  dsimp only
  rw [race_write_int_eval _ 16 f (by show 16 + 4 < db.capacity; omega)]
  dsimp only
  rw [writeBytesAt_chain _ _ _ 16 (by simp [length_beBytes])]
  rw [race_write_string_eval _ 20 s s.length
    (by show 20 + s.length + 2 < db.capacity; omega)]
  dsimp only
  simp only [List.take_length]
  rw [writeBytesAt_chain _ _ _ 20 (by simp [length_beBytes])]
  rw [race_write_long_eval _ (20 + 2 + s.length) sm
    (by show 20 + 2 + s.length + 8 < db.capacity; omega)]
  dsimp only
  rw [writeBytesAt_chain _ _ _ (20 + 2 + s.length) (by simp [length_beBytes]; omega)]
  rw [race_write_int_eval _ (20 + 2 + s.length + 8) iv
    (by show 20 + 2 + s.length + 8 + 4 < db.capacity; omega)]
  dsimp only
  rw [writeBytesAt_chain _ _ _ (20 + 2 + s.length + 8) (by simp [length_beBytes]; omega)]
  unfold set_msg_len race_set_short
  dsimp only
  simp only [List.append_assoc]
  rw [override_at_2 db.buf _ _ _ _ (by simp [length_beBytes]) (by simp [length_beBytes])
    (by simp [length_beBytes])]
  have hz : ((20 + 2 + s.length + 8 + 4 : Nat) : Int) = 34 + (s.length : Int) := by
    push_cast; ring
  rw [hz]
  simp only [msgBytes, List.append_assoc, Prod.mk.injEq]
  refine ⟨by omega, ?_⟩
  congr 1
  omega

lemma strncpy_field (buf0 pre post : List Nat) (s : List Nat) (maxLen P0 PP cap : Nat)
    (hP : P0 = pre.length)
    (hs : s.length < 32768) (hml : s.length < maxLen)
    (hfit : pre.length + 2 + s.length + post.length ≤ buf0.length)
    (hbuf : buf0.length = cap)
    (hlt : P0 + 2 + s.length < cap) :
    race_read_strncpy
      ⟨writeBytesAt buf0 0 (pre ++ (beBytes 2 (toPat16 (s.length : Int)) ++ (s ++ post))),
        PP, cap⟩ P0 maxLen =
      (P0 + 2 + s.length,
        ⟨writeBytesAt buf0 0 (pre ++ (beBytes 2 (toPat16 (s.length : Int)) ++ (s ++ post))),
          P0 + 2 + s.length, cap⟩, some s) := by
  subst hP
  have hval : getByte (writeBytesAt buf0 0
        (pre ++ (beBytes 2 (toPat16 (s.length : Int)) ++ (s ++ post)))) pre.length * 256 +
      getByte (writeBytesAt buf0 0
        (pre ++ (beBytes 2 (toPat16 (s.length : Int)) ++ (s ++ post)))) (pre.length + 1) =
      toPat16 (s.length : Int) := by
    have := short_field buf0 pre (s ++ post) (toPat16 (s.length : Int)) (toPat16_lt _)
      (by simp only [List.length_append] at hfit ⊢; omega)
    simpa using this
  have hfp : fromPat16 (toPat16 (s.length : Int)) = (s.length : Int) :=
    fromPat16_toPat16 _ (by omega) (by omega)
  have hread : readBytesAt (writeBytesAt buf0 0
      (pre ++ (beBytes 2 (toPat16 (s.length : Int)) ++ (s ++ post))))
      (pre.length + 2) s.length = s := by
    have := readBytes_segment buf0 (pre ++ beBytes 2 (toPat16 (s.length : Int))) s post
      (by simp only [List.length_append, length_beBytes] at hfit ⊢; omega)
    simp only [List.length_append, length_beBytes, List.append_assoc] at this
    exact this
  unfold race_read_strncpy
  rw [if_pos (by simp only [race_check_pos, decide_eq_true_eq]; omega)]
  rw [race_read_short_eval _ pre.length (by show pre.length + 1 < cap; omega)]
  dsimp only
  rw [hval, hfp]
  cases s with
  | nil =>
    rw [if_neg (by norm_num), if_pos (by norm_num)]
    simp
  | cons b0 srest =>
    rw [if_pos (by simp only [List.length_cons]; omega)]
    rw [if_pos (by simp only [race_check_pos, decide_eq_true_eq, Int.toNat_natCast]; simp only [List.length_cons] at hlt ⊢; omega)]
    rw [if_neg (by simp only [List.length_cons] at hml ⊢; push_cast; omega)]
    simp only [Int.toNat_natCast]
    rw [hread]

set_option maxHeartbeats 2000000 in
theorem request_case (buf0 : List Nat) (f : Int) (s : List Nat) (sm iv now : Int)
    (maxLen : Nat)
    (hf : Int32Ok f) (hsm : Int64Ok sm) (hiv : Int32Ok iv) (hnow : Int64Ok now)
    (hs : s.length < 2014) (hml : s.length < maxLen)
    (hbuf : buf0.length = 2048) :
    (∀ t : Nat, 1 ≤ t → t ≤ 7 →
      isMsgType (race_write_request ⟨buf0, 0, 2048⟩ f s sm iv now).2 t = decide (t = 1)) ∧
    (race_read_request (race_write_request ⟨buf0, 0, 2048⟩ f s sm iv now).2 maxLen).ret ≠ 0 ∧
    (race_read_request (race_write_request ⟨buf0, 0, 2048⟩ f s sm iv now).2
      maxLen).time_millis = now ∧
    (race_read_request (race_write_request ⟨buf0, 0, 2048⟩ f s sm iv now).2 maxLen).flags = f ∧
    (race_read_request (race_write_request ⟨buf0, 0, 2048⟩ f s sm iv now).2 maxLen).schema = s ∧
    (race_read_request (race_write_request ⟨buf0, 0, 2048⟩ f s sm iv now).2
      maxLen).sim_millis = sm ∧
    (race_read_request (race_write_request ⟨buf0, 0, 2048⟩ f s sm iv now).2
      maxLen).interval_millis = iv := by
  rw [race_write_request_eval _ f s sm iv now rfl hs]
  dsimp only
  simp only [msgBytes, List.append_assoc]
  have hrest : (beBytes 4 (toPat32 f) ++ (beBytes 2 (toPat16 (s.length : Int)) ++
      (s ++ (beBytes 8 (toPat64 sm) ++ beBytes 4 (toPat32 iv))))).length = 18 + s.length := by
    simp [length_beBytes]; omega
  have hpk := race_peek_short_eval
    ⟨writeBytesAt buf0 0
      (beBytes 2 (toPat16 1) ++ (beBytes 2 (toPat16 (34 + (s.length : Int))) ++
        (beBytes 4 (toPat32 (-1)) ++ (beBytes 8 (toPat64 now) ++
          (beBytes 4 (toPat32 f) ++ (beBytes 2 (toPat16 (s.length : Int)) ++
            (s ++ (beBytes 8 (toPat64 sm) ++ beBytes 4 (toPat32 iv))))))))),
      34 + s.length, 2048⟩ 0
    (by show 0 + 1 < 2048; norm_num)
  have hid := header_id_val buf0
    (beBytes 4 (toPat32 f) ++ (beBytes 2 (toPat16 (s.length : Int)) ++
      (s ++ (beBytes 8 (toPat64 sm) ++ beBytes 4 (toPat32 iv)))))
    1 (34 + (s.length : Int)) (-1) now
    (by norm_num) (by rw [hrest, hbuf]; omega)
  have hpk2 : (race_peek_short ⟨writeBytesAt buf0 0
      (beBytes 2 (toPat16 1) ++ (beBytes 2 (toPat16 (34 + (s.length : Int))) ++
        (beBytes 4 (toPat32 (-1)) ++ (beBytes 8 (toPat64 now) ++
          (beBytes 4 (toPat32 f) ++ (beBytes 2 (toPat16 (s.length : Int)) ++
            (s ++ (beBytes 8 (toPat64 sm) ++ beBytes 4 (toPat32 iv))))))))),
      34 + s.length, 2048⟩ 0).2 = (1 : Int) := by
    conv_lhs => rw [hpk]
    dsimp only
    exact hid
  have hhd := read_header_eval buf0
    (beBytes 4 (toPat32 f) ++ (beBytes 2 (toPat16 (s.length : Int)) ++
      (s ++ (beBytes 8 (toPat64 sm) ++ beBytes 4 (toPat32 iv)))))
    2048 1 (34 + (s.length : Int)) (-1) now 0 (34 + s.length)
    (by norm_num) (by rw [hrest]; omega) (by push_cast; ring)
    (by push_cast; omega) (by norm_num)
    ⟨hnow.1, hnow.2⟩ (Or.inl rfl) (by norm_num) (by rw [hrest, hbuf]; omega)
  refine ⟨?_, ?_⟩
  · intro t h1 h7
    have e : ∀ (eid : Int) (elen : Nat), is_msg ⟨writeBytesAt buf0 0
        (beBytes 2 (toPat16 1) ++ (beBytes 2 (toPat16 (34 + (s.length : Int))) ++
          (beBytes 4 (toPat32 (-1)) ++ (beBytes 8 (toPat64 now) ++
            (beBytes 4 (toPat32 f) ++ (beBytes 2 (toPat16 (s.length : Int)) ++
              (s ++ (beBytes 8 (toPat64 sm) ++ beBytes 4 (toPat32 iv))))))))),
        34 + s.length, 2048⟩ eid elen =
        (decide (0 < 34 + s.length) &&
          (decide (elen = 0) || decide (34 + s.length = elen)) &&
          decide ((1 : Int) = eid)) := fun eid elen =>
      is_msg_eval _ eid elen 1 (34 + s.length) hpk2 rfl
    interval_cases t <;>
      simp only [isMsgType, race_is_request, race_is_accept, race_is_reject, race_is_data,
        race_is_stop, race_is_pause, race_is_resume, e] <;> simp <;> omega
  · unfold race_read_request
    rw [hhd]
    dsimp only
    rw [if_pos (by norm_num)]
    rw [race_read_int_eval _ 16 (by show 16 + 3 < 2048; norm_num)]
    dsimp only
    have hxf := int_field_val buf0
      (beBytes 2 (toPat16 1) ++ (beBytes 2 (toPat16 (34 + (s.length : Int))) ++
        (beBytes 4 (toPat32 (-1)) ++ beBytes 8 (toPat64 now))))
      (beBytes 2 (toPat16 (s.length : Int)) ++
        (s ++ (beBytes 8 (toPat64 sm) ++ beBytes 4 (toPat32 iv))))
      f hf 16 (by simp [length_beBytes]) (by simp [length_beBytes, hbuf]; omega)
    simp only [List.append_assoc] at hxf
    rw [hxf]
    have hx2 := strncpy_field buf0
      (beBytes 2 (toPat16 1) ++ (beBytes 2 (toPat16 (34 + (s.length : Int))) ++
        (beBytes 4 (toPat32 (-1)) ++ (beBytes 8 (toPat64 now) ++ beBytes 4 (toPat32 f)))))
      (beBytes 8 (toPat64 sm) ++ beBytes 4 (toPat32 iv))
      s maxLen (16 + 4) (16 + 4) 2048
      (by simp [length_beBytes]) (by omega) hml
      (by simp only [List.length_append, length_beBytes, hbuf]; omega) hbuf
      (by omega)
    simp only [List.append_assoc] at hx2
    rw [hx2]
    dsimp only
    rw [race_read_long_eval _ (16 + 4 + 2 + s.length)
      (by show 16 + 4 + 2 + s.length + 7 < 2048; omega)]
    dsimp only
    have hx3 := long_field_val buf0
      (beBytes 2 (toPat16 1) ++ (beBytes 2 (toPat16 (34 + (s.length : Int))) ++
        (beBytes 4 (toPat32 (-1)) ++ (beBytes 8 (toPat64 now) ++
          (beBytes 4 (toPat32 f) ++ (beBytes 2 (toPat16 (s.length : Int)) ++ s))))))
      (beBytes 4 (toPat32 iv))
      sm hsm (16 + 4 + 2 + s.length) (by simp [length_beBytes]; omega)
      (by simp only [List.length_append, length_beBytes, hbuf]; omega)
    simp only [List.append_assoc] at hx3
    rw [hx3]
    rw [race_read_int_eval _ (16 + 4 + 2 + s.length + 8)
      (by show 16 + 4 + 2 + s.length + 8 + 3 < 2048; omega)]
    dsimp only
    have hx4 := int_field_val buf0
      (beBytes 2 (toPat16 1) ++ (beBytes 2 (toPat16 (34 + (s.length : Int))) ++
        (beBytes 4 (toPat32 (-1)) ++ (beBytes 8 (toPat64 now) ++
          (beBytes 4 (toPat32 f) ++ (beBytes 2 (toPat16 (s.length : Int)) ++
            (s ++ beBytes 8 (toPat64 sm))))))))
      ([] : List Nat)
      iv hiv (16 + 4 + 2 + s.length + 8) (by simp [length_beBytes]; omega)
      (by simp only [List.length_append, List.length_nil, length_beBytes, hbuf]; omega)
    simp only [List.append_assoc, List.append_nil] at hx4
    rw [hx4]
    refine ⟨by omega, rfl, rfl, by simp, rfl, rfl⟩

/-- C5: message round trip and type discrimination.  For each of the six
message types with a writer/reader pair in messages.c (Request, Accept,
Reject, Stop, Pause, Resume) and every valid payload, encoding the message
into a fresh `MAX_MSG_LEN` buffer makes exactly its own `race_is_*`
predicate true among the seven wire type ids (Data included), and the
matching `race_read_*` returns success and recovers every payload field
(plus the sender id and send time for the header-only messages). -/
theorem C5_message_roundtrip (buf0 : List Nat) (msg : RaceMsg) (now : Int) (maxLen : Nat)
    (hbuf : buf0.length = 2048) (hval : ValidPayload msg) (hnow : Int64Ok now)
    (hml : schemaLenOf msg < maxLen) :
    (∀ t : Nat, 1 ≤ t → t ≤ 7 →
      isMsgType (encodeMsg ⟨buf0, 0, 2048⟩ now msg).2 t = decide (t = msgTypeOf msg)) ∧
    (match msg with
     | RaceMsg.request f s sm iv =>
       (race_read_request (encodeMsg ⟨buf0, 0, 2048⟩ now msg).2 maxLen).ret ≠ 0 ∧
       (race_read_request (encodeMsg ⟨buf0, 0, 2048⟩ now msg).2 maxLen).time_millis = now ∧
       (race_read_request (encodeMsg ⟨buf0, 0, 2048⟩ now msg).2 maxLen).flags = f ∧
       (race_read_request (encodeMsg ⟨buf0, 0, 2048⟩ now msg).2 maxLen).schema = s ∧
       (race_read_request (encodeMsg ⟨buf0, 0, 2048⟩ now msg).2 maxLen).sim_millis = sm ∧
       (race_read_request (encodeMsg ⟨buf0, 0, 2048⟩ now msg).2 maxLen).interval_millis = iv
     | RaceMsg.accept f sm iv cid =>
       (race_read_accept (encodeMsg ⟨buf0, 0, 2048⟩ now msg).2).ret ≠ 0 ∧
       (race_read_accept (encodeMsg ⟨buf0, 0, 2048⟩ now msg).2).flags = f ∧
       (race_read_accept (encodeMsg ⟨buf0, 0, 2048⟩ now msg).2).sim_millis = sm ∧
       (race_read_accept (encodeMsg ⟨buf0, 0, 2048⟩ now msg).2).interval_millis = iv ∧
       (race_read_accept (encodeMsg ⟨buf0, 0, 2048⟩ now msg).2).client_id = cid
     | RaceMsg.reject r =>
       (race_read_reject (encodeMsg ⟨buf0, 0, 2048⟩ now msg).2).1 ≠ 0 ∧
       (race_read_reject (encodeMsg ⟨buf0, 0, 2048⟩ now msg).2).2.2 = r
     | RaceMsg.stop sid =>
       (race_read_stop (encodeMsg ⟨buf0, 0, 2048⟩ now msg).2).1 ≠ 0 ∧
       (race_read_stop (encodeMsg ⟨buf0, 0, 2048⟩ now msg).2).2.2.1 = sid ∧
       (race_read_stop (encodeMsg ⟨buf0, 0, 2048⟩ now msg).2).2.2.2 = now
     | RaceMsg.pause sid =>
       (race_read_pause (encodeMsg ⟨buf0, 0, 2048⟩ now msg).2).1 ≠ 0 ∧
       (race_read_pause (encodeMsg ⟨buf0, 0, 2048⟩ now msg).2).2.2.1 = sid ∧
       (race_read_pause (encodeMsg ⟨buf0, 0, 2048⟩ now msg).2).2.2.2 = now
     | RaceMsg.resume sid =>
       (race_read_resume (encodeMsg ⟨buf0, 0, 2048⟩ now msg).2).1 ≠ 0 ∧
       (race_read_resume (encodeMsg ⟨buf0, 0, 2048⟩ now msg).2).2.2.1 = sid ∧
       (race_read_resume (encodeMsg ⟨buf0, 0, 2048⟩ now msg).2).2.2.2 = now) := by
  cases msg with
  | request f s sm iv =>
    obtain ⟨hf, hsm, hiv, hs, hb⟩ := hval
    have hml2 : s.length < maxLen := hml
    have h := request_case buf0 f s sm iv now maxLen hf hsm hiv hnow hs hml2 hbuf
    dsimp only [encodeMsg, msgTypeOf]
    exact h
  | accept f sm iv cid =>
    obtain ⟨hf, hsm, hiv, hcid⟩ := hval
    have h := accept_case buf0 f sm iv cid now hf hsm hiv hcid hnow hbuf
    dsimp only [encodeMsg, msgTypeOf]
    exact h
  | reject r =>
    have hv : Int32Ok r := hval
    have h := reject_case buf0 r now hv hnow hbuf
    dsimp only [encodeMsg, msgTypeOf]
    exact h
  | stop sid =>
    have hv : Int32Ok sid := hval
    have h := stop_case buf0 sid now hv hnow hbuf
    dsimp only [encodeMsg, msgTypeOf]
    exact h
  | pause sid =>
    have hv : Int32Ok sid := hval
    have h := pause_case buf0 sid now hv hnow hbuf
    dsimp only [encodeMsg, msgTypeOf]
    exact h
  | resume sid =>
    have hv : Int32Ok sid := hval
    have h := resume_case buf0 sid now hv hnow hbuf
    dsimp only [encodeMsg, msgTypeOf]
    exact h

/-- C5 witness: an Accept message with flags 3, simulation time 1000,
interval 500, client id 7, sent at epoch time 99 into a fresh 2048-byte
buffer. -/
theorem C5_witness :
    ValidPayload (RaceMsg.accept 3 1000 500 7) ∧
    ((∀ t : Nat, 1 ≤ t → t ≤ 7 →
        isMsgType (encodeMsg ⟨List.replicate 2048 0, 0, 2048⟩ 99
          (RaceMsg.accept 3 1000 500 7)).2 t = decide (t = 2)) ∧
      (race_read_accept (encodeMsg ⟨List.replicate 2048 0, 0, 2048⟩ 99
          (RaceMsg.accept 3 1000 500 7)).2).ret ≠ 0 ∧
      (race_read_accept (encodeMsg ⟨List.replicate 2048 0, 0, 2048⟩ 99
          (RaceMsg.accept 3 1000 500 7)).2).flags = 3 ∧
      (race_read_accept (encodeMsg ⟨List.replicate 2048 0, 0, 2048⟩ 99
          (RaceMsg.accept 3 1000 500 7)).2).sim_millis = 1000 ∧
      (race_read_accept (encodeMsg ⟨List.replicate 2048 0, 0, 2048⟩ 99
          (RaceMsg.accept 3 1000 500 7)).2).interval_millis = 500 ∧
      (race_read_accept (encodeMsg ⟨List.replicate 2048 0, 0, 2048⟩ 99
          (RaceMsg.accept 3 1000 500 7)).2).client_id = 7) :=
  ⟨by norm_num [ValidPayload, Int32Ok, Int64Ok],
    C5_message_roundtrip (List.replicate 2048 0) (RaceMsg.accept 3 1000 500 7) 99 10
      (by rw [List.length_replicate]) (by norm_num [ValidPayload, Int32Ok, Int64Ok])
      (by norm_num [Int64Ok]) (by norm_num [schemaLenOf])⟩

lemma tier_facts : ∀ c ∈ map_consts, c.max_entries < c.size ∧ 2 < c.size ∧
    c.rehash + 2 = c.size ∧ Nat.Prime c.size := by
  intro c hc
  fin_cases hc <;>
    exact ⟨by norm_num, by norm_num, by norm_num, by norm_num⟩

lemma inv_consts_mem {α : Type} {m : hmap_t α} (h : hmapInv m) : m.consts ∈ map_consts := by
  obtain ⟨h1, h2, -⟩ := h
  rw [h2, List.getD_eq_getElem?_getD, List.getElem?_eq_getElem h1]
  exact List.getElem_mem h1

lemma step_coprime {α : Type} {m : hmap_t α} (hmem : m.consts ∈ map_consts) (h : Nat) :
    Nat.Coprime (1 + h % m.consts.rehash) m.consts.size := by
  obtain ⟨hme, hpos, hre, hpr⟩ := tier_facts m.consts hmem
  have hd2 : 1 + h % m.consts.rehash < m.consts.size := by
    have := Nat.mod_lt h (show 0 < m.consts.rehash by omega)
    omega
  have hnd : ¬ m.consts.size ∣ (1 + h % m.consts.rehash) := by
    intro hdvd
    have := Nat.le_of_dvd (by omega) hdvd
    omega
  exact Nat.coprime_comm.mp ((Nat.Prime.coprime_iff_not_dvd hpr).mpr hnd)

lemma probeIdx_inj {α : Type} {m : hmap_t α} (hmem : m.consts ∈ map_consts) (h : Nat) {t1 t2 : Nat}
    (h1 : t1 < m.consts.size) (h2 : t2 < m.consts.size)
    (he : probeIdx m h t1 = probeIdx m h t2) : t1 = t2 := by
  unfold probeIdx at he
  have hmod : h % m.consts.size + t1 * (1 + h % m.consts.rehash) ≡
      h % m.consts.size + t2 * (1 + h % m.consts.rehash) [MOD m.consts.size] := he
  have hmul : t1 * (1 + h % m.consts.rehash) ≡
      t2 * (1 + h % m.consts.rehash) [MOD m.consts.size] :=
    Nat.ModEq.add_left_cancel' _ hmod
  have ht : t1 ≡ t2 [MOD m.consts.size] :=
    Nat.ModEq.cancel_right_of_coprime (Nat.coprime_comm.mp (step_coprime hmem h)) hmul
  have h3 : t1 % m.consts.size = t2 % m.consts.size := ht
  rw [Nat.mod_eq_of_lt h1, Nat.mod_eq_of_lt h2] at h3
  exact h3

lemma probeIdx_surj {α : Type} {m : hmap_t α} (hmem : m.consts ∈ map_consts) (h j : Nat)
    (hj : j < m.consts.size) : ∃ t < m.consts.size, probeIdx m h t = j := by
  classical
  have hsub : (Finset.range m.consts.size).image (fun t => probeIdx m h t) ⊆
      Finset.range m.consts.size := by
    intro x hx
    simp only [Finset.mem_image, Finset.mem_range] at hx ⊢
    obtain ⟨t, -, rfl⟩ := hx
    exact probeIdx_lt m h t (by omega)
  have hcard : (Finset.range m.consts.size).card ≤
      ((Finset.range m.consts.size).image (fun t => probeIdx m h t)).card := by
    rw [Finset.card_image_of_injOn]
    intro a ha b hb hab
    exact probeIdx_inj hmem h (Finset.mem_range.mp ha) (Finset.mem_range.mp hb) hab
  have heq := Finset.eq_of_subset_of_card_le hsub hcard
  have : j ∈ (Finset.range m.consts.size).image (fun t => probeIdx m h t) := by
    rw [heq]
    exact Finset.mem_range.mpr hj
  simp only [Finset.mem_image, Finset.mem_range] at this
  obtain ⟨t, ht, he⟩ := this
  exact ⟨t, ht, he⟩

lemma slot_cases {α : Type} {e : hmap_entry_t α} (hs : slotShapeOK e = true) :
    (e.key = none ∧ e.hash = 0) ∨
    (e.key = none ∧ e.hash = DELETED_HASH ∧ e.data = none) ∨
    (∃ k, e.key = some k ∧ e.hash = hmap_hash k) := by
  unfold slotShapeOK is_free_entry at hs
  cases hk : e.key with
  | none =>
    rw [hk] at hs
    simp only [Option.isNone_none, Bool.true_and, Bool.or_false] at hs
    rcases Bool.or_eq_true_iff.mp hs with h1 | h2
    · exact Or.inl ⟨rfl, by simpa using h1⟩
    · refine Or.inr (Or.inl ⟨rfl, ?_, ?_⟩) <;> simp_all [Option.isNone_iff_eq_none]
  | some k =>
    rw [hk] at hs
    simp only [Option.isNone_some, Bool.false_and, Bool.and_false, Bool.false_or] at hs
    exact Or.inr (Or.inr ⟨k, rfl, by simpa using hs⟩)

lemma countP_split {α : Type} (p q r : α → Bool) :
    ∀ l : List α, (∀ x ∈ l, r x = (p x || q x)) → (∀ x ∈ l, ¬(p x = true ∧ q x = true)) →
      l.countP r = l.countP p + l.countP q := by
  intro l
  induction l with
  | nil => intro _ _; simp
  | cons a l ih =>
    intro hr hd
    have hra := hr a (by simp)
    have hda := hd a (by simp)
    rw [List.countP_cons, List.countP_cons, List.countP_cons,
      ih (fun x hx => hr x (by simp [hx])) (fun x hx => hd x (by simp [hx])), hra]
    cases hp : p a <;> cases hq : q a <;> simp_all <;> omega

lemma count_nonfree {α : Type} {m : hmap_t α} (hInv : hmapInv m) :
    m.entries.countP (fun e => !is_free_entry e) = m.n_entries + m.n_removed := by
  obtain ⟨-, -, -, hce, hcr, -, hshape, -, -⟩ := hInv
  rw [← hce, ← hcr]
  apply countP_split
  · intro e he
    have hs := slot_cases (List.all_eq_true.mp hshape e he)
    rcases hs with ⟨h1, h2⟩ | ⟨h1, h2, h3⟩ | ⟨k, h1, h2⟩ <;>
      simp [is_free_entry, h1, h2, DELETED_HASH]
  · intro e he
    have hs := slot_cases (List.all_eq_true.mp hshape e he)
    rcases hs with ⟨h1, h2⟩ | ⟨h1, h2, h3⟩ | ⟨k, h1, h2⟩ <;>
      simp [h1, h2, DELETED_HASH]

lemma exists_free_slot {α : Type} {m : hmap_t α} (hInv : hmapInv m) :
    ∃ j < m.consts.size, is_free_entry (getEntry m j) = true := by
  obtain ⟨hme, hsz, hre, hpr⟩ := tier_facts m.consts (inv_consts_mem hInv)
  have hlen := hInv.2.2.1
  have hload := hInv.2.2.2.2.2.1
  have hcnt := count_nonfree hInv
  have hex : ∃ e ∈ m.entries, is_free_entry e = true := by
    by_contra hno
    push_neg at hno
    have : m.entries.countP (fun e => !is_free_entry e) = m.entries.length := by
      rw [List.countP_eq_length]
      intro e he
      simp only [Bool.not_eq_true']
      exact Bool.eq_false_iff.mpr (fun hc => hno e he hc)
    omega
  obtain ⟨e, he, hf⟩ := hex
  obtain ⟨j, hj, hje⟩ := List.getElem_of_mem he
  refine ⟨j, by omega, ?_⟩
  unfold getEntry
  rw [List.getD_eq_getElem?_getD, List.getElem?_eq_getElem hj, Option.getD_some, hje]
  exact hf

lemma uniq_slots {α : Type} {m : hmap_t α} (hInv : hmapInv m) {i j : Nat} {k : Key}
    (hi : i < m.consts.size) (hj : j < m.consts.size)
    (hki : (getEntry m i).key = some k) (hkj : (getEntry m j).key = some k) : i = j := by
  have hlen := hInv.2.2.1
  have huq := hInv.2.2.2.2.2.2.2.1
  unfold uniqKeysOK at huq
  rcases Nat.lt_trichotomy i j with hlt | heq | hgt
  · exfalso
    have := List.all_eq_true.mp huq j (by simp [List.mem_range]; omega)
    have h2 := List.all_eq_true.mp this i (by simp [List.mem_range]; omega)
    rw [hkj, hki] at h2
    simp at h2
  · exact heq
  · exfalso
    have := List.all_eq_true.mp huq i (by simp [List.mem_range]; omega)
    have h2 := List.all_eq_true.mp this j (by simp [List.mem_range]; omega)
    rw [hki, hkj] at h2
    simp at h2

lemma reach_spec {α : Type} {m : hmap_t α} (hInv : hmapInv m) {j : Nat} {k : Key}
    (hj : j < m.consts.size) (hk : (getEntry m j).key = some k) :
    ∃ t < m.consts.size, probeIdx m (hmap_hash k) t = j ∧
      ∀ u < t, is_free_entry (getEntry m (probeIdx m (hmap_hash k) u)) = false := by
  have hra := hInv.2.2.2.2.2.2.2.2
  unfold reachAllOK at hra
  have h1 := List.all_eq_true.mp hra j (by simp [List.mem_range]; omega)
  rw [hk] at h1
  unfold reachOK at h1
  obtain ⟨t, ht, h2⟩ := List.any_eq_true.mp h1
  simp only [Bool.and_eq_true, beq_iff_eq] at h2
  refine ⟨t, by simp [List.mem_range] at ht; omega, h2.1, ?_⟩
  intro u hu
  have := List.all_eq_true.mp h2.2 u (by simp [List.mem_range]; omega)
  simpa using this

lemma add_loop_step {α : Type} (m : hmap_t α) (key : Key) (data : Option α) (h idx fuel : Nat)
    (hnf : is_free_entry (getEntry m idx) = false)
    (hnm : is_matching_entry (getEntry m idx) h key = false) :
    add_loop m key data h idx (fuel + 1) = add_loop m key data h (next_index m idx h) fuel := by
  conv_lhs => rw [add_loop]
  rw [if_neg (by rw [hnf]; simp), if_neg (by rw [hnm]; simp)]

lemma add_loop_skip {α : Type} (m : hmap_t α) (key : Key) (data : Option α) (h : Nat) :
    ∀ (T t fuel : Nat),
      (∀ u < T, is_free_entry (getEntry m (probeIdx m h (t + u))) = false ∧
        is_matching_entry (getEntry m (probeIdx m h (t + u))) h key = false) →
      add_loop m key data h (probeIdx m h t) (fuel + T) =
        add_loop m key data h (probeIdx m h (t + T)) fuel := by
  intro T
  induction T with
  | zero => intro t fuel _; rfl
  | succ T ih =>
    intro t fuel hbef
    have h0 := hbef 0 (by omega)
    rw [Nat.add_zero] at h0
    calc add_loop m key data h (probeIdx m h t) (fuel + (T + 1))
        = add_loop m key data h (next_index m (probeIdx m h t) h) (fuel + T) :=
          add_loop_step m key data h _ (fuel + T) h0.1 h0.2
      _ = add_loop m key data h (probeIdx m h (t + 1)) (fuel + T) := by rw [← probeIdx_succ]
      _ = add_loop m key data h (probeIdx m h (t + 1 + T)) fuel :=
          ih (t + 1) fuel (fun u hu => by
            have := hbef (u + 1) (by omega)
            rwa [show t + (u + 1) = t + 1 + u by omega] at this)
      _ = add_loop m key data h (probeIdx m h (t + (T + 1))) fuel := by
          rw [show t + 1 + T = t + (T + 1) by omega]

lemma add_loop_free {α : Type} (m : hmap_t α) (key : Key) (data : Option α) (h idx fuel : Nat)
    (hf : is_free_entry (getEntry m idx) = true) :
    add_loop m key data h idx (fuel + 1) =
      some { m with entries := m.entries.set idx ⟨some key, h, data⟩,
                    n_entries := m.n_entries + 1 } := by
  rw [add_loop]
  rw [if_pos hf]

lemma add_loop_match {α : Type} (m : hmap_t α) (key : Key) (data : Option α) (h idx fuel : Nat)
    (hnf : is_free_entry (getEntry m idx) = false)
    (hm : is_matching_entry (getEntry m idx) h key = true) :
    add_loop m key data h idx (fuel + 1) =
      some { m with entries := m.entries.set idx ⟨some key, (getEntry m idx).hash, data⟩ } := by
  rw [add_loop]
  rw [if_neg (by rw [hnf]; simp), if_pos hm]

lemma relocFrom_cases {α : Type} (m : hmap_t α) (h : Nat) :
    ∀ (T : Nat) (er : Option Nat) (t j : Nat), relocFrom m h er t T = some j →
      er = some j ∨ ∃ u < T, j = probeIdx m h (t + u) := by
  intro T
  induction T with
  | zero => intro er t j he; exact Or.inl he
  | succ T ih =>
    intro er t j he
    rw [relocFrom] at he
    rcases ih _ _ _ he with hc | ⟨u, hu, hj⟩
    · by_cases hcond : (er.isNone && is_deleted_entry (getEntry m (probeIdx m h t))) = true
      · rw [if_pos hcond] at hc
        exact Or.inr ⟨0, by omega, by simpa using hc.symm⟩
      · rw [if_neg hcond] at hc
        exact Or.inl hc
    · exact Or.inr ⟨u + 1, by omega, by rwa [show t + 1 + u = t + (u + 1) by omega] at hj⟩

lemma get_loop_step {α : Type} (m : hmap_t α) (key : Key) (h : Nat) (er : Option Nat)
    (idx steps fuel : Nat)
    (hnf : is_free_entry (getEntry m idx) = false)
    (hnm : is_matching_entry (getEntry m idx) h key = false) :
    get_loop m key h er idx steps (fuel + 1) =
      get_loop m key h
        (if er.isNone && is_deleted_entry (getEntry m idx) then some idx else er)
        (next_index m idx h) (steps + 1) fuel := by
  conv_lhs => rw [get_loop.eq_def]
  dsimp only
  rw [if_neg (by rw [hnf]; simp), if_neg (by rw [hnm]; simp)]
  by_cases hc : (er.isNone && is_deleted_entry (getEntry m idx)) = true
  · rw [if_pos hc, if_pos hc]
  · rw [if_neg hc, if_neg hc]

lemma get_loop_skip {α : Type} (m : hmap_t α) (key : Key) (h : Nat) :
    ∀ (T t : Nat) (er : Option Nat) (steps fuel : Nat),
      (∀ u < T, is_free_entry (getEntry m (probeIdx m h (t + u))) = false ∧
        is_matching_entry (getEntry m (probeIdx m h (t + u))) h key = false) →
      get_loop m key h er (probeIdx m h t) steps (fuel + T) =
        get_loop m key h (relocFrom m h er t T) (probeIdx m h (t + T)) (steps + T) fuel := by
  intro T
  induction T with
  | zero => intro t er steps fuel _; rfl
  | succ T ih =>
    intro t er steps fuel hbef
    have h0 := hbef 0 (by omega)
    rw [Nat.add_zero] at h0
    calc get_loop m key h er (probeIdx m h t) steps (fuel + (T + 1))

        = get_loop m key h
            (if (er : Option Nat).isNone && is_deleted_entry (getEntry m (probeIdx m h t)) then
              some (probeIdx m h t) else er)
            (next_index m (probeIdx m h t) h) (steps + 1) (fuel + T) :=
          get_loop_step m key h er _ steps (fuel + T) h0.1 h0.2
      _ = get_loop m key h
            (if (er : Option Nat).isNone && is_deleted_entry (getEntry m (probeIdx m h t)) then
              some (probeIdx m h t) else er)
            (probeIdx m h (t + 1)) (steps + 1) (fuel + T) := by rw [← probeIdx_succ]
      _ = get_loop m key h
            (relocFrom m h
              (if (er : Option Nat).isNone && is_deleted_entry (getEntry m (probeIdx m h t)) then
                some (probeIdx m h t) else er) (t + 1) T)
            (probeIdx m h (t + 1 + T)) (steps + 1 + T) (fuel) :=
          ih (t + 1) _ (steps + 1) fuel (fun u hu => by
            have := hbef (u + 1) (by omega)
            rwa [show t + (u + 1) = t + 1 + u by omega] at this)
      _ = get_loop m key h (relocFrom m h er t (T + 1)) (probeIdx m h (t + (T + 1)))
            (steps + (T + 1)) fuel := by
          rw [show t + 1 + T = t + (T + 1) by omega, show steps + 1 + T = steps + (T + 1) by omega,
            relocFrom]

lemma get_loop_free_term {α : Type} (m : hmap_t α) (key : Key) (h : Nat) (er : Option Nat)
    (idx steps fuel : Nat) (hf : is_free_entry (getEntry m idx) = true) :
    get_loop m key h er idx steps (fuel + 1) = some (none, m, steps + 1) := by
  conv_lhs => rw [get_loop.eq_def]
  dsimp only
  rw [if_pos hf]

lemma get_loop_match_term_none {α : Type} (m : hmap_t α) (key : Key) (h : Nat)
    (idx steps fuel : Nat)
    (hnf : is_free_entry (getEntry m idx) = false)
    (hm : is_matching_entry (getEntry m idx) h key = true) :
    get_loop m key h none idx steps (fuel + 1) =
      some (some (getEntry m idx), m, steps + 1) := by
  conv_lhs => rw [get_loop.eq_def]
  dsimp only
  rw [if_neg (by rw [hnf]; simp), if_pos hm]

lemma get_loop_match_term_some {α : Type} (m : hmap_t α) (key : Key) (h : Nat) (j : Nat)
    (idx steps fuel : Nat)
    (hnf : is_free_entry (getEntry m idx) = false)
    (hm : is_matching_entry (getEntry m idx) h key = true) :
    get_loop m key h (some j) idx steps (fuel + 1) =
      some (some (getEntry (reloc_entry m idx j) j), reloc_entry m idx j, steps + 1) := by
  conv_lhs => rw [get_loop.eq_def]
  dsimp only
  rw [if_neg (by rw [hnf]; simp), if_pos hm]

lemma hmap_get_free_stop {α : Type} (m : hmap_t α) (k : Key) (T : Nat)
    (hT : T < m.consts.size)
    (hstop : is_free_entry (getEntry m (probeIdx m (hmap_hash k) T)) = true)
    (hpre : ∀ u < T, is_free_entry (getEntry m (probeIdx m (hmap_hash k) u)) = false ∧
      is_matching_entry (getEntry m (probeIdx m (hmap_hash k) u)) (hmap_hash k) k = false) :
    hmap_get_entry m k = some (none, m, T + 1) := by
  unfold hmap_get_entry
  dsimp only
  rw [← probeIdx_zero m (hmap_hash k),
    show m.consts.size = (m.consts.size - T) + T by omega,
    get_loop_skip m k (hmap_hash k) T 0 none 0 (m.consts.size - T)
      (fun u hu => by have := hpre u hu; rwa [Nat.zero_add]),
    Nat.zero_add,
    show m.consts.size - T = (m.consts.size - T - 1) + 1 by omega,
    get_loop_free_term m k (hmap_hash k) _ _ T _ hstop]

lemma hmap_get_match_noreloc {α : Type} (m : hmap_t α) (k : Key) (T : Nat)
    (hT : T < m.consts.size)
    (hnf : is_free_entry (getEntry m (probeIdx m (hmap_hash k) T)) = false)
    (hm : is_matching_entry (getEntry m (probeIdx m (hmap_hash k) T)) (hmap_hash k) k = true)
    (hrel : relocFrom m (hmap_hash k) none 0 T = none)
    (hpre : ∀ u < T, is_free_entry (getEntry m (probeIdx m (hmap_hash k) u)) = false ∧
      is_matching_entry (getEntry m (probeIdx m (hmap_hash k) u)) (hmap_hash k) k = false) :
    hmap_get_entry m k =
      some (some (getEntry m (probeIdx m (hmap_hash k) T)), m, T + 1) := by
  unfold hmap_get_entry
  dsimp only
  rw [← probeIdx_zero m (hmap_hash k),
    show m.consts.size = (m.consts.size - T) + T by omega,
    get_loop_skip m k (hmap_hash k) T 0 none 0 (m.consts.size - T)
      (fun u hu => by have := hpre u hu; rwa [Nat.zero_add]),
    Nat.zero_add, hrel,
    show m.consts.size - T = (m.consts.size - T - 1) + 1 by omega,
    get_loop_match_term_none m k (hmap_hash k) _ T _ hnf hm]

lemma hmap_get_match_reloc {α : Type} (m : hmap_t α) (k : Key) (T j : Nat)
    (hT : T < m.consts.size)
    (hnf : is_free_entry (getEntry m (probeIdx m (hmap_hash k) T)) = false)
    (hm : is_matching_entry (getEntry m (probeIdx m (hmap_hash k) T)) (hmap_hash k) k = true)
    (hrel : relocFrom m (hmap_hash k) none 0 T = some j)
    (hpre : ∀ u < T, is_free_entry (getEntry m (probeIdx m (hmap_hash k) u)) = false ∧
      is_matching_entry (getEntry m (probeIdx m (hmap_hash k) u)) (hmap_hash k) k = false) :
    hmap_get_entry m k =
      some (some (getEntry (reloc_entry m (probeIdx m (hmap_hash k) T) j) j),
        reloc_entry m (probeIdx m (hmap_hash k) T) j, T + 1) := by
  unfold hmap_get_entry
  dsimp only
  rw [← probeIdx_zero m (hmap_hash k),
    show m.consts.size = (m.consts.size - T) + T by omega,
    get_loop_skip m k (hmap_hash k) T 0 none 0 (m.consts.size - T)
      (fun u hu => by have := hpre u hu; rwa [Nat.zero_add]),
    Nat.zero_add, hrel,
    show m.consts.size - T = (m.consts.size - T - 1) + 1 by omega,
    get_loop_match_term_some m k (hmap_hash k) j _ T _ hnf hm]

lemma getEntry_reloc_self {α : Type} (m : hmap_t α) (idx_from j : Nat)
    (hj : j < m.entries.length) (hne : j ≠ idx_from) :
    getEntry (reloc_entry m idx_from j) j = getEntry m idx_from := by
  unfold reloc_entry getEntry
  dsimp only
  rw [List.getD_eq_getElem?_getD, List.getElem?_set_ne (by omega),
    List.getElem?_set_eq (by simpa using hj)]
  rfl

lemma getEntry_mem {α : Type} {m : hmap_t α} {j : Nat} (hj : j < m.entries.length) :
    getEntry m j ∈ m.entries := by
  unfold getEntry
  rw [List.getD_eq_getElem?_getD, List.getElem?_eq_getElem hj]
  exact List.getElem_mem hj

lemma live_hash {α : Type} {m : hmap_t α} (hInv : hmapInv m) {j : Nat} {k : Key}
    (hj : j < m.consts.size) (hk : (getEntry m j).key = some k) :
    (getEntry m j).hash = hmap_hash k := by
  have hlen := hInv.2.2.1
  have hshape := hInv.2.2.2.2.2.2.1
  have hmem := getEntry_mem (m := m) (j := j) (by omega)
  have hs := slot_cases (List.all_eq_true.mp hshape _ hmem)
  rcases hs with ⟨h1, -⟩ | ⟨h1, -⟩ | ⟨k2, h1, h2⟩
  · rw [h1] at hk; cases hk
  · rw [h1] at hk; cases hk
  · rw [h1] at hk
    cases hk
    exact h2

lemma contentOf_eq_some {α : Type} {m : hmap_t α} (hInv : hmapInv m) {k : Key} {d : Option α} :
    contentOf m k = some d ↔
      ∃ j < m.consts.size, (getEntry m j).key = some k ∧ (getEntry m j).data = d := by
  have hlen := hInv.2.2.1
  unfold contentOf
  constructor
  · intro hc
    rcases hfind : m.entries.find? (fun e => decide (e.key = some k)) with _ | e
    · rw [hfind] at hc; cases hc
    · rw [hfind] at hc
      simp only [Option.map_some'] at hc
      have hkey : e.key = some k := by
        have := List.find?_some hfind
        simpa using this
      have hmem := List.mem_of_find?_eq_some hfind
      obtain ⟨j, hj, hje⟩ := List.getElem_of_mem hmem
      refine ⟨j, by omega, ?_, ?_⟩
      · unfold getEntry
        rw [List.getD_eq_getElem?_getD, List.getElem?_eq_getElem hj, Option.getD_some, hje, hkey]
      · unfold getEntry
        rw [List.getD_eq_getElem?_getD, List.getElem?_eq_getElem hj, Option.getD_some, hje]
        simpa using hc
  · rintro ⟨j, hj, hkj, hdj⟩
    rcases hfind : m.entries.find? (fun e => decide (e.key = some k)) with _ | e
    · exfalso
      have hnone := List.find?_eq_none.mp hfind
      have := hnone (getEntry m j) (getEntry_mem (by omega))
      simp [hkj] at this
    · rw [hfind]
      simp only [Option.map_some']
      have hkey : e.key = some k := by
        have := List.find?_some hfind
        simpa using this
      have hmem := List.mem_of_find?_eq_some hfind
      obtain ⟨i, hi, hie⟩ := List.getElem_of_mem hmem
      have hki : (getEntry m i).key = some k := by
        unfold getEntry
        rw [List.getD_eq_getElem?_getD, List.getElem?_eq_getElem hi, Option.getD_some, hie, hkey]
      have hij := uniq_slots hInv (by omega) hj hki hkj
      have : getEntry m i = e := by
        unfold getEntry
        rw [List.getD_eq_getElem?_getD, List.getElem?_eq_getElem hi, Option.getD_some, hie]
      rw [← hdj, ← hij, this]

lemma contentOf_eq_none {α : Type} {m : hmap_t α} (hInv : hmapInv m) {k : Key} :
    contentOf m k = none ↔ ∀ j < m.consts.size, (getEntry m j).key ≠ some k := by
  have hlen := hInv.2.2.1
  unfold contentOf
  rw [Option.map_eq_none', List.find?_eq_none]
  constructor
  · intro hno j hj hk
    have := hno (getEntry m j) (getEntry_mem (by omega))
    simp [hk] at this
  · intro hno e he hk
    obtain ⟨j, hj, hje⟩ := List.getElem_of_mem he
    refine hno j (by omega) ?_
    unfold getEntry
    rw [List.getD_eq_getElem?_getD, List.getElem?_eq_getElem hj, Option.getD_some, hje]
    simpa using hk

lemma get_found {α : Type} {m : hmap_t α} (hInv : hmapInv m) {k : Key} {d : Option α}
    (hc : contentOf m k = some d) :
    ∃ e m2 steps, hmap_get_entry m k = some (some e, m2, steps) ∧
      e.key = some k ∧ e.data = d := by
  classical
  obtain ⟨j, hj, hkj, hdj⟩ := (contentOf_eq_some hInv).mp hc
  obtain ⟨tj, htj, hpj, hprenf⟩ := reach_spec hInv hj hkj
  have hlen := hInv.2.2.1
  have hmatchj : is_matching_entry (getEntry m (probeIdx m (hmap_hash k) tj))
      (hmap_hash k) k = true := by
    rw [hpj]
    unfold is_matching_entry
    rw [live_hash hInv hj hkj, hkj]
    simp
  have hPex : ∃ t, is_matching_entry (getEntry m (probeIdx m (hmap_hash k) t))
      (hmap_hash k) k = true := ⟨tj, hmatchj⟩
  have hPT := Nat.find_spec hPex
  have hTle : Nat.find hPex ≤ tj := Nat.find_le hmatchj
  set T := Nat.find hPex with hTdef
  have hT : T < m.consts.size := by omega
  have hkeyT : (getEntry m (probeIdx m (hmap_hash k) T)).key = some k := by
    unfold is_matching_entry at hPT
    simp only [Bool.and_eq_true, beq_iff_eq, decide_eq_true_eq] at hPT
    exact hPT.2
  have hidxT : probeIdx m (hmap_hash k) T = j :=
    uniq_slots hInv (probeIdx_lt m (hmap_hash k) T (by omega)) hj hkeyT hkj
  have hnfT : is_free_entry (getEntry m (probeIdx m (hmap_hash k) T)) = false := by
    unfold is_free_entry
    rw [hkeyT]
    simp
  have hpre : ∀ u < T, is_free_entry (getEntry m (probeIdx m (hmap_hash k) u)) = false ∧
      is_matching_entry (getEntry m (probeIdx m (hmap_hash k) u)) (hmap_hash k) k = false := by
    intro u hu
    refine ⟨hprenf u (by omega), ?_⟩
    have := Nat.find_min hPex hu
    simpa using this
  rcases hrel : relocFrom m (hmap_hash k) none 0 T with _ | jr
  · refine ⟨getEntry m (probeIdx m (hmap_hash k) T), m, T + 1,
      hmap_get_match_noreloc m k T hT hnfT hPT hrel hpre, hkeyT, ?_⟩
    rw [hidxT]
    exact hdj
  · have hjr : ∃ u < T, jr = probeIdx m (hmap_hash k) (0 + u) := by
      rcases relocFrom_cases m (hmap_hash k) T none 0 jr hrel with hcc | hcc
      · cases hcc
      · exact hcc
    obtain ⟨u, hu, hju⟩ := hjr
    rw [Nat.zero_add] at hju
    have hjrlt : jr < m.consts.size := by
      rw [hju]
      exact probeIdx_lt m (hmap_hash k) u (by omega)
    have hjrne : jr ≠ probeIdx m (hmap_hash k) T := by
      rw [hju]
      intro hcc
      have := probeIdx_inj (inv_consts_mem hInv) (hmap_hash k) (by omega) hT hcc
      omega
    have hre := getEntry_reloc_self m (probeIdx m (hmap_hash k) T) jr (by omega) hjrne
    refine ⟨getEntry (reloc_entry m (probeIdx m (hmap_hash k) T) jr) jr,
      reloc_entry m (probeIdx m (hmap_hash k) T) jr, T + 1,
      hmap_get_match_reloc m k T jr hT hnfT hPT hrel hpre, ?_, ?_⟩
    · rw [hre]
      exact hkeyT
    · rw [hre, hidxT]
      exact hdj

lemma get_absent {α : Type} {m : hmap_t α} (hInv : hmapInv m) {k : Key}
    (hc : contentOf m k = none) :
    ∃ steps, hmap_get_entry m k = some (none, m, steps) := by
  classical
  have hnom : ∀ u, is_matching_entry (getEntry m (probeIdx m (hmap_hash k) u))
      (hmap_hash k) k = false := by
    intro u
    by_cases hu : u < m.consts.size
    · rcases hmm : is_matching_entry (getEntry m (probeIdx m (hmap_hash k) u))
          (hmap_hash k) k with _ | _
      · rfl
      · exfalso
        have hkey : (getEntry m (probeIdx m (hmap_hash k) u)).key = some k := by
          unfold is_matching_entry at hmm
          simp only [Bool.and_eq_true, beq_iff_eq, decide_eq_true_eq] at hmm
          exact hmm.2
        exact (contentOf_eq_none hInv).mp hc _ (probeIdx_lt m (hmap_hash k) u
          (by have := hInv.2.2.1; have := exists_free_slot hInv; omega)) hkey
    · rcases hmm : is_matching_entry (getEntry m (probeIdx m (hmap_hash k) u))
          (hmap_hash k) k with _ | _
      · rfl
      · exfalso
        have hkey : (getEntry m (probeIdx m (hmap_hash k) u)).key = some k := by
          unfold is_matching_entry at hmm
          simp only [Bool.and_eq_true, beq_iff_eq, decide_eq_true_eq] at hmm
          exact hmm.2
        have hszpos : 0 < m.consts.size := by
          obtain ⟨-, h2, -⟩ := tier_facts m.consts (inv_consts_mem hInv)
          omega
        exact (contentOf_eq_none hInv).mp hc _ (probeIdx_lt m (hmap_hash k) u hszpos) hkey
  obtain ⟨jf, hjf, hfree⟩ := exists_free_slot hInv
  obtain ⟨tf, htf, hptf⟩ := probeIdx_surj (inv_consts_mem hInv) (hmap_hash k) jf hjf
  have hPex : ∃ t, is_free_entry (getEntry m (probeIdx m (hmap_hash k) t)) = true :=
    ⟨tf, by rw [hptf]; exact hfree⟩
  have hPT := Nat.find_spec hPex
  have hTle : Nat.find hPex ≤ tf := Nat.find_le (by rw [hptf]; exact hfree)
  set T := Nat.find hPex with hTdef
  refine ⟨T + 1, hmap_get_free_stop m k T (by omega) hPT ?_⟩
  intro u hu
  refine ⟨?_, hnom u⟩
  have := Nat.find_min hPex hu
  simpa using this

lemma getD_set_eq {α : Type} (l : List α) (idx : Nat) (e d : α) (hi : idx < l.length) :
    (l.set idx e).getD idx d = e := by
  rw [List.getD_eq_getElem?_getD, List.getElem?_set_eq (by simpa using hi)]
  rfl

lemma getD_set_ne {α : Type} (l : List α) (idx i : Nat) (e d : α) (hne : i ≠ idx) :
    (l.set idx e).getD i d = l.getD i d := by
  rw [List.getD_eq_getElem?_getD, List.getElem?_set_ne (fun hc => hne hc.symm),
    ← List.getD_eq_getElem?_getD]

lemma countP_set_add {α : Type} (p : α → Bool) :
    ∀ (l : List α) (i : Nat) (a : α), i < l.length →
      (l.set i a).countP p + (if p (l.getD i a) then 1 else 0) =
        l.countP p + (if p a then 1 else 0) := by
  intro l
  induction l with
  | nil => intro i a hi; simp at hi
  | cons x l ih =>
    intro i a hi
    cases i with
    | zero =>
      simp only [List.set_cons_zero, List.countP_cons, List.getD_cons_zero]
      cases hp : p a <;> simp [hp] <;> omega
    | succ i =>
      simp only [List.set_cons_succ, List.countP_cons, List.getD_cons_succ]
      have := ih i a (by simpa using hi)
      simp only [List.getD_eq_getElem?_getD] at this ⊢
      omega

lemma all_set {α : Type} (p : α → Bool) (l : List α) (i : Nat) (a : α)
    (hl : l.all p = true) (ha : p a = true) : (l.set i a).all p = true := by
  rw [List.all_eq_true] at hl ⊢
  intro x hx
  rcases List.mem_or_eq_of_mem_set hx with hmem | rfl
  · exact hl x hmem
  · exact ha

lemma uniqKeysOK_iff {α : Type} {m : hmap_t α} :
    uniqKeysOK m = true ↔
      ∀ i < m.entries.length, ∀ j < m.entries.length, ∀ k : Key,
        (getEntry m i).key = some k → (getEntry m j).key = some k → i = j := by
  unfold uniqKeysOK
  constructor
  · intro hq i hi j hj k hki hkj
    rcases Nat.lt_trichotomy i j with hlt | heq | hgt
    · exfalso
      have h1 := List.all_eq_true.mp hq j (by simp [List.mem_range]; omega)
      have h2 := List.all_eq_true.mp h1 i (by simp [List.mem_range]; omega)
      rw [hkj, hki] at h2
      simp at h2
    · exact heq
    · exfalso
      have h1 := List.all_eq_true.mp hq i (by simp [List.mem_range]; omega)
      have h2 := List.all_eq_true.mp h1 j (by simp [List.mem_range]; omega)
      rw [hki, hkj] at h2
      simp at h2
  · intro hp
    rw [List.all_eq_true]
    intro i hi
    rw [List.all_eq_true]
    intro j hj
    simp only [List.mem_range] at hi hj
    rcases hk : (getEntry m i).key with _ | k
    · simp [hk]
    · rcases hk2 : (getEntry m j).key with _ | k2
      · simp [hk, hk2]
      · by_cases hkk : k = k2
        · exfalso
          subst hkk
          have := hp i hi j (by omega) k hk hk2
          omega
        · simp [hk, hk2, hkk]

lemma reachAllOK_iff {α : Type} {m : hmap_t α} :
    reachAllOK m = true ↔
      ∀ j < m.consts.size, ∀ k : Key, (getEntry m j).key = some k →
        ∃ t < m.consts.size, probeIdx m (hmap_hash k) t = j ∧
          ∀ u < t, is_free_entry (getEntry m (probeIdx m (hmap_hash k) u)) = false := by
  unfold reachAllOK
  constructor
  · intro hr j hj k hk
    have h1 := List.all_eq_true.mp hr j (by simp [List.mem_range]; omega)
    rw [hk] at h1
    unfold reachOK at h1
    obtain ⟨t, ht, h2⟩ := List.any_eq_true.mp h1
    simp only [Bool.and_eq_true, beq_iff_eq] at h2
    refine ⟨t, by simp [List.mem_range] at ht; omega, h2.1, ?_⟩
    intro u hu
    have := List.all_eq_true.mp h2.2 u (by simp [List.mem_range]; omega)
    simpa using this
  · intro hp
    rw [List.all_eq_true]
    intro j hj
    simp only [List.mem_range] at hj
    rcases hk : (getEntry m j).key with _ | k
    · rfl
    · obtain ⟨t, ht, hpt, hpre⟩ := hp j hj k hk
      unfold reachOK
      rw [List.any_eq_true]
      refine ⟨t, by simp [List.mem_range]; omega, ?_⟩
      simp only [Bool.and_eq_true, beq_iff_eq]
      refine ⟨hpt, ?_⟩
      rw [List.all_eq_true]
      intro u hu
      simp only [List.mem_range] at hu
      simp [hpre u hu]

lemma find_const_idx_lt (s : Nat) : ∀ (l : List hmap_const_t) (i : Nat),
    find_const_idx s l = some i → i < l.length := by
  intro l
  induction l with
  | nil => intro i h; cases h
  | cons c rest ih =>
    intro i h
    unfold find_const_idx at h
    by_cases hs : s ≤ c.size
    · rw [if_pos hs] at h
      cases h
      simp
    · rw [if_neg hs] at h
      rcases hr : find_const_idx s rest with _ | i2
      · rw [hr] at h; cases h
      · rw [hr] at h
        simp only [Option.map_some'] at h
        cases h
        have := ih i2 hr
        simp
        omega

lemma countP_replicate {α : Type} (p : α → Bool) (a : α) :
    ∀ n : Nat, (List.replicate n a).countP p = if p a then n else 0 := by
  intro n
  induction n with
  | zero => simp
  | succ n ih =>
    rw [List.replicate_succ, List.countP_cons, ih]
    cases hp : p a <;> simp [hp]

lemma create_inv {α : Type} (n : Nat) (m0 : hmap_t α) (hc : hmap_create α n = some m0) :
    hmapInv m0 ∧ ∀ k, contentOf m0 k = none := by
  unfold hmap_create at hc
  rcases hgi : get_const_idx n with _ | i
  · rw [hgi] at hc; cases hc
  · rw [hgi] at hc
    dsimp only at hc
    cases hc
    have hidx : i < map_consts.length := find_const_idx_lt n map_consts i hgi
    have hge : ∀ j, getEntry (α := α)
        ⟨map_consts.getD i ⟨0, 0, 0, 0⟩, i, 0, 0,
          List.replicate (map_consts.getD i ⟨0, 0, 0, 0⟩).size empty_hmap_entry⟩ j =
        empty_hmap_entry := by
      intro j
      unfold getEntry
      dsimp only
      rw [List.getD_eq_getElem?_getD, List.getElem?_replicate]
      split_ifs <;> rfl
    refine ⟨⟨hidx, rfl, by simp, ?_, ?_, by simp, ?_, ?_, ?_⟩, ?_⟩
    · rw [countP_replicate]
      simp [empty_hmap_entry]
    · rw [countP_replicate]
      simp [empty_hmap_entry, DELETED_HASH]
    · rw [List.all_eq_true]
      intro e he
      rw [List.eq_of_mem_replicate he]
      simp [slotShapeOK, is_free_entry, empty_hmap_entry]
    · rw [uniqKeysOK_iff]
      intro i1 hi1 j1 hj1 k hki hkj
      rw [hge i1] at hki
      simp [empty_hmap_entry] at hki
    · rw [reachAllOK_iff]
      intro j hj k hk
      rw [hge j] at hk
      simp [empty_hmap_entry] at hk
    · intro k
      unfold contentOf
      rw [Option.map_eq_none', List.find?_eq_none]
      intro e he
      rw [List.eq_of_mem_replicate he]
      simp [empty_hmap_entry]

lemma getD_of_lt {α : Type} (l : List α) (i : Nat) (a b : α) (hi : i < l.length) :
    l.getD i a = l.getD i b := by
  rw [List.getD_eq_getElem?_getD, List.getD_eq_getElem?_getD, List.getElem?_eq_getElem hi]
  rfl

lemma insert_effect {α : Type} {m m2 : hmap_t α} (hInv : hmapInv m) (k : Key) (d : Option α)
    (T : Nat) (hT : T < m.consts.size)
    (hfree : is_free_entry (getEntry m (probeIdx m (hmap_hash k) T)) = true)
    (hpre : ∀ u < T, is_free_entry (getEntry m (probeIdx m (hmap_hash k) u)) = false)
    (habs : contentOf m k = none)
    (hload : m.n_entries + m.n_removed + 1 ≤ m.consts.max_entries)
    (hm2 : m2 = { m with
      entries := m.entries.set (probeIdx m (hmap_hash k) T) ⟨some k, hmap_hash k, d⟩,
      n_entries := m.n_entries + 1 }) :
    hmapInv m2 ∧ contentOf m2 k = some d ∧
      ∀ k2, k2 ≠ k → contentOf m2 k2 = contentOf m k2 := by
  obtain ⟨hci, hcs, hlen, hce, hcr, hld, hshape, huq, hra⟩ := hInv
  have hInv0 : hmapInv m := ⟨hci, hcs, hlen, hce, hcr, hld, hshape, huq, hra⟩
  set idx := probeIdx m (hmap_hash k) T with hidxdef
  have hidxlt : idx < m.consts.size := probeIdx_lt m (hmap_hash k) T (by omega)
  have hconsts : m2.consts = m.consts := by rw [hm2]
  have hcidx : m2.const_idx = m.const_idx := by rw [hm2]
  have hne2 : m2.n_entries = m.n_entries + 1 := by rw [hm2]
  have hnr2 : m2.n_removed = m.n_removed := by rw [hm2]
  have hprobe : ∀ h t, probeIdx m2 h t = probeIdx m h t := by
    intro h t
    unfold probeIdx
    rw [hconsts]
  have hget_ne : ∀ i, i ≠ idx → getEntry m2 i = getEntry m i := by
    intro i hi
    rw [hm2]
    unfold getEntry
    dsimp only
    exact getD_set_ne _ _ _ _ _ hi
  have hget_eq : getEntry m2 idx = ⟨some k, hmap_hash k, d⟩ := by
    rw [hm2]
    unfold getEntry
    dsimp only
    exact getD_set_eq _ _ _ _ (by omega)
  have hfKeyNone : (getEntry m idx).key = none := by
    unfold is_free_entry at hfree
    simp only [Bool.and_eq_true, Option.isNone_iff_eq_none, beq_iff_eq] at hfree
    exact hfree.1
  have hfHash0 : (getEntry m idx).hash = 0 := by
    unfold is_free_entry at hfree
    simp only [Bool.and_eq_true, Option.isNone_iff_eq_none, beq_iff_eq] at hfree
    exact hfree.2
  have hnok : ∀ j < m.consts.size, (getEntry m j).key ≠ some k :=
    (contentOf_eq_none hInv0).mp habs
  have hlen2 : m2.entries.length = m2.consts.size := by
    rw [hm2]
    dsimp only
    rw [List.length_set]
    exact hlen
  have hInv2 : hmapInv m2 := by
    refine ⟨by rw [hcidx]; exact hci, by rw [hconsts, hcidx]; exact hcs,
      hlen2, ?_, ?_, by rw [hne2, hnr2, hconsts]; omega, ?_, ?_, ?_⟩
    · have hc := countP_set_add (fun e => e.key.isSome) m.entries idx
        ⟨some k, hmap_hash k, d⟩ (by omega)
      rw [getD_of_lt _ _ _ empty_hmap_entry (by omega)] at hc
      have hold : (m.entries.getD idx empty_hmap_entry).key.isSome = false := by
        show (getEntry m idx).key.isSome = false
        rw [hfKeyNone]
        rfl
      simp only [hold] at hc
      norm_num at hc
      rw [hm2]
      dsimp only
      omega
    · have hc := countP_set_add (fun e => e.key.isNone && e.hash == DELETED_HASH) m.entries idx
        ⟨some k, hmap_hash k, d⟩ (by omega)
      rw [getD_of_lt _ _ _ empty_hmap_entry (by omega)] at hc
      have hold : ((m.entries.getD idx empty_hmap_entry).key.isNone &&
          (m.entries.getD idx empty_hmap_entry).hash == DELETED_HASH) = false := by
        show ((getEntry m idx).key.isNone && (getEntry m idx).hash == DELETED_HASH) = false
        rw [hfHash0]
        simp [DELETED_HASH]
      simp only [hold] at hc
      norm_num at hc
      rw [hm2]
      dsimp only
      omega
    · rw [hm2]
      dsimp only
      exact all_set _ _ _ _ hshape (by simp [slotShapeOK])
    · rw [uniqKeysOK_iff]
      intro i hi j hj k2 hki hkj
      rw [hlen2, hconsts] at hi hj
      by_cases hie : i = idx <;> by_cases hje : j = idx
      · rw [hie, hje]
      · exfalso
        rw [hie, hget_eq] at hki
        cases hki
        rw [hget_ne j hje] at hkj
        exact hnok j (by omega) hkj
      · exfalso
        rw [hje, hget_eq] at hkj
        cases hkj
        rw [hget_ne i hie] at hki
        exact hnok i (by omega) hki
      · rw [hget_ne i hie] at hki
        rw [hget_ne j hje] at hkj
        exact uniq_slots hInv0 (by omega) (by omega) hki hkj
    · rw [reachAllOK_iff]
      intro j hj k2 hk2
      rw [hconsts] at hj ⊢
      by_cases hje : j = idx
      · rw [hje, hget_eq] at hk2
        cases hk2
        refine ⟨T, by omega, ?_, ?_⟩
        · rw [hprobe]
          rw [hje]
        · intro u hu
          rw [hprobe, hget_ne _ (fun hc => by
            have := probeIdx_inj (inv_consts_mem hInv0) (hmap_hash k) (by omega) hT hc
            omega)]
          exact hpre u hu
      · rw [hget_ne j hje] at hk2
        obtain ⟨t, ht, hpt, hpf⟩ := reach_spec hInv0 (by omega) hk2
        refine ⟨t, by omega, by rw [hprobe]; exact hpt, ?_⟩
        intro u hu
        rw [hprobe]
        by_cases hpu : probeIdx m (hmap_hash k2) u = idx
        · rw [hpu, hget_eq]
          simp [is_free_entry]
        · rw [hget_ne _ hpu]
          exact hpf u hu
  refine ⟨hInv2, ?_, ?_⟩
  · exact (contentOf_eq_some hInv2).mpr ⟨idx, by rw [hconsts]; omega,
      by rw [hget_eq], by rw [hget_eq]⟩
  · intro k2 hk2ne
    rcases hc2 : contentOf m k2 with _ | d2
    · refine (contentOf_eq_none hInv2).mpr ?_
      intro j hj
      rw [hconsts] at hj
      by_cases hje : j = idx
      · rw [hje, hget_eq]
        intro hcc
        cases hcc
        exact hk2ne rfl
      · rw [hget_ne j hje]
        exact (contentOf_eq_none hInv0).mp hc2 j hj
    · obtain ⟨j, hj, hkj, hdj⟩ := (contentOf_eq_some hInv0).mp hc2
      have hje : j ≠ idx := by
        intro hcc
        rw [hcc, hfKeyNone] at hkj
        cases hkj
      exact (contentOf_eq_some hInv2).mpr ⟨j, by rw [hconsts]; omega,
        by rw [hget_ne j hje]; exact hkj, by rw [hget_ne j hje]; exact hdj⟩

lemma replace_effect {α : Type} {m m2 : hmap_t α} (hInv : hmapInv m) (k : Key) (d : Option α)
    {idx : Nat} (hidxlt : idx < m.consts.size)
    (hkj : (getEntry m idx).key = some k)
    (hm2 : m2 = { m with
      entries := m.entries.set idx ⟨some k, (getEntry m idx).hash, d⟩ }) :
    hmapInv m2 ∧ contentOf m2 k = some d ∧
      ∀ k2, k2 ≠ k → contentOf m2 k2 = contentOf m k2 := by
  obtain ⟨hci, hcs, hlen, hce, hcr, hld, hshape, huq, hra⟩ := hInv
  have hInv0 : hmapInv m := ⟨hci, hcs, hlen, hce, hcr, hld, hshape, huq, hra⟩
  have hhash : (getEntry m idx).hash = hmap_hash k := live_hash hInv0 hidxlt hkj
  have hconsts : m2.consts = m.consts := by rw [hm2]
  have hcidx : m2.const_idx = m.const_idx := by rw [hm2]
  have hne2 : m2.n_entries = m.n_entries := by rw [hm2]
  have hnr2 : m2.n_removed = m.n_removed := by rw [hm2]
  have hprobe : ∀ h t, probeIdx m2 h t = probeIdx m h t := by
    intro h t
    unfold probeIdx
    rw [hconsts]
  have hget_ne : ∀ i, i ≠ idx → getEntry m2 i = getEntry m i := by
    intro i hi
    rw [hm2]
    unfold getEntry
    dsimp only
    exact getD_set_ne _ _ _ _ _ hi
  have hget_eq : getEntry m2 idx = ⟨some k, (getEntry m idx).hash, d⟩ := by
    rw [hm2]
    unfold getEntry
    dsimp only
    exact getD_set_eq _ _ _ _ (by omega)
  have hlen2 : m2.entries.length = m2.consts.size := by
    rw [hm2]
    dsimp only
    rw [List.length_set]
    exact hlen
  have hInv2 : hmapInv m2 := by
    refine ⟨by rw [hcidx]; exact hci, by rw [hconsts, hcidx]; exact hcs,
      hlen2, ?_, ?_, by rw [hne2, hnr2, hconsts]; omega, ?_, ?_, ?_⟩
    · have hc := countP_set_add (fun e => e.key.isSome) m.entries idx
        ⟨some k, (getEntry m idx).hash, d⟩ (by omega)
      rw [getD_of_lt _ _ _ empty_hmap_entry (by omega)] at hc
      have hold : (m.entries.getD idx empty_hmap_entry).key.isSome = true := by
        show (getEntry m idx).key.isSome = true
        rw [hkj]
        rfl
      simp only [hold] at hc
      norm_num at hc
      rw [hm2]
      dsimp only
      omega
    · have hc := countP_set_add (fun e => e.key.isNone && e.hash == DELETED_HASH) m.entries idx
        ⟨some k, (getEntry m idx).hash, d⟩ (by omega)
      rw [getD_of_lt _ _ _ empty_hmap_entry (by omega)] at hc
      have hold : ((m.entries.getD idx empty_hmap_entry).key.isNone &&
          (m.entries.getD idx empty_hmap_entry).hash == DELETED_HASH) = false := by
        show ((getEntry m idx).key.isNone && (getEntry m idx).hash == DELETED_HASH) = false
        rw [hkj]
        rfl
      simp only [hold] at hc
      norm_num at hc
      rw [hm2]
      dsimp only
      omega
    · rw [hm2]
      dsimp only
      refine all_set _ _ _ _ hshape ?_
      unfold slotShapeOK
      rw [hhash]
      simp
    · rw [uniqKeysOK_iff]
      intro i hi j hj k2 hki hkj2
      rw [hlen2, hconsts] at hi hj
      by_cases hie : i = idx <;> by_cases hje : j = idx
      · rw [hie, hje]
      · exfalso
        rw [hie, hget_eq] at hki
        cases hki
        rw [hget_ne j hje] at hkj2
        have := uniq_slots hInv0 hidxlt (by omega) hkj hkj2
        omega
      · exfalso
        rw [hje, hget_eq] at hkj2
        cases hkj2
        rw [hget_ne i hie] at hki
        have := uniq_slots hInv0 (by omega) hidxlt hki hkj
        omega
      · rw [hget_ne i hie] at hki
        rw [hget_ne j hje] at hkj2
        exact uniq_slots hInv0 (by omega) (by omega) hki hkj2
    · rw [reachAllOK_iff]
      intro j hj k2 hk2
      rw [hconsts] at hj ⊢
      have hfree_pres : ∀ i, is_free_entry (getEntry m2 i) = is_free_entry (getEntry m i) := by
        intro i
        by_cases hie : i = idx
        · rw [hie, hget_eq]
          unfold is_free_entry
          rw [hkj]
        · rw [hget_ne i hie]
      by_cases hje : j = idx
      · rw [hje, hget_eq] at hk2
        cases hk2
        obtain ⟨t, ht, hpt, hpf⟩ := reach_spec hInv0 hidxlt hkj
        refine ⟨t, by omega, by rw [hprobe]; rw [hje]; exact hpt, ?_⟩
        intro u hu
        rw [hprobe, hfree_pres]
        exact hpf u hu
      · rw [hget_ne j hje] at hk2
        obtain ⟨t, ht, hpt, hpf⟩ := reach_spec hInv0 (by omega) hk2
        refine ⟨t, by omega, by rw [hprobe]; exact hpt, ?_⟩
        intro u hu
        rw [hprobe, hfree_pres]
        exact hpf u hu
  refine ⟨hInv2, ?_, ?_⟩
  · exact (contentOf_eq_some hInv2).mpr ⟨idx, by rw [hconsts]; omega,
      by rw [hget_eq], by rw [hget_eq]⟩
  · intro k2 hk2ne
    rcases hc2 : contentOf m k2 with _ | d2
    · refine (contentOf_eq_none hInv2).mpr ?_
      intro j hj
      rw [hconsts] at hj
      by_cases hje : j = idx
      · rw [hje, hget_eq]
        intro hcc
        cases hcc
        exact hk2ne rfl
      · rw [hget_ne j hje]
        exact (contentOf_eq_none hInv0).mp hc2 j hj
    · obtain ⟨j, hj, hkj2, hdj⟩ := (contentOf_eq_some hInv0).mp hc2
      have hje : j ≠ idx := by
        intro hcc
        rw [hcc, hkj] at hkj2
        cases hkj2
        exact hk2ne rfl
      exact (contentOf_eq_some hInv2).mpr ⟨j, by rw [hconsts]; omega,
        by rw [hget_ne j hje]; exact hkj2, by rw [hget_ne j hje]; exact hdj⟩

lemma tombstone_effect {α : Type} {m m2 : hmap_t α} (hInv : hmapInv m) (k : Key)
    {idx : Nat} (hidxlt : idx < m.consts.size)
    (hkj : (getEntry m idx).key = some k)
    (hm2 : m2 = { m with
      entries := m.entries.set idx ⟨none, DELETED_HASH, none⟩,
      n_entries := m.n_entries - 1,
      n_removed := m.n_removed + 1 }) :
    hmapInv m2 ∧ contentOf m2 k = none ∧
      ∀ k2, k2 ≠ k → contentOf m2 k2 = contentOf m k2 := by
  obtain ⟨hci, hcs, hlen, hce, hcr, hld, hshape, huq, hra⟩ := hInv
  have hInv0 : hmapInv m := ⟨hci, hcs, hlen, hce, hcr, hld, hshape, huq, hra⟩
  have hconsts : m2.consts = m.consts := by rw [hm2]
  have hcidx : m2.const_idx = m.const_idx := by rw [hm2]
  have hne2 : m2.n_entries = m.n_entries - 1 := by rw [hm2]
  have hnr2 : m2.n_removed = m.n_removed + 1 := by rw [hm2]
  have hprobe : ∀ h t, probeIdx m2 h t = probeIdx m h t := by
    intro h t
    unfold probeIdx
    rw [hconsts]
  have hget_ne : ∀ i, i ≠ idx → getEntry m2 i = getEntry m i := by
    intro i hi
    rw [hm2]
    unfold getEntry
    dsimp only
    exact getD_set_ne _ _ _ _ _ hi
  have hget_eq : getEntry m2 idx = ⟨none, DELETED_HASH, none⟩ := by
    rw [hm2]
    unfold getEntry
    dsimp only
    exact getD_set_eq _ _ _ _ (by omega)
  have hlen2 : m2.entries.length = m2.consts.size := by
    rw [hm2]
    dsimp only
    rw [List.length_set]
    exact hlen
  have hpos : 1 ≤ m.n_entries := by
    have : 0 < m.entries.countP (fun e => e.key.isSome) := by
      rw [List.countP_pos]
      exact ⟨getEntry m idx, getEntry_mem (by omega), by rw [hkj]; rfl⟩
    omega
  have hInv2 : hmapInv m2 := by
    refine ⟨by rw [hcidx]; exact hci, by rw [hconsts, hcidx]; exact hcs,
      hlen2, ?_, ?_, by rw [hne2, hnr2, hconsts]; omega, ?_, ?_, ?_⟩
    · have hc := countP_set_add (fun e => e.key.isSome) m.entries idx
        (⟨none, DELETED_HASH, none⟩ : hmap_entry_t α) (by omega)
      rw [getD_of_lt _ _ _ empty_hmap_entry (by omega)] at hc
      have hold : (m.entries.getD idx empty_hmap_entry).key.isSome = true := by
        show (getEntry m idx).key.isSome = true
        rw [hkj]
        rfl
      simp only [hold] at hc
      norm_num at hc
      rw [hm2]
      dsimp only
      omega
    · have hc := countP_set_add (fun e => e.key.isNone && e.hash == DELETED_HASH) m.entries idx
        (⟨none, DELETED_HASH, none⟩ : hmap_entry_t α) (by omega)
      rw [getD_of_lt _ _ _ empty_hmap_entry (by omega)] at hc
      have hold : ((m.entries.getD idx empty_hmap_entry).key.isNone &&
          (m.entries.getD idx empty_hmap_entry).hash == DELETED_HASH) = false := by
        show ((getEntry m idx).key.isNone && (getEntry m idx).hash == DELETED_HASH) = false
        rw [hkj]
        rfl
      simp only [hold] at hc
      norm_num at hc
      rw [hm2]
      dsimp only
      omega
    · rw [hm2]
      dsimp only
      refine all_set _ _ _ _ hshape ?_
      unfold slotShapeOK
      simp [DELETED_HASH]
    · rw [uniqKeysOK_iff]
      intro i hi j hj k2 hki hkj2
      rw [hlen2, hconsts] at hi hj
      by_cases hie : i = idx <;> by_cases hje : j = idx
      · rw [hie, hje]
      · exfalso
        rw [hie, hget_eq] at hki
        cases hki
      · exfalso
        rw [hje, hget_eq] at hkj2
        cases hkj2
      · rw [hget_ne i hie] at hki
        rw [hget_ne j hje] at hkj2
        exact uniq_slots hInv0 (by omega) (by omega) hki hkj2
    · rw [reachAllOK_iff]
      intro j hj k2 hk2
      rw [hconsts] at hj ⊢
      have hfree_pres : ∀ i, is_free_entry (getEntry m2 i) = false →
          is_free_entry (getEntry m i) = false → True := fun _ _ _ => trivial
      by_cases hje : j = idx
      · exfalso
        rw [hje, hget_eq] at hk2
        cases hk2
      · rw [hget_ne j hje] at hk2
        obtain ⟨t, ht, hpt, hpf⟩ := reach_spec hInv0 (by omega) hk2
        refine ⟨t, by omega, by rw [hprobe]; exact hpt, ?_⟩
        intro u hu
        rw [hprobe]
        by_cases hpu : probeIdx m (hmap_hash k2) u = idx
        · rw [hpu, hget_eq]
          simp [is_free_entry, DELETED_HASH]
        · rw [hget_ne _ hpu]
          exact hpf u hu
  refine ⟨hInv2, ?_, ?_⟩
  · refine (contentOf_eq_none hInv2).mpr ?_
    intro j hj
    rw [hconsts] at hj
    by_cases hje : j = idx
    · rw [hje, hget_eq]
      intro hcc
      cases hcc
    · rw [hget_ne j hje]
      intro hcc
      have := uniq_slots hInv0 (by omega) hidxlt hcc hkj
      omega
  · intro k2 hk2ne
    rcases hc2 : contentOf m k2 with _ | d2
    · refine (contentOf_eq_none hInv2).mpr ?_
      intro j hj
      rw [hconsts] at hj
      by_cases hje : j = idx
      · rw [hje, hget_eq]
        intro hcc
        cases hcc
      · rw [hget_ne j hje]
        exact (contentOf_eq_none hInv0).mp hc2 j hj
    · obtain ⟨j, hj, hkj2, hdj⟩ := (contentOf_eq_some hInv0).mp hc2
      have hje : j ≠ idx := by
        intro hcc
        rw [hcc, hkj] at hkj2
        cases hkj2
        exact hk2ne rfl
      exact (contentOf_eq_some hInv2).mpr ⟨j, by rw [hconsts]; omega,
        by rw [hget_ne j hje]; exact hkj2, by rw [hget_ne j hje]; exact hdj⟩

lemma getD_mem {α : Type} {l : List α} {j : Nat} (hj : j < l.length) (d : α) :
    l.getD j d ∈ l := by
  rw [List.getD_eq_getElem?_getD, List.getElem?_eq_getElem hj]
  exact List.getElem_mem hj

lemma liveAtL_cons {α : Type} (e : hmap_entry_t α) (rest : List (hmap_entry_t α))
    (k : Key) (d : Option α) :
    liveAtL (e :: rest) k d ↔ (e.key = some k ∧ e.data = d) ∨ liveAtL rest k d := by
  unfold liveAtL
  constructor
  · rintro ⟨j, hj, hk, hd⟩
    cases j with
    | zero => exact Or.inl ⟨by simpa using hk, by simpa using hd⟩
    | succ j =>
      right
      exact ⟨j, by simpa using hj, by simpa using hk, by simpa using hd⟩
  · rintro (⟨hk, hd⟩ | ⟨j, hj, hk, hd⟩)
    · exact ⟨0, by simp, by simpa using hk, by simpa using hd⟩
    · exact ⟨j + 1, by simpa using hj, by simpa using hk, by simpa using hd⟩

lemma liveAtL_nil {α : Type} (k : Key) (d : Option α) : ¬ liveAtL ([] : List (hmap_entry_t α)) k d := by
  rintro ⟨j, hj, -⟩
  simp at hj

lemma not_liveAtL_of_countP_zero {α : Type} (l : List (hmap_entry_t α))
    (h : l.countP (fun e => e.key.isSome) = 0) (k : Key) (d : Option α) :
    ¬ liveAtL l k d := by
  rintro ⟨j, hj, hk, -⟩
  have hmem := getD_mem hj (empty_hmap_entry (α := α))
  have := List.countP_eq_zero.mp h _ hmem
  rw [hk] at this
  simp at this

lemma liveAtL_set_free {α : Type} (l : List (hmap_entry_t α)) (idx : Nat)
    (hidx : idx < l.length) (hfree : (l.getD idx empty_hmap_entry).key = none)
    (e : hmap_entry_t α) (k : Key) (d : Option α) :
    liveAtL (l.set idx e) k d ↔ (e.key = some k ∧ e.data = d) ∨ liveAtL l k d := by
  unfold liveAtL
  constructor
  · rintro ⟨j, hj, hk, hd⟩
    rw [List.length_set] at hj
    by_cases hje : j = idx
    · subst hje
      rw [getD_set_eq _ _ _ _ hidx] at hk hd
      exact Or.inl ⟨hk, hd⟩
    · rw [getD_set_ne _ _ _ _ _ hje] at hk hd
      exact Or.inr ⟨j, hj, hk, hd⟩
  · rintro (⟨hk, hd⟩ | ⟨j, hj, hk, hd⟩)
    · exact ⟨idx, by rw [List.length_set]; omega,
        by rw [getD_set_eq _ _ _ _ hidx]; exact hk,
        by rw [getD_set_eq _ _ _ _ hidx]; exact hd⟩
    · have hje : j ≠ idx := by
        intro hcc
        rw [hcc, hfree] at hk
        cases hk
      exact ⟨j, by rw [List.length_set]; omega,
        by rw [getD_set_ne _ _ _ _ _ hje]; exact hk,
        by rw [getD_set_ne _ _ _ _ _ hje]; exact hd⟩

lemma reinsert_step {α : Type} (news : List (hmap_entry_t α)) (e : hmap_entry_t α)
    (sz rh idx fuel : Nat)
    (hnf : is_free_entry (news.getD idx empty_hmap_entry) = false) :
    reinsert_loop news e sz rh idx (fuel + 1) =
      reinsert_loop news e sz rh ((idx + (1 + e.hash % rh)) % sz) fuel := by
  conv_lhs => rw [reinsert_loop]
  rw [if_neg (by rw [hnf]; simp)]

lemma reinsert_term {α : Type} (news : List (hmap_entry_t α)) (e : hmap_entry_t α)
    (sz rh idx fuel : Nat)
    (hf : is_free_entry (news.getD idx empty_hmap_entry) = true) :
    reinsert_loop news e sz rh idx (fuel + 1) = some (news.set idx e) := by
  rw [reinsert_loop]
  rw [if_pos hf]

lemma reinsert_skip {α : Type} (M : hmap_t α) (news : List (hmap_entry_t α))
    (e : hmap_entry_t α) :
    ∀ (T t fuel : Nat),
      (∀ u < T, is_free_entry (news.getD (probeIdx M e.hash (t + u)) empty_hmap_entry) = false) →
      reinsert_loop news e M.consts.size M.consts.rehash (probeIdx M e.hash t) (fuel + T) =
        reinsert_loop news e M.consts.size M.consts.rehash (probeIdx M e.hash (t + T)) fuel := by
  intro T
  induction T with
  | zero => intro t fuel _; rfl
  | succ T ih =>
    intro t fuel hbef
    have h0 := hbef 0 (by omega)
    rw [Nat.add_zero] at h0
    calc reinsert_loop news e M.consts.size M.consts.rehash (probeIdx M e.hash t) (fuel + (T + 1))
        = reinsert_loop news e M.consts.size M.consts.rehash
            ((probeIdx M e.hash t + (1 + e.hash % M.consts.rehash)) % M.consts.size)
            (fuel + T) := reinsert_step news e _ _ _ (fuel + T) h0
      _ = reinsert_loop news e M.consts.size M.consts.rehash
            (probeIdx M e.hash (t + 1)) (fuel + T) := by
            rw [probeIdx_succ]
            rfl
      _ = reinsert_loop news e M.consts.size M.consts.rehash
            (probeIdx M e.hash (t + 1 + T)) fuel :=
          ih (t + 1) fuel (fun u hu => by
            have := hbef (u + 1) (by omega)
            rwa [show t + (u + 1) = t + 1 + u by omega] at this)
      _ = reinsert_loop news e M.consts.size M.consts.rehash
            (probeIdx M e.hash (t + (T + 1))) fuel := by
          rw [show t + 1 + T = t + (T + 1) by omega]

lemma reinsert_spec {α : Type} (M : hmap_t α) (hmem : M.consts ∈ map_consts)
    (news : List (hmap_entry_t α)) (e : hmap_entry_t α)
    (hfree_ex : ∃ jf < M.consts.size, is_free_entry (news.getD jf empty_hmap_entry) = true) :
    ∃ T < M.consts.size,
      reinsert_loop news e M.consts.size M.consts.rehash (e.hash % M.consts.size)
        M.consts.size = some (news.set (probeIdx M e.hash T) e) ∧
      is_free_entry (news.getD (probeIdx M e.hash T) empty_hmap_entry) = true ∧
      ∀ u < T, is_free_entry (news.getD (probeIdx M e.hash u) empty_hmap_entry) = false := by
  classical
  obtain ⟨jf, hjf, hfree⟩ := hfree_ex
  obtain ⟨tf, htf, hptf⟩ := probeIdx_surj hmem e.hash jf hjf
  have hPex : ∃ t, is_free_entry (news.getD (probeIdx M e.hash t) empty_hmap_entry) = true :=
    ⟨tf, by rw [hptf]; exact hfree⟩
  have hPT := Nat.find_spec hPex
  have hTle : Nat.find hPex ≤ tf := Nat.find_le (by rw [hptf]; exact hfree)
  set T := Nat.find hPex with hTdef
  refine ⟨T, by omega, ?_, hPT, ?_⟩
  · rw [← probeIdx_zero M e.hash]
    nth_rewrite 2 [show M.consts.size = (M.consts.size - T) + T by omega]
    rw [reinsert_skip M news e T 0 (M.consts.size - T)
        (fun u hu => by
          have := Nat.find_min hPex hu
          rw [Nat.zero_add]
          simpa using this),
      Nat.zero_add,
      show M.consts.size - T = (M.consts.size - T - 1) + 1 by omega,
      reinsert_term news e _ _ _ _ hPT]
  · intro u hu
    have := Nat.find_min hPex hu
    simpa using this

lemma newsOK_exists_free {α : Type} {M : hmap_t α} {news : List (hmap_entry_t α)}
    (hOK : newsOK M news)
    (hlt : news.countP (fun e => e.key.isSome) < M.consts.size) :
    ∃ jf < M.consts.size, is_free_entry (news.getD jf empty_hmap_entry) = true := by
  obtain ⟨hlen, hshape, -, -⟩ := hOK
  by_contra hno
  push_neg at hno
  have hall : ∀ e ∈ news, e.key.isSome = true := by
    intro e he
    rcases hshape e he with hf | ⟨k, hk, -⟩
    · obtain ⟨j, hj, hje⟩ := List.getElem_of_mem he
      have hjlt : j < M.consts.size := by omega
      have := hno j hjlt
      rw [List.getD_eq_getElem?_getD, List.getElem?_eq_getElem hj, Option.getD_some, hje] at this
      simp [hf] at this
    · rw [hk]
      rfl
  have : news.countP (fun e => e.key.isSome) = news.length := List.countP_eq_length.mpr hall
  omega

lemma newsOK_insert {α : Type} {M : hmap_t α} (hmem : M.consts ∈ map_consts)
    {news : List (hmap_entry_t α)} (hOK : newsOK M news)
    (e : hmap_entry_t α) (ke : Key) (hke : e.key = some ke) (hh : e.hash = hmap_hash ke)
    (habs : ∀ d, ¬ liveAtL news ke d)
    (hlt : news.countP (fun e => e.key.isSome) < M.consts.size) :
    ∃ news2,
      reinsert_loop news e M.consts.size M.consts.rehash (e.hash % M.consts.size)
        M.consts.size = some news2 ∧
      newsOK M news2 ∧
      news2.countP (fun e => e.key.isSome) =
        news.countP (fun e => e.key.isSome) + 1 ∧
      (∀ k d, liveAtL news2 k d ↔ (k = ke ∧ d = e.data) ∨ liveAtL news k d) := by
  obtain ⟨hlen, hshape, huniq, hreach⟩ := hOK
  have hOK0 : newsOK M news := ⟨hlen, hshape, huniq, hreach⟩
  obtain ⟨T, hT, hrun, hfree, hpre⟩ :=
    reinsert_spec M hmem news e (newsOK_exists_free hOK0 hlt)
  set pos := probeIdx M e.hash T with hposdef
  have hposlt : pos < M.consts.size := probeIdx_lt M e.hash T (by omega)
  have hfkey : (news.getD pos empty_hmap_entry).key = none := by
    unfold is_free_entry at hfree
    simp only [Bool.and_eq_true, Option.isNone_iff_eq_none, beq_iff_eq] at hfree
    exact hfree.1
  refine ⟨news.set pos e, hrun, ⟨?_, ?_, ?_, ?_⟩, ?_, ?_⟩
  · rw [List.length_set]
    exact hlen
  · intro x hx
    rcases List.mem_or_eq_of_mem_set hx with hmemx | rfl
    · exact hshape x hmemx
    · exact Or.inr ⟨ke, hke, hh⟩
  · intro i hi j hj k hki hkj
    rw [List.length_set] at hi hj
    by_cases hie : i = pos <;> by_cases hje : j = pos
    · rw [hie, hje]
    · exfalso
      rw [hie, getD_set_eq _ _ _ _ (by omega), hke] at hki
      cases hki
      rw [getD_set_ne _ _ _ _ _ hje] at hkj
      exact habs (news.getD j empty_hmap_entry).data ⟨j, hj, hkj, rfl⟩
    · exfalso
      rw [hje, getD_set_eq _ _ _ _ (by omega), hke] at hkj
      cases hkj
      rw [getD_set_ne _ _ _ _ _ hie] at hki
      exact habs (news.getD i empty_hmap_entry).data ⟨i, hi, hki, rfl⟩
    · rw [getD_set_ne _ _ _ _ _ hie] at hki
      rw [getD_set_ne _ _ _ _ _ hje] at hkj
      exact huniq i hi j hj k hki hkj
  · intro j hj k hkj
    by_cases hje : j = pos
    · subst hje
      rw [getD_set_eq _ _ _ _ (by omega), hke] at hkj
      cases hkj
      refine ⟨T, by omega, by rw [← hh], ?_⟩
      intro u hu
      have hne : probeIdx M (hmap_hash ke) u ≠ pos := by
        rw [← hh]
        intro hcc
        have := probeIdx_inj hmem e.hash (by omega) (by omega) hcc
        omega
      rw [getD_set_ne _ _ _ _ _ hne, ← hh]
      exact hpre u hu
    · rw [getD_set_ne _ _ _ _ _ hje] at hkj
      obtain ⟨t, ht, hpt, hpf⟩ := hreach j hj k hkj
      refine ⟨t, by omega, hpt, ?_⟩
      intro u hu
      by_cases hpu : probeIdx M (hmap_hash k) u = pos
      · rw [hpu, getD_set_eq _ _ _ _ (by omega)]
        unfold is_free_entry
        rw [hke]
        rfl
      · rw [getD_set_ne _ _ _ _ _ hpu]
        exact hpf u hu
  · have hc := countP_set_add (fun e => e.key.isSome) news pos e (by omega)
    rw [getD_of_lt _ _ _ empty_hmap_entry (by omega)] at hc
    have hold : (news.getD pos empty_hmap_entry).key.isSome = false := by
      rw [hfkey]
      rfl
    simp only [hold, hke] at hc
    norm_num at hc
    omega
  · intro k d
    rw [liveAtL_set_free news pos (by omega) hfkey e k d, hke]
    constructor
    · rintro (⟨hk, hd⟩ | hl)
      · cases hk
        exact Or.inl ⟨rfl, hd.symm⟩
      · exact Or.inr hl
    · rintro (⟨rfl, rfl⟩ | hl)
      · exact Or.inl ⟨rfl, rfl⟩
      · exact Or.inr hl

lemma rehash_walk_spec {α : Type} (M : hmap_t α) (hmem : M.consts ∈ map_consts)
    (hmax : M.consts.max_entries < M.consts.size) :
    ∀ (src : List (hmap_entry_t α)) (n : Nat) (news : List (hmap_entry_t α)),
      src.all slotShapeOK = true →
      src.countP (fun e => e.key.isSome) = n →
      (∀ i < src.length, ∀ j < src.length, ∀ k : Key,
        (src.getD i empty_hmap_entry).key = some k →
        (src.getD j empty_hmap_entry).key = some k → i = j) →
      newsOK M news →
      (∀ k : Key, ∀ d, liveAtL news k d → ∀ d2, ¬ liveAtL src k d2) →
      news.countP (fun e => e.key.isSome) + n ≤ M.consts.max_entries →
      ∃ news2, rehash_walk M.consts.size M.consts.rehash src n news = some news2 ∧
        newsOK M news2 ∧
        news2.countP (fun e => e.key.isSome) = news.countP (fun e => e.key.isSome) + n ∧
        (∀ k d, liveAtL news2 k d ↔ liveAtL news k d ∨ liveAtL src k d) := by
  intro src
  induction src with
  | nil =>
    intro n news hshape hcnt huniq hOK hdisj hcap
    simp only [List.countP_nil] at hcnt
    subst hcnt
    refine ⟨news, rfl, hOK, by omega, ?_⟩
    intro k d
    have := liveAtL_nil (α := α) k d
    tauto
  | cons e rest ih =>
    intro n news hshape hcnt huniq hOK hdisj hcap
    have hshape_e : slotShapeOK e = true := List.all_eq_true.mp hshape e (by simp)
    have hshape_rest : rest.all slotShapeOK = true := by
      rw [List.all_eq_true]
      intro x hx
      exact List.all_eq_true.mp hshape x (by simp [hx])
    have huniq_rest : ∀ i < rest.length, ∀ j < rest.length, ∀ k : Key,
        (rest.getD i empty_hmap_entry).key = some k →
        (rest.getD j empty_hmap_entry).key = some k → i = j := by
      intro i hi j hj k hki hkj
      have := huniq (i + 1) (by simp; omega) (j + 1) (by simp; omega) k
        (by rwa [List.getD_cons_succ]) (by rwa [List.getD_cons_succ])
      omega
    cases n with
    | zero =>
      refine ⟨news, rfl, hOK, by omega, ?_⟩
      intro k d
      have hnol := not_liveAtL_of_countP_zero (e :: rest) hcnt k
      constructor
      · intro h
        exact Or.inl h
      · rintro (h | h)
        · exact h
        · exact absurd h (hnol d)
    | succ n2 =>
      rw [List.countP_cons] at hcnt
      by_cases hke : e.key.isSome = true
      · obtain ⟨ke, hkeq⟩ := Option.isSome_iff_exists.mp hke
        have hhash : e.hash = hmap_hash ke := by
          rcases slot_cases hshape_e with ⟨h1, -⟩ | ⟨h1, -⟩ | ⟨k2, h1, h2⟩
          · rw [h1] at hkeq; cases hkeq
          · rw [h1] at hkeq; cases hkeq
          · rw [h1] at hkeq
            cases hkeq
            exact h2
        have habs : ∀ d, ¬ liveAtL news ke d := by
          intro d hl
          exact hdisj ke d hl e.data ((liveAtL_cons e rest ke e.data).mpr
            (Or.inl ⟨hkeq, rfl⟩))
        obtain ⟨news2, hrun, hOK2, hcnt2, hiff2⟩ :=
          newsOK_insert hmem hOK e ke hkeq hhash habs (by omega)
        have hcnt_rest : rest.countP (fun e => e.key.isSome) = n2 := by
          rw [hke] at hcnt
          simp at hcnt
          omega
        have hdisj2 : ∀ k : Key, ∀ d, liveAtL news2 k d → ∀ d2, ¬ liveAtL rest k d2 := by
          intro k d hl d2 hl2
          rcases (hiff2 k d).mp hl with ⟨hkk, -⟩ | hln
          · obtain ⟨j, hj, hkj, -⟩ := hl2
            rw [hkk] at hkj
            have := huniq 0 (by simp) (j + 1) (by simp; omega) ke
              (by rw [List.getD_cons_zero]; exact hkeq)
              (by rwa [List.getD_cons_succ])
            omega
          · exact hdisj k d hln d2 ((liveAtL_cons e rest k d2).mpr (Or.inr hl2))
        obtain ⟨news3, hrun3, hOK3, hcnt3, hiff3⟩ :=
          ih n2 news2 hshape_rest hcnt_rest huniq_rest hOK2 hdisj2 (by omega)
        refine ⟨news3, ?_, hOK3, by omega, ?_⟩
        · conv_lhs => rw [rehash_walk.eq_def]
          dsimp only
          rw [if_pos hke, hrun]
          exact hrun3
        · intro k d
          rw [hiff3 k d, hiff2 k d, liveAtL_cons]
          constructor
          · rintro ((⟨rfl, rfl⟩ | hn) | hr)
            · exact Or.inr (Or.inl ⟨hkeq, rfl⟩)
            · exact Or.inl hn
            · exact Or.inr (Or.inr hr)
          · rintro (hn | (⟨hek, hed⟩ | hr))
            · exact Or.inl (Or.inr hn)
            · rw [hkeq] at hek
              cases hek
              exact Or.inl (Or.inl ⟨rfl, hed.symm⟩)
            · exact Or.inr hr
      · have hkeyn : e.key = none := by
          rcases hek : e.key with _ | k2
          · rfl
          · rw [hek] at hke; simp at hke
        have hkef : e.key.isSome = false := by rw [hkeyn]; rfl
        have hcnt_rest : rest.countP (fun e => e.key.isSome) = n2 + 1 := by
          rw [hkef] at hcnt
          simp at hcnt
          omega
        have hdisj2 : ∀ k : Key, ∀ d, liveAtL news k d → ∀ d2, ¬ liveAtL rest k d2 := by
          intro k d hl d2 hl2
          exact hdisj k d hl d2 ((liveAtL_cons e rest k d2).mpr (Or.inr hl2))
        obtain ⟨news3, hrun3, hOK3, hcnt3, hiff3⟩ :=
          ih (n2 + 1) news hshape_rest hcnt_rest huniq_rest hOK hdisj2 (by omega)
        refine ⟨news3, ?_, hOK3, by omega, ?_⟩
        · conv_lhs => rw [rehash_walk.eq_def]
          dsimp only
          rw [if_neg (by rw [hkef]; simp)]
          exact hrun3
        · intro k d
          rw [hiff3 k d, liveAtL_cons]
          constructor
          · rintro (hn | hr)
            · exact Or.inl hn
            · exact Or.inr (Or.inr hr)
          · rintro (hn | (⟨hek, -⟩ | hr))
            · exact Or.inl hn
            · rw [hkeyn] at hek
              cases hek
            · exact Or.inr hr

lemma tier_mono : ∀ i, i + 1 < map_consts.length →
    (map_consts.getD i ⟨0, 0, 0, 0⟩).max_entries <
      (map_consts.getD (i + 1) ⟨0, 0, 0, 0⟩).max_entries := by
  intro i h
  have h21 : i < 21 := by
    have h22 : i + 1 < 22 := by simpa [map_consts] using h
    omega
  interval_cases i <;> decide

lemma rehash_effect {α : Type} {m : hmap_t α} {g : Bool} {m2 : hmap_t α} (hInv : hmapInv m)
    (hr : rehash m g = some (true, m2)) :
    hmapInv m2 ∧ (∀ k, contentOf m2 k = contentOf m k) ∧
      m2.n_entries = m.n_entries ∧ m2.n_removed = 0 ∧
      m2.const_idx = (if g then m.const_idx + 1 else m.const_idx) := by
  obtain ⟨hci, hcs, hlen, hce, hcr, hld, hshape, huq, hra⟩ := hInv
  have hInv0 : hmapInv m := ⟨hci, hcs, hlen, hce, hcr, hld, hshape, huq, hra⟩
  unfold rehash at hr
  dsimp only at hr
  by_cases hlt : (if g then m.const_idx + 1 else m.const_idx) < map_consts.length
  swap
  · rw [if_neg hlt] at hr
    simp at hr
  rw [if_pos hlt] at hr
  set ci2 := if g then m.const_idx + 1 else m.const_idx with hci2
  set nc := map_consts.getD ci2 ⟨0, 0, 0, 0⟩ with hnc
  set MW : hmap_t α := ⟨nc, ci2, 0, 0, []⟩ with hMW
  have hmemnc : MW.consts ∈ map_consts := by
    rw [hMW]
    rw [hnc, List.getD_eq_getElem?_getD, List.getElem?_eq_getElem hlt]
    exact List.getElem_mem hlt
  obtain ⟨hmax_nc, hsz_nc, hre_nc, hpr_nc⟩ := tier_facts _ hmemnc
  have hnews0 : newsOK MW (List.replicate nc.size empty_hmap_entry) := by
    refine ⟨by simp [hMW], ?_, ?_, ?_⟩
    · intro e he
      rw [List.eq_of_mem_replicate he]
      exact Or.inl (by simp [is_free_entry, empty_hmap_entry])
    · intro i hi j hj k hki hkj
      exfalso
      rw [List.length_replicate] at hi
      rw [List.getD_eq_getElem?_getD, List.getElem?_replicate, if_pos hi] at hki
      simp [empty_hmap_entry] at hki
    · intro j hj k hkj
      exfalso
      have hj2 : j < nc.size := by
        have : MW.consts = nc := rfl
        rw [this] at hj
        exact hj
      rw [List.getD_eq_getElem?_getD, List.getElem?_replicate, if_pos hj2] at hkj
      simp [empty_hmap_entry] at hkj
  have hcap : m.n_entries ≤ nc.max_entries := by
    rcases g with _ | _
    · have : nc = m.consts := by
        rw [hnc]
        simp only [hci2, if_neg (by simp : ¬ (false = true))] at *
        rw [hcs]
      rw [this]
      omega
    · have hstep := tier_mono m.const_idx (by simpa [hci2] using hlt)
      have : m.consts.max_entries < nc.max_entries := by
        rw [hcs, hnc]
        simpa [hci2] using hstep
      omega
  have hwalk := rehash_walk_spec MW hmemnc (by
      show MW.consts.max_entries < MW.consts.size
      exact hmax_nc)
    m.entries m.n_entries (List.replicate nc.size empty_hmap_entry)
    hshape hce
    (fun i hi j hj k hki hkj => uniqKeysOK_iff.mp huq i hi j hj k hki hkj)
    hnews0
    (fun k d hl => by
      exfalso
      obtain ⟨j, hj, hkj, -⟩ := hl
      rw [List.length_replicate] at hj
      rw [List.getD_eq_getElem?_getD, List.getElem?_replicate, if_pos hj] at hkj
      simp [empty_hmap_entry] at hkj)
    (by
      rw [countP_replicate]
      simp only [empty_hmap_entry]
      show (if ((⟨none, 0, none⟩ : hmap_entry_t α).key.isSome = true) then nc.size else 0) +
          m.n_entries ≤ MW.consts.max_entries
      simp only [Option.isSome_none, if_neg (by simp : ¬ (false = true))]
      omega)
  obtain ⟨news2, hwrun, hOK2, hcnt2, hiff2⟩ := hwalk
  have hwrun2 : rehash_walk nc.size nc.rehash m.entries m.n_entries
      (List.replicate nc.size empty_hmap_entry) = some news2 := hwrun
  rw [hwrun2] at hr
  dsimp only at hr
  simp only [Option.some.injEq, Prod.mk.injEq] at hr
  obtain ⟨-, hm2⟩ := hr
  have hcsnc : (if g then nc else m.consts) = nc := by
    rcases g with _ | _
    · simp only [if_neg (by simp : ¬ (false = true))]
      rw [hcs, hnc]
      simp [hci2]
    · simp
  rw [hcsnc] at hm2
  subst hm2
  have hlen2 : news2.length = nc.size := hOK2.1
  have hcnt2' : news2.countP (fun e => e.key.isSome) = m.n_entries := by
    rw [hcnt2, countP_replicate]
    simp [empty_hmap_entry]
  have hcr2 : news2.countP (fun e => e.key.isNone && e.hash == DELETED_HASH) = 0 := by
    rw [List.countP_eq_zero]
    intro e he
    rcases hOK2.2.1 e he with hf | ⟨k, hk, -⟩
    · unfold is_free_entry at hf
      simp only [Bool.and_eq_true, Option.isNone_iff_eq_none, beq_iff_eq] at hf
      simp [hf.1, hf.2, DELETED_HASH]
    · simp [hk]
  have hInv2 : hmapInv (⟨nc, ci2, m.n_entries, 0, news2⟩ : hmap_t α) := by
    refine ⟨hlt, by rw [hnc], hlen2, hcnt2', hcr2, by dsimp only; omega, ?_, ?_, ?_⟩
    · rw [List.all_eq_true]
      intro e he
      rcases hOK2.2.1 e he with hf | ⟨k, hk, hh⟩
      · unfold slotShapeOK
        rw [hf]
        simp
      · unfold slotShapeOK
        rw [hk, hh]
        simp
    · rw [uniqKeysOK_iff]
      intro i hi j hj k hki hkj
      exact hOK2.2.2.1 i hi j hj k hki hkj
    · rw [reachAllOK_iff]
      intro j hj k hkj
      have := hOK2.2.2.2 j hj k hkj
      obtain ⟨t, ht, hpt, hpf⟩ := this
      exact ⟨t, ht, hpt, hpf⟩
  refine ⟨hInv2, ?_, rfl, rfl, rfl⟩
  intro k
  rcases hc : contentOf m k with _ | d
  · refine (contentOf_eq_none hInv2).mpr ?_
    intro j hj hkj
    have hlive : liveAtL news2 k (news2.getD j empty_hmap_entry).data :=
      ⟨j, by dsimp only at hj; omega, hkj, rfl⟩
    rcases (hiff2 k _).mp hlive with hl0 | hls
    · obtain ⟨j2, hj2, hkj2, -⟩ := hl0
      rw [List.length_replicate] at hj2
      rw [List.getD_eq_getElem?_getD, List.getElem?_replicate, if_pos hj2] at hkj2
      simp [empty_hmap_entry] at hkj2
    · obtain ⟨j2, hj2, hkj2, -⟩ := hls
      exact (contentOf_eq_none hInv0).mp hc j2 (by omega) hkj2
  · obtain ⟨j, hj, hkj, hdj⟩ := (contentOf_eq_some hInv0).mp hc
    have hlive : liveAtL m.entries k d := ⟨j, by omega, hkj, hdj⟩
    have hlive2 : liveAtL news2 k d := (hiff2 k d).mpr (Or.inr hlive)
    obtain ⟨j2, hj2, hkj2, hdj2⟩ := hlive2
    exact (contentOf_eq_some hInv2).mpr ⟨j2, by dsimp only; omega, hkj2, hdj2⟩

lemma check_rehash_effect {α : Type} {m m2 : hmap_t α} (hInv : hmapInv m)
    (h : check_rehash m = some (true, m2)) :
    hmapInv m2 ∧ (∀ k, contentOf m2 k = contentOf m k) ∧
      m2.n_entries + m2.n_removed < m2.consts.max_entries := by
  unfold check_rehash at h
  by_cases htrig : m.consts.max_entries ≤ m.n_entries + m.n_removed
  · rw [if_pos htrig] at h
    obtain ⟨hInv2, hcont, hne, hnr0, hcidx⟩ := rehash_effect hInv h
    refine ⟨hInv2, hcont, ?_⟩
    obtain ⟨hci, hcs, -, -, -, hld, -, -, -⟩ := hInv
    have hcs2 := hInv2.2.1
    by_cases hrem : m.n_removed ≤ m.consts.max_removed
    · have hg : decide (m.n_removed ≤ m.consts.max_removed) = true := decide_eq_true hrem
      rw [hg] at hcidx
      simp at hcidx
      have hmono := tier_mono m.const_idx (by rw [← hcidx]; exact hInv2.1)
      rw [← hcs, ← hcidx, ← hcs2] at hmono
      omega
    · have hg : decide (m.n_removed ≤ m.consts.max_removed) = false :=
        decide_eq_false hrem
      rw [hg] at hcidx
      simp at hcidx
      have hceq : m2.consts = m.consts := by
        rw [hcs2, hcidx, ← hcs]
      rw [hceq, hne, hnr0]
      omega
  · rw [if_neg htrig] at h
    simp only [Option.some.injEq, Prod.mk.injEq, true_and] at h
    subst h
    exact ⟨hInv, fun k => rfl, by omega⟩

lemma add_stop_free {α : Type} (m : hmap_t α) (k : Key) (d : Option α) (T : Nat)
    (hT : T < m.consts.size)
    (hfree : is_free_entry (getEntry m (probeIdx m (hmap_hash k) T)) = true)
    (hpre : ∀ u < T, is_free_entry (getEntry m (probeIdx m (hmap_hash k) u)) = false ∧
      is_matching_entry (getEntry m (probeIdx m (hmap_hash k) u)) (hmap_hash k) k = false) :
    add_loop m k d (hmap_hash k) (hmap_hash k % m.consts.size) m.consts.size =
      some { m with
        entries := m.entries.set (probeIdx m (hmap_hash k) T) (⟨some k, hmap_hash k, d⟩ : hmap_entry_t α),
        n_entries := m.n_entries + 1 } := by
  rw [← probeIdx_zero m (hmap_hash k)]
  nth_rewrite 1 [show m.consts.size = (m.consts.size - T) + T by omega]
  rw [add_loop_skip m k d (hmap_hash k) T 0 (m.consts.size - T)
      (fun u hu => by have := hpre u hu; rwa [Nat.zero_add]),
    Nat.zero_add,
    show m.consts.size - T = (m.consts.size - T - 1) + 1 by omega,
    add_loop_free m k d (hmap_hash k) _ _ hfree]

lemma add_stop_match {α : Type} (m : hmap_t α) (k : Key) (d : Option α) (T : Nat)
    (hT : T < m.consts.size)
    (hnf : is_free_entry (getEntry m (probeIdx m (hmap_hash k) T)) = false)
    (hm : is_matching_entry (getEntry m (probeIdx m (hmap_hash k) T)) (hmap_hash k) k = true)
    (hpre : ∀ u < T, is_free_entry (getEntry m (probeIdx m (hmap_hash k) u)) = false ∧
      is_matching_entry (getEntry m (probeIdx m (hmap_hash k) u)) (hmap_hash k) k = false) :
    add_loop m k d (hmap_hash k) (hmap_hash k % m.consts.size) m.consts.size =
      some { m with
        entries := m.entries.set (probeIdx m (hmap_hash k) T) (⟨some k, (getEntry m (probeIdx m (hmap_hash k) T)).hash, d⟩ : hmap_entry_t α) } := by
  rw [← probeIdx_zero m (hmap_hash k)]
  nth_rewrite 1 [show m.consts.size = (m.consts.size - T) + T by omega]
  rw [add_loop_skip m k d (hmap_hash k) T 0 (m.consts.size - T)
      (fun u hu => by have := hpre u hu; rwa [Nat.zero_add]),
    Nat.zero_add,
    show m.consts.size - T = (m.consts.size - T - 1) + 1 by omega,
    add_loop_match m k d (hmap_hash k) _ _ hnf hm]

lemma remove_loop_match {α : Type} (m : hmap_t α) (key : Key) (h idx fuel : Nat)
    (hnf : is_free_entry (getEntry m idx) = false)
    (hm : is_matching_entry (getEntry m idx) h key = true) :
    remove_loop m key h idx (fuel + 1) =
      some (true,
        { m with entries := m.entries.set idx ⟨none, DELETED_HASH, none⟩,
                 n_entries := m.n_entries - 1,
                 n_removed := m.n_removed + 1 }) := by
  rw [remove_loop]
  rw [if_neg (by rw [hnf]; simp), if_pos hm]

lemma remove_stop_free {α : Type} (m : hmap_t α) (k : Key) (T : Nat)
    (hT : T < m.consts.size)
    (hfree : is_free_entry (getEntry m (probeIdx m (hmap_hash k) T)) = true)
    (hpre : ∀ u < T, is_free_entry (getEntry m (probeIdx m (hmap_hash k) u)) = false ∧
      is_matching_entry (getEntry m (probeIdx m (hmap_hash k) u)) (hmap_hash k) k = false) :
    remove_loop m k (hmap_hash k) (hmap_hash k % m.consts.size) m.consts.size =
      some (false, m) := by
  rw [← probeIdx_zero m (hmap_hash k)]
  nth_rewrite 1 [show m.consts.size = (m.consts.size - T) + T by omega]
  rw [remove_loop_skip m k (hmap_hash k) T 0 (m.consts.size - T)
      (fun u hu => by have := hpre u hu; rwa [Nat.zero_add]),
    Nat.zero_add,
    show m.consts.size - T = (m.consts.size - T - 1) + 1 by omega,
    remove_loop_free m k (hmap_hash k) _ _ hfree]

lemma remove_stop_match {α : Type} (m : hmap_t α) (k : Key) (T : Nat)
    (hT : T < m.consts.size)
    (hnf : is_free_entry (getEntry m (probeIdx m (hmap_hash k) T)) = false)
    (hm : is_matching_entry (getEntry m (probeIdx m (hmap_hash k) T)) (hmap_hash k) k = true)
    (hpre : ∀ u < T, is_free_entry (getEntry m (probeIdx m (hmap_hash k) u)) = false ∧
      is_matching_entry (getEntry m (probeIdx m (hmap_hash k) u)) (hmap_hash k) k = false) :
    remove_loop m k (hmap_hash k) (hmap_hash k % m.consts.size) m.consts.size =
      some (true,
        { m with entries := m.entries.set (probeIdx m (hmap_hash k) T) ⟨none, DELETED_HASH, none⟩,
                 n_entries := m.n_entries - 1,
                 n_removed := m.n_removed + 1 }) := by
  rw [← probeIdx_zero m (hmap_hash k)]
  nth_rewrite 1 [show m.consts.size = (m.consts.size - T) + T by omega]
  rw [remove_loop_skip m k (hmap_hash k) T 0 (m.consts.size - T)
      (fun u hu => by have := hpre u hu; rwa [Nat.zero_add]),
    Nat.zero_add,
    show m.consts.size - T = (m.consts.size - T - 1) + 1 by omega,
    remove_loop_match m k (hmap_hash k) _ _ hnf hm]

lemma first_stop_found {α : Type} {m : hmap_t α} (hInv : hmapInv m) {k : Key} {d0 : Option α}
    (hc : contentOf m k = some d0) :
    ∃ T < m.consts.size,
      is_free_entry (getEntry m (probeIdx m (hmap_hash k) T)) = false ∧
      is_matching_entry (getEntry m (probeIdx m (hmap_hash k) T)) (hmap_hash k) k = true ∧
      (getEntry m (probeIdx m (hmap_hash k) T)).key = some k ∧
      (getEntry m (probeIdx m (hmap_hash k) T)).data = d0 ∧
      ∀ u < T, is_free_entry (getEntry m (probeIdx m (hmap_hash k) u)) = false ∧
        is_matching_entry (getEntry m (probeIdx m (hmap_hash k) u)) (hmap_hash k) k = false := by
  classical
  obtain ⟨j, hj, hkj, hdj⟩ := (contentOf_eq_some hInv).mp hc
  obtain ⟨tj, htj, hpj, hprenf⟩ := reach_spec hInv hj hkj
  have hmatchj : is_matching_entry (getEntry m (probeIdx m (hmap_hash k) tj))
      (hmap_hash k) k = true := by
    rw [hpj]
    unfold is_matching_entry
    rw [live_hash hInv hj hkj, hkj]
    simp
  have hPex : ∃ t, is_matching_entry (getEntry m (probeIdx m (hmap_hash k) t))
      (hmap_hash k) k = true := ⟨tj, hmatchj⟩
  have hPT := Nat.find_spec hPex
  have hTle : Nat.find hPex ≤ tj := Nat.find_le hmatchj
  set T := Nat.find hPex with hTdef
  have hkeyT : (getEntry m (probeIdx m (hmap_hash k) T)).key = some k := by
    unfold is_matching_entry at hPT
    simp only [Bool.and_eq_true, beq_iff_eq, decide_eq_true_eq] at hPT
    exact hPT.2
  have hidxT : probeIdx m (hmap_hash k) T = j :=
    uniq_slots hInv (probeIdx_lt m (hmap_hash k) T (by omega)) hj hkeyT hkj
  refine ⟨T, by omega, ?_, hPT, hkeyT, by rw [hidxT]; exact hdj, ?_⟩
  · unfold is_free_entry
    rw [hkeyT]
    simp
  · intro u hu
    refine ⟨hprenf u (by omega), ?_⟩
    have := Nat.find_min hPex hu
    simpa using this

lemma first_stop_absent {α : Type} {m : hmap_t α} (hInv : hmapInv m) {k : Key}
    (hc : contentOf m k = none) :
    ∃ T < m.consts.size,
      is_free_entry (getEntry m (probeIdx m (hmap_hash k) T)) = true ∧
      ∀ u < T, is_free_entry (getEntry m (probeIdx m (hmap_hash k) u)) = false ∧
        is_matching_entry (getEntry m (probeIdx m (hmap_hash k) u)) (hmap_hash k) k = false := by
  classical
  have hszpos : 0 < m.consts.size := by
    obtain ⟨-, h2, -⟩ := tier_facts m.consts (inv_consts_mem hInv)
    omega
  have hnom : ∀ u, is_matching_entry (getEntry m (probeIdx m (hmap_hash k) u))
      (hmap_hash k) k = false := by
    intro u
    rcases hmm : is_matching_entry (getEntry m (probeIdx m (hmap_hash k) u))
        (hmap_hash k) k with _ | _
    · rfl
    · exfalso
      have hkey : (getEntry m (probeIdx m (hmap_hash k) u)).key = some k := by
        unfold is_matching_entry at hmm
        simp only [Bool.and_eq_true, beq_iff_eq, decide_eq_true_eq] at hmm
        exact hmm.2
      exact (contentOf_eq_none hInv).mp hc _ (probeIdx_lt m (hmap_hash k) u hszpos) hkey
  obtain ⟨jf, hjf, hfree⟩ := exists_free_slot hInv
  obtain ⟨tf, htf, hptf⟩ := probeIdx_surj (inv_consts_mem hInv) (hmap_hash k) jf hjf
  have hPex : ∃ t, is_free_entry (getEntry m (probeIdx m (hmap_hash k) t)) = true :=
    ⟨tf, by rw [hptf]; exact hfree⟩
  have hPT := Nat.find_spec hPex
  have hTle : Nat.find hPex ≤ tf := Nat.find_le (by rw [hptf]; exact hfree)
  set T := Nat.find hPex with hTdef
  refine ⟨T, by omega, hPT, ?_⟩
  intro u hu
  refine ⟨?_, hnom u⟩
  have := Nat.find_min hPex hu
  simpa using this

lemma add_effect {α : Type} {m m2 : hmap_t α} (hInv : hmapInv m) (k : Key) (d : Option α)
    (h : hmap_add_entry m k d = some (true, m2)) :
    hmapInv m2 ∧ contentOf m2 k = some d ∧
      ∀ k2, k2 ≠ k → contentOf m2 k2 = contentOf m k2 := by
  unfold hmap_add_entry at h
  rcases hcr : check_rehash m with _ | ⟨b, m1⟩
  · rw [hcr] at h; cases h
  · rw [hcr] at h
    rcases b with _ | _
    · simp at h
    · dsimp only at h
      obtain ⟨hInv1, hcont1, hhead⟩ := check_rehash_effect hInv hcr
      rcases hc1 : contentOf m1 k with _ | d0
      · obtain ⟨T, hT, hfree, hpre⟩ := first_stop_absent hInv1 hc1
        rw [add_stop_free m1 k d T hT hfree hpre] at h
        dsimp only at h
        simp only [Option.some.injEq, Prod.mk.injEq, true_and] at h
        obtain ⟨hmi, hck, hco⟩ := insert_effect hInv1 k d T hT hfree
          (fun u hu => (hpre u hu).1) hc1 (by omega) h.symm
        exact ⟨hmi, hck, fun k2 hk2 => by rw [hco k2 hk2, hcont1 k2]⟩
      · obtain ⟨T, hT, hnf, hmt, hkey, hdata, hpre⟩ := first_stop_found hInv1 hc1
        rw [add_stop_match m1 k d T hT hnf hmt hpre] at h
        dsimp only at h
        simp only [Option.some.injEq, Prod.mk.injEq, true_and] at h
        obtain ⟨hmi, hck, hco⟩ := replace_effect hInv1 k d
          (probeIdx_lt m1 (hmap_hash k) T (by omega)) hkey h.symm
        exact ⟨hmi, hck, fun k2 hk2 => by rw [hco k2 hk2, hcont1 k2]⟩

lemma remove_effect {α : Type} {m : hmap_t α} {b : Bool} {m2 : hmap_t α} (hInv : hmapInv m)
    (k : Key) (h : hmap_remove_entry m k = some (b, m2)) :
    hmapInv m2 ∧ contentOf m2 k = none ∧
      ∀ k2, k2 ≠ k → contentOf m2 k2 = contentOf m k2 := by
  unfold hmap_remove_entry at h
  dsimp only at h
  rcases hc : contentOf m k with _ | d0
  · obtain ⟨T, hT, hfree, hpre⟩ := first_stop_absent hInv hc
    rw [remove_stop_free m k T hT hfree hpre] at h
    simp only [Option.some.injEq, Prod.mk.injEq] at h
    obtain ⟨-, hm2⟩ := h
    subst hm2
    exact ⟨hInv, hc, fun k2 _ => rfl⟩
  · obtain ⟨T, hT, hnf, hmt, hkey, hdata, hpre⟩ := first_stop_found hInv hc
    rw [remove_stop_match m k T hT hnf hmt hpre] at h
    simp only [Option.some.injEq, Prod.mk.injEq] at h
    obtain ⟨-, hm2⟩ := h
    exact tombstone_effect hInv k (probeIdx_lt m (hmap_hash k) T (by omega)) hkey hm2.symm

lemma runOp_effect {α : Type} {m m2 : hmap_t α} (hInv : hmapInv m) (op : HmapOp α)
    (h : runOp m op = some m2) :
    hmapInv m2 ∧ ∀ k, contentOf m2 k =
      (match op with
       | .add k2 d => if k2 = k then some d else contentOf m k
       | .remove k2 => if k2 = k then none else contentOf m k) := by
  rcases op with ⟨k2, d⟩ | ⟨k2⟩
  · unfold runOp at h
    dsimp only at h
    rcases ha : hmap_add_entry m k2 d with _ | ⟨b, m3⟩
    · rw [ha] at h; cases h
    · rw [ha] at h
      rcases b with _ | _
      · simp at h
      · dsimp only at h
        simp only [Option.some.injEq] at h
        subst h
        obtain ⟨hInv2, hck, hco⟩ := add_effect hInv k2 d ha
        refine ⟨hInv2, ?_⟩
        intro k
        by_cases hk : k2 = k
        · subst hk
          simpa using hck
        · simp only [if_neg hk]
          exact hco k (fun hcc => hk hcc.symm)
  · unfold runOp at h
    dsimp only at h
    rcases ha : hmap_remove_entry m k2 with _ | ⟨b, m3⟩
    · rw [ha] at h; cases h
    · rw [ha] at h
      dsimp only at h
      simp only [Option.some.injEq] at h
      subst h
      obtain ⟨hInv2, hck, hco⟩ := remove_effect hInv k2 ha
      refine ⟨hInv2, ?_⟩
      intro k
      by_cases hk : k2 = k
      · subst hk
        simpa using hck
      · simp only [if_neg hk]
        exact hco k (fun hcc => hk hcc.symm)

lemma runOps_effect {α : Type} :
    ∀ (ops : List (HmapOp α)) (m m2 : hmap_t α), hmapInv m → runOps m ops = some m2 →
      hmapInv m2 ∧ ∀ k, contentOf m2 k =
        ops.foldl (fun acc op =>
          match op with
          | .add k2 d => if k2 = k then some d else acc
          | .remove k2 => if k2 = k then none else acc) (contentOf m k) := by
  intro ops
  induction ops with
  | nil =>
    intro m m2 hInv h
    cases h
    exact ⟨hInv, fun k => rfl⟩
  | cons op ops ih =>
    intro m m2 hInv h
    unfold runOps at h
    rcases h1 : runOp m op with _ | m1
    · rw [h1] at h; cases h
    · rw [h1] at h
      dsimp only at h
      obtain ⟨hInv1, hcont1⟩ := runOp_effect hInv op h1
      obtain ⟨hInv2, hcont2⟩ := ih m1 m2 hInv1 h
      refine ⟨hInv2, ?_⟩
      intro k
      rw [hcont2 k, List.foldl_cons]
      rcases op with ⟨k2, d⟩ | ⟨k2⟩ <;>
        rw [hcont1 k]

/-- C1: hash-map point semantics.  For every map created by `hmap_create` and
every successful sequence of `hmap_add_entry` / `hmap_remove_entry` operations
(`runOps` succeeding encodes the load staying within each tier, growing as
needed), a subsequent `hmap_get_entry` for key `k` returns an entry carrying
exactly the data of the last add of `k` when no remove of `k` follows it, and
returns NULL (the `none` entry, with the map unchanged) otherwise. -/
theorem C1_point_semantics {α : Type} (init_size : Nat) (ops : List (HmapOp α))
    (m0 m : hmap_t α) (k : Key)
    (h0 : hmap_create α init_size = some m0)
    (hrun : runOps m0 ops = some m) :
    match specLastAdded ops k with
    | some d => ∃ e m2 steps, hmap_get_entry m k = some (some e, m2, steps) ∧
        e.key = some k ∧ e.data = d
    | none => ∃ steps, hmap_get_entry m k = some (none, m, steps) := by
  obtain ⟨hInv0, hcont0⟩ := create_inv init_size m0 h0
  obtain ⟨hInv, hcont⟩ := runOps_effect ops m0 m hInv0 hrun
  have hspec : contentOf m k = specLastAdded ops k := by
    rw [hcont k, hcont0 k]
    rfl
  rcases hsp : specLastAdded ops k with _ | d
  · rw [hsp] at hspec
    dsimp only
    obtain ⟨steps, hget⟩ := get_absent hInv hspec
    exact ⟨steps, hget⟩
  · rw [hsp] at hspec
    dsimp only
    obtain ⟨e, m2, steps, hget, hk, hd⟩ := get_found hInv hspec
    exact ⟨e, m2, steps, hget, hk, hd⟩

/-- C1 witness: `C1_point_semantics` applied to the concrete sequence
add [1] 42; add [2] 7; remove [2]; add [1] 5 on a freshly created tier-0 map:
the lookup of [1] finds data 5. -/
theorem C1_witness :
    hmap_create Nat 8 =
      some ⟨⟨8, 2, 13, 11⟩, 0, 0, 0, List.replicate 13 empty_hmap_entry⟩ ∧
    runOps (⟨⟨8, 2, 13, 11⟩, 0, 0, 0, List.replicate 13 empty_hmap_entry⟩ : hmap_t Nat)
      [HmapOp.add [1] (some 42), HmapOp.add [2] (some 7),
       HmapOp.remove [2], HmapOp.add [1] (some 5)] =
      some ⟨⟨8, 2, 13, 11⟩, 0, 1, 1,
        [⟨none, 0, none⟩, ⟨none, 4294967295, none⟩, ⟨none, 0, none⟩, ⟨none, 0, none⟩,
         ⟨none, 0, none⟩, ⟨none, 0, none⟩, ⟨none, 0, none⟩, ⟨none, 0, none⟩,
         ⟨none, 0, none⟩, ⟨none, 0, none⟩, ⟨none, 0, none⟩,
         ⟨some [1], 67918732, some 5⟩, ⟨none, 0, none⟩]⟩ ∧
    (∃ e m2 steps,
      hmap_get_entry (⟨⟨8, 2, 13, 11⟩, 0, 1, 1,
        [⟨none, 0, none⟩, ⟨none, 4294967295, none⟩, ⟨none, 0, none⟩, ⟨none, 0, none⟩,
         ⟨none, 0, none⟩, ⟨none, 0, none⟩, ⟨none, 0, none⟩, ⟨none, 0, none⟩,
         ⟨none, 0, none⟩, ⟨none, 0, none⟩, ⟨none, 0, none⟩,
         ⟨some [1], 67918732, some 5⟩, ⟨none, 0, none⟩]⟩ : hmap_t Nat) [1] =
          some (some e, m2, steps) ∧
      e.key = some [1] ∧ e.data = some 5) :=
  ⟨by decide, by decide,
    C1_point_semantics 8
      [HmapOp.add [1] (some 42), HmapOp.add [2] (some 7),
       HmapOp.remove [2], HmapOp.add [1] (some 5)]
      ⟨⟨8, 2, 13, 11⟩, 0, 0, 0, List.replicate 13 empty_hmap_entry⟩
      ⟨⟨8, 2, 13, 11⟩, 0, 1, 1,
        [⟨none, 0, none⟩, ⟨none, 4294967295, none⟩, ⟨none, 0, none⟩, ⟨none, 0, none⟩,
         ⟨none, 0, none⟩, ⟨none, 0, none⟩, ⟨none, 0, none⟩, ⟨none, 0, none⟩,
         ⟨none, 0, none⟩, ⟨none, 0, none⟩, ⟨none, 0, none⟩,
         ⟨some [1], 67918732, some 5⟩, ⟨none, 0, none⟩]⟩
      [1] (by decide) (by decide)⟩

/-- C8: when the rehash trigger condition holds and `check_rehash` completes
a rehash, the tombstone count is reset to zero, the live count is unchanged,
every key is bound to the same value as before, and every previously bound
key is still retrievable through `hmap_get_entry` with its value. -/
theorem C8_rehash_preservation {α : Type} {m m2 : hmap_t α} (hInv : hmapInv m)
    (htrig : m.consts.max_entries ≤ m.n_entries + m.n_removed)
    (hok : check_rehash m = some (true, m2)) :
    m2.n_removed = 0 ∧ m2.n_entries = m.n_entries ∧
    (∀ k, contentOf m2 k = contentOf m k) ∧
    (∀ k d, contentOf m k = some d →
      ∃ e m3 steps, hmap_get_entry m2 k = some (some e, m3, steps) ∧
        e.key = some k ∧ e.data = d) := by
  unfold check_rehash at hok
  rw [if_pos htrig] at hok
  obtain ⟨hInv2, hcont, hne, hnr0, -⟩ := rehash_effect hInv hok
  refine ⟨hnr0, hne, hcont, ?_⟩
  intro k d hc
  have hc2 : contentOf m2 k = some d := by rw [hcont k]; exact hc
  exact get_found hInv2 hc2

/-- C8 witness: a full tier-0 map (8 live entries, trigger met) grows to
tier 1; counts and contents behave as claimed. -/
theorem C8_witness :
    hmapInv (⟨⟨8, 2, 13, 11⟩, 0, 8, 0,
        [⟨some [3], 101473970, some 12⟩, ⟨some [2], 118251589, some 11⟩, ⟨none, 0, none⟩,
         ⟨none, 0, none⟩, ⟨none, 0, none⟩, ⟨none, 0, none⟩, ⟨none, 0, none⟩,
         ⟨some [5], 808256, some 14⟩, ⟨some [4], 17585875, some 13⟩,
         ⟨some [7], 34363494, some 16⟩, ⟨some [6], 51141113, some 15⟩,
         ⟨some [1], 67918732, some 10⟩, ⟨some [8], 218917303, some 17⟩]⟩ : hmap_t Nat) ∧
    ((⟨⟨8, 2, 13, 11⟩, 0, 8, 0,
        [⟨some [3], 101473970, some 12⟩, ⟨some [2], 118251589, some 11⟩, ⟨none, 0, none⟩,
         ⟨none, 0, none⟩, ⟨none, 0, none⟩, ⟨none, 0, none⟩, ⟨none, 0, none⟩,
         ⟨some [5], 808256, some 14⟩, ⟨some [4], 17585875, some 13⟩,
         ⟨some [7], 34363494, some 16⟩, ⟨some [6], 51141113, some 15⟩,
         ⟨some [1], 67918732, some 10⟩, ⟨some [8], 218917303, some 17⟩]⟩ : hmap_t Nat).consts.max_entries ≤
      (⟨⟨8, 2, 13, 11⟩, 0, 8, 0,
        [⟨some [3], 101473970, some 12⟩, ⟨some [2], 118251589, some 11⟩, ⟨none, 0, none⟩,
         ⟨none, 0, none⟩, ⟨none, 0, none⟩, ⟨none, 0, none⟩, ⟨none, 0, none⟩,
         ⟨some [5], 808256, some 14⟩, ⟨some [4], 17585875, some 13⟩,
         ⟨some [7], 34363494, some 16⟩, ⟨some [6], 51141113, some 15⟩,
         ⟨some [1], 67918732, some 10⟩, ⟨some [8], 218917303, some 17⟩]⟩ : hmap_t Nat).n_entries + (⟨⟨8, 2, 13, 11⟩, 0, 8, 0,
        [⟨some [3], 101473970, some 12⟩, ⟨some [2], 118251589, some 11⟩, ⟨none, 0, none⟩,
         ⟨none, 0, none⟩, ⟨none, 0, none⟩, ⟨none, 0, none⟩, ⟨none, 0, none⟩,
         ⟨some [5], 808256, some 14⟩, ⟨some [4], 17585875, some 13⟩,
         ⟨some [7], 34363494, some 16⟩, ⟨some [6], 51141113, some 15⟩,
         ⟨some [1], 67918732, some 10⟩, ⟨some [8], 218917303, some 17⟩]⟩ : hmap_t Nat).n_removed) ∧
    ((⟨⟨16, 3, 19, 17⟩, 1, 8, 0,
        [⟨none, 0, none⟩, ⟨none, 0, none⟩, ⟨some [1], 67918732, some 10⟩, ⟨none, 0, none⟩,
         ⟨none, 0, none⟩, ⟨some [3], 101473970, some 12⟩, ⟨some [8], 218917303, some 17⟩,
         ⟨some [4], 17585875, some 13⟩, ⟨none, 0, none⟩, ⟨none, 0, none⟩,
         ⟨some [6], 51141113, some 15⟩, ⟨none, 0, none⟩, ⟨none, 0, none⟩, ⟨none, 0, none⟩,
         ⟨none, 0, none⟩, ⟨some [5], 808256, some 14⟩, ⟨some [2], 118251589, some 11⟩,
         ⟨none, 0, none⟩, ⟨some [7], 34363494, some 16⟩]⟩ : hmap_t Nat).n_removed = 0 ∧
     (⟨⟨16, 3, 19, 17⟩, 1, 8, 0,
        [⟨none, 0, none⟩, ⟨none, 0, none⟩, ⟨some [1], 67918732, some 10⟩, ⟨none, 0, none⟩,
         ⟨none, 0, none⟩, ⟨some [3], 101473970, some 12⟩, ⟨some [8], 218917303, some 17⟩,
         ⟨some [4], 17585875, some 13⟩, ⟨none, 0, none⟩, ⟨none, 0, none⟩,
         ⟨some [6], 51141113, some 15⟩, ⟨none, 0, none⟩, ⟨none, 0, none⟩, ⟨none, 0, none⟩,
         ⟨none, 0, none⟩, ⟨some [5], 808256, some 14⟩, ⟨some [2], 118251589, some 11⟩,
         ⟨none, 0, none⟩, ⟨some [7], 34363494, some 16⟩]⟩ : hmap_t Nat).n_entries = (⟨⟨8, 2, 13, 11⟩, 0, 8, 0,
        [⟨some [3], 101473970, some 12⟩, ⟨some [2], 118251589, some 11⟩, ⟨none, 0, none⟩,
         ⟨none, 0, none⟩, ⟨none, 0, none⟩, ⟨none, 0, none⟩, ⟨none, 0, none⟩,
         ⟨some [5], 808256, some 14⟩, ⟨some [4], 17585875, some 13⟩,
         ⟨some [7], 34363494, some 16⟩, ⟨some [6], 51141113, some 15⟩,
         ⟨some [1], 67918732, some 10⟩, ⟨some [8], 218917303, some 17⟩]⟩ : hmap_t Nat).n_entries ∧
     (∀ k, contentOf (⟨⟨16, 3, 19, 17⟩, 1, 8, 0,
        [⟨none, 0, none⟩, ⟨none, 0, none⟩, ⟨some [1], 67918732, some 10⟩, ⟨none, 0, none⟩,
         ⟨none, 0, none⟩, ⟨some [3], 101473970, some 12⟩, ⟨some [8], 218917303, some 17⟩,
         ⟨some [4], 17585875, some 13⟩, ⟨none, 0, none⟩, ⟨none, 0, none⟩,
         ⟨some [6], 51141113, some 15⟩, ⟨none, 0, none⟩, ⟨none, 0, none⟩, ⟨none, 0, none⟩,
         ⟨none, 0, none⟩, ⟨some [5], 808256, some 14⟩, ⟨some [2], 118251589, some 11⟩,
         ⟨none, 0, none⟩, ⟨some [7], 34363494, some 16⟩]⟩ : hmap_t Nat) k = contentOf (⟨⟨8, 2, 13, 11⟩, 0, 8, 0,
        [⟨some [3], 101473970, some 12⟩, ⟨some [2], 118251589, some 11⟩, ⟨none, 0, none⟩,
         ⟨none, 0, none⟩, ⟨none, 0, none⟩, ⟨none, 0, none⟩, ⟨none, 0, none⟩,
         ⟨some [5], 808256, some 14⟩, ⟨some [4], 17585875, some 13⟩,
         ⟨some [7], 34363494, some 16⟩, ⟨some [6], 51141113, some 15⟩,
         ⟨some [1], 67918732, some 10⟩, ⟨some [8], 218917303, some 17⟩]⟩ : hmap_t Nat) k) ∧
     (∀ k d, contentOf (⟨⟨8, 2, 13, 11⟩, 0, 8, 0,
        [⟨some [3], 101473970, some 12⟩, ⟨some [2], 118251589, some 11⟩, ⟨none, 0, none⟩,
         ⟨none, 0, none⟩, ⟨none, 0, none⟩, ⟨none, 0, none⟩, ⟨none, 0, none⟩,
         ⟨some [5], 808256, some 14⟩, ⟨some [4], 17585875, some 13⟩,
         ⟨some [7], 34363494, some 16⟩, ⟨some [6], 51141113, some 15⟩,
         ⟨some [1], 67918732, some 10⟩, ⟨some [8], 218917303, some 17⟩]⟩ : hmap_t Nat) k = some d →
       ∃ e m3 steps, hmap_get_entry (⟨⟨16, 3, 19, 17⟩, 1, 8, 0,
        [⟨none, 0, none⟩, ⟨none, 0, none⟩, ⟨some [1], 67918732, some 10⟩, ⟨none, 0, none⟩,
         ⟨none, 0, none⟩, ⟨some [3], 101473970, some 12⟩, ⟨some [8], 218917303, some 17⟩,
         ⟨some [4], 17585875, some 13⟩, ⟨none, 0, none⟩, ⟨none, 0, none⟩,
         ⟨some [6], 51141113, some 15⟩, ⟨none, 0, none⟩, ⟨none, 0, none⟩, ⟨none, 0, none⟩,
         ⟨none, 0, none⟩, ⟨some [5], 808256, some 14⟩, ⟨some [2], 118251589, some 11⟩,
         ⟨none, 0, none⟩, ⟨some [7], 34363494, some 16⟩]⟩ : hmap_t Nat) k = some (some e, m3, steps) ∧
         e.key = some k ∧ e.data = d)) :=
  ⟨by decide, by decide,
    C8_rehash_preservation (by decide) (by decide) (by decide)⟩

lemma relocFrom_deleted {α : Type} (m : hmap_t α) (h : Nat) :
    ∀ (T : Nat) (er : Option Nat) (t j : Nat), relocFrom m h er t T = some j →
      er = some j ∨ ∃ u < T, j = probeIdx m h (t + u) ∧
        is_deleted_entry (getEntry m j) = true := by
  intro T
  induction T with
  | zero => intro er t j he; exact Or.inl he
  | succ T ih =>
    intro er t j he
    rw [relocFrom] at he
    rcases ih _ _ _ he with hc | ⟨u, hu, hj, hd⟩
    · by_cases hcond : (er.isNone && is_deleted_entry (getEntry m (probeIdx m h t))) = true
      · rw [if_pos hcond] at hc
        cases hc
        refine Or.inr ⟨0, by omega, by rw [Nat.add_zero], ?_⟩
        simp only [Bool.and_eq_true] at hcond
        exact hcond.2
      · rw [if_neg hcond] at hc
        exact Or.inl hc
    · exact Or.inr ⟨u + 1, by omega,
        by rwa [show t + 1 + u = t + (u + 1) by omega] at hj, hd⟩

lemma reloc_effect {α : Type} {m m2 : hmap_t α} (hInv : hmapInv m) (k : Key)
    {idx jr : Nat} (hidx : idx < m.consts.size) (hjr : jr < m.consts.size) (hne : jr ≠ idx)
    (hkidx : (getEntry m idx).key = some k)
    (hjrkey : (getEntry m jr).key = none) (hjrhash : (getEntry m jr).hash = DELETED_HASH)
    (hrjr : ∃ t < m.consts.size, probeIdx m (hmap_hash k) t = jr ∧
      ∀ u < t, is_free_entry (getEntry m (probeIdx m (hmap_hash k) u)) = false)
    (hm2 : m2 = reloc_entry m idx jr) :
    hmapInv m2 ∧ ∀ k2, contentOf m2 k2 = contentOf m k2 := by
  obtain ⟨hci, hcs, hlen, hce, hcr, hld, hshape, huq, hra⟩ := hInv
  have hInv0 : hmapInv m := ⟨hci, hcs, hlen, hce, hcr, hld, hshape, huq, hra⟩
  have hdata_jr : (getEntry m jr).data = none := by
    have hmem := getEntry_mem (m := m) (j := jr) (by omega)
    rcases slot_cases (List.all_eq_true.mp hshape _ hmem) with ⟨-, h2⟩ | ⟨-, -, h3⟩ | ⟨k2, h1, -⟩
    · rw [hjrhash] at h2
      simp [DELETED_HASH] at h2
    · exact h3
    · rw [hjrkey] at h1
      cases h1
  have hhash_idx : (getEntry m idx).hash = hmap_hash k := live_hash hInv0 hidx hkidx
  have hm2e : m2.entries =
      (m.entries.set jr (getEntry m idx)).set idx ⟨none, DELETED_HASH, none⟩ := by
    rw [hm2]
    unfold reloc_entry
    dsimp only
  have hconsts : m2.consts = m.consts := by rw [hm2]; rfl
  have hcidx : m2.const_idx = m.const_idx := by rw [hm2]; rfl
  have hne2 : m2.n_entries = m.n_entries := by rw [hm2]; rfl
  have hnr2 : m2.n_removed = m.n_removed := by rw [hm2]; rfl
  have hprobe : ∀ h t, probeIdx m2 h t = probeIdx m h t := by
    intro h t
    unfold probeIdx
    rw [hconsts]
  have hget_idx : getEntry m2 idx = ⟨none, DELETED_HASH, none⟩ := by
    unfold getEntry
    rw [hm2e]
    exact getD_set_eq _ _ _ _ (by rw [List.length_set]; omega)
  have hget_jr : getEntry m2 jr = getEntry m idx := by
    unfold getEntry
    rw [hm2e]
    rw [getD_set_ne _ _ _ _ _ hne]
    exact getD_set_eq _ _ _ _ (by omega)
  have hget_other : ∀ i, i ≠ idx → i ≠ jr → getEntry m2 i = getEntry m i := by
    intro i h1 h2
    unfold getEntry
    rw [hm2e, getD_set_ne _ _ _ _ _ h1, getD_set_ne _ _ _ _ _ h2]
  have hlen2 : m2.entries.length = m2.consts.size := by
    rw [hm2e, hconsts, List.length_set, List.length_set]
    exact hlen
  have hfree_mono : ∀ i, is_free_entry (getEntry m i) = false →
      is_free_entry (getEntry m2 i) = false := by
    intro i hif
    by_cases h1 : i = idx
    · rw [h1, hget_idx]
      simp [is_free_entry, DELETED_HASH]
    · by_cases h2 : i = jr
      · rw [h2, hget_jr]
        unfold is_free_entry
        rw [hkidx]
        rfl
      · rw [hget_other i h1 h2]
        exact hif
  have hInv2 : hmapInv m2 := by
    refine ⟨by rw [hcidx]; exact hci, by rw [hconsts, hcidx]; exact hcs, hlen2, ?_, ?_,
      by rw [hne2, hnr2, hconsts]; omega, ?_, ?_, ?_⟩
    · rw [hm2e]
      have hc1 := countP_set_add (fun e => e.key.isSome) m.entries jr (getEntry m idx)
        (by omega)
      rw [getD_of_lt _ _ _ empty_hmap_entry (by omega)] at hc1
      have h1 : (m.entries.getD jr empty_hmap_entry).key.isSome = false := by
        show (getEntry m jr).key.isSome = false
        rw [hjrkey]; rfl
      have h2 : (getEntry m idx).key.isSome = true := by rw [hkidx]; rfl
      simp only [h1, h2] at hc1
      norm_num at hc1
      have hc2 := countP_set_add (fun e => e.key.isSome) (m.entries.set jr (getEntry m idx))
        idx (⟨none, DELETED_HASH, none⟩ : hmap_entry_t α) (by rw [List.length_set]; omega)
      rw [getD_of_lt _ _ _ empty_hmap_entry (by rw [List.length_set]; omega)] at hc2
      have h3 : ((m.entries.set jr (getEntry m idx)).getD idx empty_hmap_entry).key.isSome
          = true := by
        rw [getD_set_ne _ _ _ _ _ (fun hc => hne hc.symm)]
        show (getEntry m idx).key.isSome = true
        rw [hkidx]; rfl
      simp only [h3] at hc2
      norm_num at hc2
      rw [hne2]
      omega
    · rw [hm2e]
      have hc1 := countP_set_add (fun e => e.key.isNone && e.hash == DELETED_HASH)
        m.entries jr (getEntry m idx) (by omega)
      rw [getD_of_lt _ _ _ empty_hmap_entry (by omega)] at hc1
      have h1 : ((m.entries.getD jr empty_hmap_entry).key.isNone &&
          (m.entries.getD jr empty_hmap_entry).hash == DELETED_HASH) = true := by
        show ((getEntry m jr).key.isNone && (getEntry m jr).hash == DELETED_HASH) = true
        rw [hjrkey, hjrhash]
        simp
      have h2 : ((getEntry m idx).key.isNone && (getEntry m idx).hash == DELETED_HASH)
          = false := by
        rw [hkidx]
        rfl
      simp only [h1, h2] at hc1
      norm_num at hc1
      have hc2 := countP_set_add (fun e => e.key.isNone && e.hash == DELETED_HASH)
        (m.entries.set jr (getEntry m idx)) idx (⟨none, DELETED_HASH, none⟩ : hmap_entry_t α)
        (by rw [List.length_set]; omega)
      rw [getD_of_lt _ _ _ empty_hmap_entry (by rw [List.length_set]; omega)] at hc2
      have h3 : (((m.entries.set jr (getEntry m idx)).getD idx empty_hmap_entry).key.isNone &&
          ((m.entries.set jr (getEntry m idx)).getD idx empty_hmap_entry).hash ==
            DELETED_HASH) = false := by
        rw [getD_set_ne _ _ _ _ _ (fun hc => hne hc.symm)]
        show ((getEntry m idx).key.isNone && (getEntry m idx).hash == DELETED_HASH) = false
        rw [hkidx]
        rfl
      simp only [h3] at hc2
      norm_num at hc2
      rw [hnr2]
      omega
    · rw [hm2e]
      refine all_set _ _ _ _ (all_set _ _ _ _ hshape ?_) ?_
      · have hmem := getEntry_mem (m := m) (j := idx) (by omega)
        exact List.all_eq_true.mp hshape _ hmem
      · unfold slotShapeOK
        simp [DELETED_HASH]
    · rw [uniqKeysOK_iff]
      intro i hi j hj k2 hki hkj
      rw [hlen2, hconsts] at hi hj
      have hgi : ∀ i2, i2 < m.consts.size → (getEntry m2 i2).key = some k2 →
          (i2 = jr ∧ k2 = k) ∨ (i2 ≠ idx ∧ i2 ≠ jr ∧ (getEntry m i2).key = some k2) := by
        intro i2 hi2 hk2
        by_cases h1 : i2 = idx
        · rw [h1, hget_idx] at hk2
          cases hk2
        · by_cases h2 : i2 = jr
          · rw [h2, hget_jr, hkidx] at hk2
            cases hk2
            exact Or.inl ⟨h2, rfl⟩
          · exact Or.inr ⟨h1, h2, by rwa [hget_other i2 h1 h2] at hk2⟩
      rcases hgi i hi hki with ⟨hieq, hkeq⟩ | ⟨hi1, hi2, hik⟩ <;>
        rcases hgi j hj hkj with ⟨hjeq, hkeq2⟩ | ⟨hj1, hj2, hjk⟩
      · rw [hieq, hjeq]
      · exfalso
        subst hkeq
        have := uniq_slots hInv0 (by omega) hidx hjk hkidx
        omega
      · exfalso
        subst hkeq2
        have := uniq_slots hInv0 (by omega) hidx hik hkidx
        omega
      · exact uniq_slots hInv0 (by omega) (by omega) hik hjk
    · rw [reachAllOK_iff]
      intro j hj k2 hk2
      rw [hconsts] at hj ⊢
      by_cases h1 : j = idx
      · exfalso
        rw [h1, hget_idx] at hk2
        cases hk2
      · by_cases h2 : j = jr
        · rw [h2, hget_jr, hkidx] at hk2
          cases hk2
          obtain ⟨t, ht, hpt, hpf⟩ := hrjr
          refine ⟨t, by omega, by rw [hprobe, ← h2] at *; rw [h2]; exact hpt, ?_⟩
          intro u hu
          rw [hprobe]
          exact hfree_mono _ (hpf u hu)
        · rw [hget_other j h1 h2] at hk2
          obtain ⟨t, ht, hpt, hpf⟩ := reach_spec hInv0 (by omega) hk2
          refine ⟨t, by omega, by rw [hprobe]; exact hpt, ?_⟩
          intro u hu
          rw [hprobe]
          exact hfree_mono _ (hpf u hu)
  refine ⟨hInv2, ?_⟩
  intro k2
  rcases hc2 : contentOf m k2 with _ | d2
  · refine (contentOf_eq_none hInv2).mpr ?_
    intro j hj
    rw [hconsts] at hj
    by_cases h1 : j = idx
    · rw [h1, hget_idx]
      intro hcc
      cases hcc
    · by_cases h2 : j = jr
      · rw [h2, hget_jr, hkidx]
        intro hcc
        cases hcc
        exact absurd hkidx ((contentOf_eq_none hInv0).mp hc2 idx hidx)
      · rw [hget_other j h1 h2]
        exact (contentOf_eq_none hInv0).mp hc2 j hj
  · obtain ⟨j, hj, hkj, hdj⟩ := (contentOf_eq_some hInv0).mp hc2
    by_cases h1 : j = idx
    · refine (contentOf_eq_some hInv2).mpr ⟨jr, by rw [hconsts]; omega, ?_, ?_⟩
      · rw [hget_jr, ← h1]
        exact hkj
      · rw [hget_jr, ← h1]
        exact hdj
    · have h2 : j ≠ jr := by
        intro hcc
        rw [hcc, hjrkey] at hkj
        cases hkj
      exact (contentOf_eq_some hInv2).mpr ⟨j, by rw [hconsts]; omega,
        by rw [hget_other j h1 h2]; exact hkj, by rw [hget_other j h1 h2]; exact hdj⟩

lemma getEntry_reloc_other {α : Type} (m : hmap_t α) (idx_from j i : Nat)
    (h1 : i ≠ idx_from) (h2 : i ≠ j) :
    getEntry (reloc_entry m idx_from j) i = getEntry m i := by
  unfold reloc_entry getEntry
  dsimp only
  rw [getD_set_ne _ _ _ _ _ h1, getD_set_ne _ _ _ _ _ h2]

/-- C7 (amended): if `hmap_get_entry m k` succeeds (returning entry `e`, map
`m2` and `steps` visited slots), an immediately repeated lookup of `k` on `m2`
succeeds and visits no more slots; and IF no live entry of `m` has hash
`DELETED_HASH` (so every slot the relocation target scan can pick is a genuine
tombstone), the lookup preserves the invariant and the content of every key,
and every key present in `m` is still retrievable from `m2` with its data.
The side condition is necessary: see the counterexample with `kSentinel`. -/
theorem C7_relocation {α : Type} {m : hmap_t α} (hInv : hmapInv m) (k : Key)
    {e : hmap_entry_t α} {m2 : hmap_t α} {steps : Nat}
    (hget : hmap_get_entry m k = some (some e, m2, steps)) :
    (∃ e2 m3 steps2, hmap_get_entry m2 k = some (some e2, m3, steps2) ∧ steps2 ≤ steps) ∧
    ((∀ j < m.consts.size, (getEntry m j).key.isSome = true →
        (getEntry m j).hash ≠ DELETED_HASH) →
      hmapInv m2 ∧ (∀ k2, contentOf m2 k2 = contentOf m k2) ∧
      (∀ k2 d2, contentOf m k2 = some d2 →
        ∃ e3 m4 steps3, hmap_get_entry m2 k2 = some (some e3, m4, steps3) ∧
          e3.key = some k2 ∧ e3.data = d2)) := by
  classical
  rcases hc : contentOf m k with _ | d
  · exfalso
    obtain ⟨st, habs⟩ := get_absent hInv hc
    rw [habs] at hget
    simp at hget
  · obtain ⟨T, hT, hnfT, hPT, hkeyT, hdataT, hpre⟩ := first_stop_found hInv hc
    rcases hrel : relocFrom m (hmap_hash k) none 0 T with _ | jr
    · have hres := hmap_get_match_noreloc m k T hT hnfT hPT hrel hpre
      rw [hres] at hget
      simp only [Option.some.injEq, Prod.mk.injEq] at hget
      obtain ⟨-, hm2, hsteps⟩ := hget
      subst hm2
      refine ⟨⟨getEntry m (probeIdx m (hmap_hash k) T), m, T + 1, hres, by omega⟩, ?_⟩
      intro _
      exact ⟨hInv, fun k2 => rfl, fun k2 d2 hcd => get_found hInv hcd⟩
    · have hres := hmap_get_match_reloc m k T jr hT hnfT hPT hrel hpre
      rw [hres] at hget
      simp only [Option.some.injEq, Prod.mk.injEq] at hget
      obtain ⟨-, hm2, hsteps⟩ := hget
      rcases relocFrom_deleted m (hmap_hash k) T none 0 jr hrel with h0 | ⟨ur, hur, hjr_eq, hjr_del⟩
      · cases h0
      · rw [Nat.zero_add] at hjr_eq
        have hjrlt : jr < m.consts.size := by
          rw [hjr_eq]
          exact probeIdx_lt m (hmap_hash k) ur (by omega)
        have hjrne : jr ≠ probeIdx m (hmap_hash k) T := by
          rw [hjr_eq]
          intro hcc
          have := probeIdx_inj (inv_consts_mem hInv) (hmap_hash k) (by omega) hT hcc
          omega
        have hlen := hInv.2.2.1
        have hejr := getEntry_reloc_self m (probeIdx m (hmap_hash k) T) jr (by omega) hjrne
        have hconsts2 : m2.consts = m.consts := by rw [← hm2]; rfl
        have hprobe2 : ∀ t, probeIdx m2 (hmap_hash k) t = probeIdx m (hmap_hash k) t := by
          intro t
          unfold probeIdx
          rw [hconsts2]
        have hsz2 : m2.consts.size = m.consts.size := by rw [hconsts2]
        have hother : ∀ u, u < T → u ≠ ur →
            getEntry m2 (probeIdx m (hmap_hash k) u) =
              getEntry m (probeIdx m (hmap_hash k) u) := by
          intro u hu hne
          rw [← hm2]
          refine getEntry_reloc_other m _ _ _ ?_ ?_
          · intro hcc
            have := probeIdx_inj (inv_consts_mem hInv) (hmap_hash k) (by omega) hT hcc
            omega
          · rw [hjr_eq]
            intro hcc
            have := probeIdx_inj (inv_consts_mem hInv) (hmap_hash k) (by omega) (by omega) hcc
            omega
        have hmatch_ur : is_matching_entry (getEntry m2 (probeIdx m2 (hmap_hash k) ur))
            (hmap_hash k) k = true := by
          rw [hprobe2, ← hjr_eq, ← hm2, hejr]
          exact hPT
        have hPex2 : ∃ t, is_matching_entry (getEntry m2 (probeIdx m2 (hmap_hash k) t))
            (hmap_hash k) k = true := ⟨ur, hmatch_ur⟩
        have hPT2 := Nat.find_spec hPex2
        have hT2le : Nat.find hPex2 ≤ ur := Nat.find_le hmatch_ur
        set T2 := Nat.find hPex2 with hT2def
        have hT2 : T2 < m2.consts.size := by rw [hsz2]; omega
        have hpre2 : ∀ u < T2,
            is_free_entry (getEntry m2 (probeIdx m2 (hmap_hash k) u)) = false ∧
            is_matching_entry (getEntry m2 (probeIdx m2 (hmap_hash k) u)) (hmap_hash k) k
              = false := by
          intro u hu
          refine ⟨?_, by have := Nat.find_min hPex2 hu; simpa using this⟩
          rw [hprobe2, hother u (by omega) (by omega)]
          exact (hpre u (by omega)).1
        have hnf2 : is_free_entry (getEntry m2 (probeIdx m2 (hmap_hash k) T2)) = false := by
          unfold is_matching_entry at hPT2
          simp only [Bool.and_eq_true, beq_iff_eq, decide_eq_true_eq] at hPT2
          unfold is_free_entry
          rw [hPT2.2]
          simp
        have hstep2 : ∃ e2 m3 steps2, hmap_get_entry m2 k = some (some e2, m3, steps2) ∧
            steps2 ≤ steps := by
          rcases hrel2 : relocFrom m2 (hmap_hash k) none 0 T2 with _ | j2
          · exact ⟨getEntry m2 (probeIdx m2 (hmap_hash k) T2), m2, T2 + 1,
              hmap_get_match_noreloc m2 k T2 hT2 hnf2 hPT2 hrel2 hpre2, by omega⟩
          · exact ⟨getEntry (reloc_entry m2 (probeIdx m2 (hmap_hash k) T2) j2) j2,
              reloc_entry m2 (probeIdx m2 (hmap_hash k) T2) j2, T2 + 1,
              hmap_get_match_reloc m2 k T2 j2 hT2 hnf2 hPT2 hrel2 hpre2, by omega⟩
        refine ⟨hstep2, ?_⟩
        intro hclean
        have hjrhash : (getEntry m jr).hash = DELETED_HASH := by
          unfold is_deleted_entry at hjr_del
          simpa using hjr_del
        have hjrkey : (getEntry m jr).key = none := by
          rcases hjk : (getEntry m jr).key with _ | k2
          · rfl
          · exfalso
            refine hclean jr hjrlt (by rw [hjk]; rfl) hjrhash
        have hrjr : ∃ t < m.consts.size, probeIdx m (hmap_hash k) t = jr ∧
            ∀ u < t, is_free_entry (getEntry m (probeIdx m (hmap_hash k) u)) = false := by
          exact ⟨ur, by omega, hjr_eq.symm, fun u hu => (hpre u (by omega)).1⟩
        obtain ⟨hInv2, hcont⟩ := reloc_effect hInv k
          (probeIdx_lt m (hmap_hash k) T (by omega)) hjrlt hjrne hkeyT hjrkey hjrhash
          hrjr hm2.symm
        exact ⟨hInv2, hcont, fun k2 d2 hcd =>
          get_found hInv2 (by rw [hcont k2]; exact hcd)⟩

/-- C7 (counterexample): relocation-on-lookup does NOT preserve lookup
correctness for every other key.  `kSentinel`'s FNV-1a hash is exactly
`DELETED_HASH`, so its live entry at slot 8 is treated as the "first
tombstone" of `kColl`'s probe chain (both keys hash to primary slot 8 mod 13).
After create(8), add(kSentinel, 1), add(kColl, 2), a lookup of `kSentinel`
still finds data 1; but a successful lookup of `kColl` relocates `kColl`'s
entry onto slot 8, overwriting the live `kSentinel` entry, after which a
lookup of `kSentinel` returns NULL. -/
theorem C7_counterexample :
    ((hmap_create Nat 8).bind fun m0 =>
      (hmap_add_entry m0 kSentinel (some 1)).bind fun rA =>
        (hmap_add_entry rA.2 kColl (some 2)).map fun rB =>
          ((hmap_get_entry rB.2 kSentinel).map fun rs => rs.1.map fun e => e.data,
           (hmap_get_entry rB.2 kColl).bind fun rg =>
             (hmap_get_entry rg.2.1 kSentinel).map fun rs => rs.1))
      = some (some (some (some 1)), some none) := by decide

/-- C7 witness: `C7_relocation` applied to the concrete map `relocW_m`, whose
key `[20]` sits behind a genuine tombstone; the lookup relocates it and the
conclusion holds with `steps = 2`. -/
theorem C7_witness :
    hmapInv relocW_m ∧
    hmap_get_entry relocW_m [20] = some (some relocW_e, relocW_m2, 2) ∧
    ((∃ e2 m3 steps2, hmap_get_entry relocW_m2 [20] = some (some e2, m3, steps2) ∧
        steps2 ≤ 2) ∧
     ((∀ j < relocW_m.consts.size, (getEntry relocW_m j).key.isSome = true →
         (getEntry relocW_m j).hash ≠ DELETED_HASH) →
       hmapInv relocW_m2 ∧ (∀ k2, contentOf relocW_m2 k2 = contentOf relocW_m k2) ∧
       (∀ k2 d2, contentOf relocW_m k2 = some d2 →
         ∃ e3 m4 steps3, hmap_get_entry relocW_m2 k2 = some (some e3, m4, steps3) ∧
           e3.key = some k2 ∧ e3.data = d2))) :=
  ⟨by decide, by decide,
    @C7_relocation Nat relocW_m (by decide) [20] relocW_e relocW_m2 2 (by decide)⟩



end RaceC
